import Mathlib

/-! PDF4QT font code maps (PDFFontCMap): a shallow embedding.

Source: `src/PdfForQtLib/sources/pdffont.cpp`.

Conventions of the embedding.

* `unsigned int` values (`Entry::from`, `Entry::to`, `Entry::byteCount`, `CID`,
  `m_maxKeyLength`, the accumulator `value` of `interpret`) are natural numbers; every
  operation that can wrap carries an explicit `% 4294967296` (2^32).
* A `QByteArray` is a `List Nat`; a byte is read through `static_cast<unsigned char>`,
  rendered as `% 256`.
* A `std::vector` is a `List`; `push_back` / `emplace_back` append at the end.
* Undefined behaviour and thrown exceptions are explicit: `Option` for the former,
  `Except ParseError` for the latter.
* A `QChar` is its 16-bit code unit; the null character `QChar()` is `0`.
-/

namespace PDF4QT

/-! ## Data model -/

/-- One range of a code map: `PDFFontCMap::Entry` with the fields `from`, `to`, `byteCount`
and `cid` (the field names `from` and `to` are reserved words, hence the underscore). -/
structure Entry where
  from_ : Nat
  to_ : Nat
  byteCount : Nat
  cid : Nat
deriving DecidableEq

/-- The class `PDFFontCMap`: members `m_entries`, `m_maxKeyLength`, `m_vertical`. -/
structure PDFFontCMap where
  m_entries : List Entry
  m_maxKeyLength : Nat
  m_vertical : Bool
deriving DecidableEq

/-- Constructor `PDFFontCMap::PDFFontCMap(Entries&&, bool)` (pdffont.cpp 1736-1742):
`m_maxKeyLength` is `std::accumulate` of `qMax(a, b.byteCount)` from `0`. -/
def PDFFontCMap.create (entries : List Entry) (vertical : Bool) : PDFFontCMap :=
  { m_entries := entries,
    m_maxKeyLength := entries.foldl (fun a b => max a b.byteCount) 0,
    m_vertical := vertical }

/-- Modelled from the spec: `PDFFontCMap::isValid` is declared in pdffont.h, which is not
among the sources; the spec calls a map invalid when it has no entries. -/
def PDFFontCMap.isValid (m : PDFFontCMap) : Bool := !m.m_entries.isEmpty

/-! ## interpret (pdffont.cpp 1684-1718) -/

/-- The accumulator update `value = (value << 8) + static_cast<unsigned char>(byte)` on a
32-bit unsigned `value`. -/
def shiftIn (value byte : Nat) : Nat :=
  ((value * 256) % 4294967296 + byte % 256) % 4294967296

/-- The loop of `fetchCode` (pdffont.cpp 1482-1486), which is also what `interpret`
accumulates: the big-endian value of a byte string in a 32-bit unsigned integer. -/
def codeValue (byteArray : List Nat) : Nat := byteArray.foldl shiftIn 0

/-- The predicate of the `std::find_if` of `interpret`:
`entry.from <= value && entry.to >= value && entry.byteCount == scannedBytes`. -/
def Entry.suits (value scannedBytes : Nat) (entry : Entry) : Bool :=
  decide (entry.from_ ≤ value) && decide (entry.to_ ≥ value) &&
    decide (entry.byteCount = scannedBytes)

/-- The `for` loop of `interpret`, with the loop state `value`, `scannedBytes` passed
explicitly; the list returned is what the loop pushes to `result`, in order. -/
def interpretLoop (entries : List Entry) (maxKeyLength : Nat) : Nat → Nat → List Nat → List Nat
  | _, _, [] => []
  | value, scannedBytes, b :: bs =>
    let value1 := shiftIn value b
    let scanned1 := scannedBytes + 1
    match entries.find? (Entry.suits value1 scanned1) with
    | some entry =>
      ((value1 - entry.from_ + entry.cid) % 4294967296) ::
        interpretLoop entries maxKeyLength 0 0 bs
    | none =>
      if scanned1 = maxKeyLength then 0 :: interpretLoop entries maxKeyLength 0 0 bs
      else interpretLoop entries maxKeyLength value1 scanned1 bs

/-- The argument of `result.reserve(byteArray.size() / m_maxKeyLength)`: an integer division,
undefined (`none`) when the divisor is zero. -/
def reserveSize (size maxKeyLength : Nat) : Option Nat :=
  if maxKeyLength = 0 then none else some (size / maxKeyLength)

/-- The function `PDFFontCMap::interpret`: `none` when the size computation is undefined,
otherwise the identifiers pushed by the loop. -/
def PDFFontCMap.interpret (m : PDFFontCMap) (byteArray : List Nat) : Option (List Nat) :=
  match reserveSize byteArray.length m.m_maxKeyLength with
  | none => none
  | some _ => some (interpretLoop m.m_entries m.m_maxKeyLength 0 0 byteArray)

/-! ## getToUnicode (pdffont.cpp 1720-1734) -/

/-- The function `PDFFontCMap::getToUnicode`; `QChar(unicodeCID)` keeps the low 16 bits of
its `uint` argument and `QChar()` is the null character. -/
def PDFFontCMap.getToUnicode (m : PDFFontCMap) (cid : Nat) : Nat :=
  if m.isValid then
    match m.m_entries.find?
        (fun entry => decide (entry.from_ ≤ cid) && decide (entry.to_ ≥ cid)) with
    | some entry => ((cid - entry.from_ + entry.cid) % 4294967296) % 65536
    | none => 0
  else 0

/-! ## optimize (pdffont.cpp 1744-1771) -/

/-- Modelled from the spec: `Entry::canMerge` is declared in pdffont.h, which is not among
the sources. The spec merges two adjacent entries when they share `byteCount`, the second's
`from` is exactly one past the first's `to`, and the identifier progression is linear: the
second's identifier is the one the first entry's progression reaches at the second's `from`.
All arithmetic is 32-bit unsigned. -/
def Entry.canMerge (self other : Entry) : Bool :=
  let sameBytes := decide (self.byteCount = other.byteCount)
  let compatibleRange := decide ((self.to_ + 1) % 4294967296 = other.from_)
  let compatibleCID :=
    decide (((self.cid + self.to_ + 1) % 4294967296 + (4294967296 - self.from_ % 4294967296))
      % 4294967296 = other.cid)
  sameBytes && compatibleRange && compatibleCID

/-- Modelled from the spec: `Entry::merge` is declared in pdffont.h, which is not among the
sources. The coalesced entry starts where the first starts, ends where the second ends and
keeps the first's `byteCount` and identifier. -/
def Entry.merge (self other : Entry) : Entry :=
  { from_ := self.from_, to_ := other.to_, byteCount := self.byteCount, cid := self.cid }

/-- The `for` loop of `optimize` with the loop variable `current` passed explicitly; the
list returned is what the loop and the final `emplace_back(current)` put into `result`. -/
def optimizeLoop (current : Entry) : List Entry → List Entry
  | [] => [current]
  | toMerge :: rest =>
    if current.canMerge toMerge then optimizeLoop (current.merge toMerge) rest
    else current :: optimizeLoop toMerge rest

/-- The function `PDFFontCMap::optimize`. -/
def optimize : List Entry → List Entry
  | [] => []
  | front :: rest => optimizeLoop front rest

/-- Modelled from the spec: `Entry::operator<` is declared in pdffont.h, which is not among
the sources. The spec orders entries by (from, to, byteCount, identifier); this is the
reflexive closure of that lexicographic order. -/
def Entry.le (a b : Entry) : Prop :=
  a.from_ < b.from_ ∨ (a.from_ = b.from_ ∧ (a.to_ < b.to_ ∨ (a.to_ = b.to_ ∧
    (a.byteCount < b.byteCount ∨ (a.byteCount = b.byteCount ∧ a.cid ≤ b.cid)))))

instance Entry.decidableLe : DecidableRel Entry.le := fun a b => by
  unfold Entry.le; infer_instance

/-- The call `std::sort(entries.begin(), entries.end())` of `createFromData`: the order is
total on all four fields, so the sorted vector is determined by the ordering alone. -/
def sortEntries (entries : List Entry) : List Entry := entries.insertionSort Entry.le

/-! ## serialize / deserialize (pdffont.cpp 1639-1682) -/

/-- The operator `QDataStream << quint32`: four bytes, most significant first. -/
def putU32 (n : Nat) : List Nat :=
  [(n / 16777216) % 256, (n / 65536) % 256, (n / 256) % 256, n % 256]

/-- The operator `QDataStream << quint64` (the entry count): eight bytes, most significant
first. -/
def putU64 (n : Nat) : List Nat :=
  putU32 ((n / 4294967296) % 4294967296) ++ putU32 (n % 4294967296)

/-- The operator `QDataStream << bool`: one byte. -/
def putBool (b : Bool) : List Nat := [if b then 1 else 0]

/-- The operator `QDataStream >> quint32`: the value read and the rest of the stream; a
stream that ends early yields `0`. -/
def getU32 : List Nat → Nat × List Nat
  | b0 :: b1 :: b2 :: b3 :: rest =>
    ((b0 % 256) * 16777216 + (b1 % 256) * 65536 + (b2 % 256) * 256 + b3 % 256, rest)
  | _ => (0, [])

/-- The operator `QDataStream >> quint64`. -/
def getU64 (stream : List Nat) : Nat × List Nat :=
  let hi := getU32 stream
  let lo := getU32 hi.2
  (hi.1 * 4294967296 + lo.1, lo.2)

/-- The operator `QDataStream >> bool`: a byte different from zero reads as `true`. -/
def getBool : List Nat → Bool × List Nat
  | b :: rest => (decide (b % 256 ≠ 0), rest)
  | [] => (false, [])

/-- The body of the `for` loop of `serialize`: the four fields of one entry. -/
def putEntry (entry : Entry) : List Nat :=
  putU32 entry.from_ ++ putU32 entry.to_ ++ putU32 entry.byteCount ++ putU32 entry.cid

/-- The function `PDFFontCMap::serialize`; `qCompress(result, 9)` is a parameter. -/
def PDFFontCMap.serialize (qCompress : List Nat → List Nat) (m : PDFFontCMap) : List Nat :=
  qCompress (putU32 m.m_maxKeyLength ++ putBool m.m_vertical ++ putU64 m.m_entries.length ++
    m.m_entries.flatMap putEntry)

/-- The `for` loop of `deserialize`: `size` entries are read off the stream. -/
def readEntries : Nat → List Nat → List Entry
  | 0, _ => []
  | size + 1, stream =>
    let from_ := getU32 stream
    let to_ := getU32 from_.2
    let byteCount := getU32 to_.2
    let cid := getU32 byteCount.2
    { from_ := from_.1, to_ := to_.1, byteCount := byteCount.1, cid := cid.1 } ::
      readEntries size cid.2

/-- The function `PDFFontCMap::deserialize`; `qUncompress` is a parameter. -/
def PDFFontCMap.deserialize (qUncompress : List Nat → List Nat) (byteArray : List Nat) :
    PDFFontCMap :=
  let decompressed := qUncompress byteArray
  let maxKeyLength := getU32 decompressed
  let vertical := getBool maxKeyLength.2
  let size := getU64 vertical.2
  { m_entries := readEntries size.1 size.2,
    m_maxKeyLength := maxKeyLength.1,
    m_vertical := vertical.1 }

/-! ## createFromData (pdffont.cpp 1455-1637) -/

/-- Modelled from the spec: `PDFLexicalAnalyzer::Token` belongs to the lexer, which is not
among the sources. A token is a kind plus its data; the kinds the code map reader inspects
are integer, string, name and command, every other kind is `other`, and `endOfFile` is the
token of an exhausted stream (also the default-constructed token). -/
inductive Token where
  | integer (value : Int)
  | string (data : List Nat)
  | name (data : String)
  | command (data : String)
  | other
  | endOfFile
deriving DecidableEq

/-- The `PDFParserException`s thrown while a code map is read, by message;
`recursionLimit` marks a chain of `usecmap` references deeper than the allowed depth. -/
inductive ParseError where
  | cantFetchCode
  | cantFetchCID
  | cantUseCMap
  | cantLoadNamed (name : String)
  | recursionLimit
deriving DecidableEq

/-- The local variables of `createFromData` that live across iterations of its main loop. -/
structure ParseState where
  entries : List Entry
  additionalMappings : List PDFFontCMap
  vertical : Bool
  previousToken : Token
deriving DecidableEq

/-- The three blocks read by a `while (true)` loop of their own. -/
inductive Block where
  | cidrange
  | cidchar
  | bfchar
deriving DecidableEq

/-- The command token that opened a block; it becomes `previousToken` after the block. -/
def Block.opener : Block → Token
  | Block.cidrange => Token.command "begincidrange"
  | Block.cidchar => Token.command "begincidchar"
  | Block.bfchar => Token.command "beginbfchar"

/-- Modelled from the spec: `PDFLexicalAnalyzer::fetch` belongs to the lexer, which is not
among the sources. It returns the next token and advances; on an exhausted stream the token
is `endOfFile`, so a missing operand has the wrong kind. -/
def fetch : List Token → Token × List Token
  | [] => (Token.endOfFile, [])
  | token :: rest => (token, rest)

/-- The lambda `fetchCode` (pdffont.cpp 1476-1493): code value and byte count of a string
token, an exception for every other token. -/
def fetchCode (currentToken : Token) : Except ParseError (Nat × Nat) :=
  match currentToken with
  | Token.string byteArray => Except.ok (codeValue byteArray, byteArray.length)
  | _ => Except.error ParseError.cantFetchCode

/-- The lambda `fetchCID` (pdffont.cpp 1495-1504): the integer of an integer token converted
to `CID` (32-bit unsigned), an exception for every other token. -/
def fetchCID (currentToken : Token) : Except ParseError Nat :=
  match currentToken with
  | Token.integer value => Except.ok (value % 4294967296).toNat
  | _ => Except.error ParseError.cantFetchCID

/-- The lambda `fetchUnicode` (pdffont.cpp 1506-1523): for a two-byte string token the local
`unicodeValue` is computed and dropped; every path ends in `return 0`, none throws. -/
def fetchUnicode (currentToken : Token) : Nat :=
  match currentToken with
  | Token.string byteArray =>
    if byteArray.length = 2 then
      let _unicodeValue := codeValue byteArray
      0
    else 0
  | _ => 0

/-- The lambda `fetchUnicode` as a computation that never throws. -/
def pureUnicode (currentToken : Token) : Except ParseError Nat :=
  Except.ok (fetchUnicode currentToken)

/-- The entry of one range triple: `fetchCode(token1)`, `fetchCode(token2)`, the target of
`token3`, then `Entry(from.first, to.first, qMax(from.second, to.second), cid)`. -/
def rangeEntry (fetchTarget : Token → Except ParseError Nat) (token1 token2 token3 : Token) :
    Except ParseError Entry := do
  let from_ ← fetchCode token1
  let to_ ← fetchCode token2
  let cid ← fetchTarget token3
  pure { from_ := from_.1, to_ := to_.1, byteCount := max from_.2 to_.2, cid := cid }

/-- The entry of one char pair: `fetchCode(token1)`, the target of `token2`, then
`Entry(code.first, code.first, code.second, cid)`. -/
def charEntry (fetchTarget : Token → Except ParseError Nat) (token1 token2 : Token) :
    Except ParseError Entry := do
  let code ← fetchCode token1
  let cid ← fetchTarget token2
  pure { from_ := code.1, to_ := code.1, byteCount := code.2, cid := cid }

/-- The main loop `while (!parser.isAtEnd())` of `createFromData` together with the
`while (true)` loops of the cidrange, cidchar and bfchar blocks. The first argument is the
program point: `none` is the main loop, `some block` the loop of that block. The parser is
the list of tokens not yet fetched. A `break` of the main loop (an empty bfrange block)
returns the state; `createFromName` is the loader used by `usecmap`. -/
def parseLoop (createFromName : String → Except ParseError PDFFontCMap) :
    Option Block → List Token → ParseState → Except ParseError ParseState
  | none, [], st => pure st
  | none, token :: rest, st =>
    if token = Token.name "WMode" then
      match rest with
      | [] => pure { st with vertical := false }
      | valueToken :: rest1 =>
        parseLoop createFromName none rest1
          { st with vertical := decide (valueToken = Token.integer 1) }
    else if token = Token.command "usecmap" then
      match st.previousToken with
      | Token.name name => do
        let map ← createFromName name
        parseLoop createFromName none rest
          { st with additionalMappings := st.additionalMappings ++ [map],
                    previousToken := token }
      | _ => throw ParseError.cantUseCMap
    else if token = Token.command "beginbfrange" then
      match rest with
      | [] => do
        let entry ← rangeEntry pureUnicode Token.endOfFile Token.endOfFile Token.endOfFile
        pure { st with entries := st.entries ++ [entry], previousToken := token }
      | token1 :: rest1 =>
        if token1 = Token.command "endbfrange" then pure st
        else
          match rest1 with
          | token2 :: token3 :: rest3 => do
            let entry ← rangeEntry pureUnicode token1 token2 token3
            parseLoop createFromName none rest3
              { st with entries := st.entries ++ [entry], previousToken := token }
          | _ => do
            let entry ← rangeEntry pureUnicode token1 (fetch rest1).1 Token.endOfFile
            pure { st with entries := st.entries ++ [entry], previousToken := token }
    else if token = Token.command "begincidrange" then
      parseLoop createFromName (some Block.cidrange) rest st
    else if token = Token.command "begincidchar" then
      parseLoop createFromName (some Block.cidchar) rest st
    else if token = Token.command "beginbfchar" then
      parseLoop createFromName (some Block.bfchar) rest st
    else parseLoop createFromName none rest { st with previousToken := token }
  | some Block.cidrange, [], _ => throw ParseError.cantFetchCode
  | some Block.cidrange, token1 :: rest1, st =>
    if token1 = Token.command "endcidrange" then
      parseLoop createFromName none rest1 { st with previousToken := Block.cidrange.opener }
    else
      match rest1 with
      | token2 :: token3 :: rest3 => do
        let entry ← rangeEntry fetchCID token1 token2 token3
        parseLoop createFromName (some Block.cidrange) rest3
          { st with entries := st.entries ++ [entry] }
      | _ => do
        let _ ← rangeEntry fetchCID token1 (fetch rest1).1 Token.endOfFile
        throw ParseError.cantFetchCID
  | some Block.cidchar, [], _ => throw ParseError.cantFetchCode
  | some Block.cidchar, token1 :: rest1, st =>
    if token1 = Token.command "endcidchar" then
      parseLoop createFromName none rest1 { st with previousToken := Block.cidchar.opener }
    else
      match rest1 with
      | token2 :: rest2 => do
        let entry ← charEntry fetchCID token1 token2
        parseLoop createFromName (some Block.cidchar) rest2
          { st with entries := st.entries ++ [entry] }
      | [] => do
        let _ ← charEntry fetchCID token1 Token.endOfFile
        throw ParseError.cantFetchCID
  | some Block.bfchar, [], _ => throw ParseError.cantFetchCode
  | some Block.bfchar, token1 :: rest1, st =>
    if token1 = Token.command "endbfchar" then
      parseLoop createFromName none rest1 { st with previousToken := Block.bfchar.opener }
    else
      match rest1 with
      | token2 :: rest2 => do
        let entry ← charEntry pureUnicode token1 token2
        parseLoop createFromName (some Block.bfchar) rest2
          { st with entries := st.entries ++ [entry] }
      | [] => do
        let _ ← charEntry pureUnicode token1 Token.endOfFile
        throw ParseError.cantFetchCode
termination_by structural _ tokens => tokens

/-- The loop over `additionalMappings` at the end of `createFromData`: the entries of every
used map are inserted at the end, in order. -/
def appendMappings (entries : List Entry) (additionalMappings : List PDFFontCMap) :
    List Entry :=
  additionalMappings.foldl (fun acc map => acc ++ map.m_entries) entries

/-- The function `PDFFontCMap::createFromData` on the token stream of its data. -/
def createFromData (createFromName : String → Except ParseError PDFFontCMap)
    (tokens : List Token) : Except ParseError PDFFontCMap := do
  let st ← parseLoop createFromName none tokens
    { entries := [], additionalMappings := [], vertical := false,
      previousToken := Token.endOfFile }
  let entries := optimize (sortEntries st.entries)
  pure (PDFFontCMap.create (appendMappings entries st.additionalMappings) st.vertical)

/-- The function `PDFFontCMap::createFromName` (pdffont.cpp 1436-1453): `resources` gives the
token stream of the resource file of a name, if the file exists; the first argument bounds
the depth of nested `usecmap` references. -/
def createFromName (resources : String → Option (List Token)) :
    Nat → String → Except ParseError PDFFontCMap
  | 0, _ => throw ParseError.recursionLimit
  | depth + 1, name =>
    match resources name with
    | some tokens => createFromData (createFromName resources depth) tokens
    | none => throw (ParseError.cantLoadNamed name)

/-- A loader with no resource files: every name fails to load. -/
def noCMaps : String → Except ParseError PDFFontCMap :=
  fun name => throw (ParseError.cantLoadNamed name)

/-! ## Vocabulary of the statements -/

/-- An entry covers a code of a given width: `from <= value <= to` and `byteCount = width`. -/
def Entry.covers (entry : Entry) (value width : Nat) : Prop :=
  entry.from_ ≤ value ∧ value ≤ entry.to_ ∧ entry.byteCount = width

instance Entry.decidableCovers (entry : Entry) (value width : Nat) :
    Decidable (entry.covers value width) := by
  unfold Entry.covers; infer_instance

/-- The `i`-th unit of `k` bytes of a byte string. -/
def unitAt (k : Nat) (s : List Nat) (i : Nat) : List Nat := (s.drop (i * k)).take k

/-- What one complete unit decodes to: the identifier given by the first entry covering its
value, or the sentinel `0` when no entry covers it. -/
def decodeUnit (entries : List Entry) (u : List Nat) : Nat :=
  match entries.find? (fun e => decide (e.covers (codeValue u) u.length)) with
  | some e => (e.cid + (codeValue u - e.from_)) % 4294967296
  | none => 0

/-- The identifier, if any, that a list of entries gives to a code of a given width. -/
def lookupCID (entries : List Entry) (value width : Nat) : Option Nat :=
  (entries.find? (Entry.suits value width)).map
    (fun entry => (value - entry.from_ + entry.cid) % 4294967296)

/-- An entry has a non-empty range whose end is below the largest unsigned value. -/
def Entry.wellRanged (e : Entry) : Prop := e.from_ ≤ e.to_ ∧ e.to_ < 4294967295

instance Entry.decidableWellRanged (e : Entry) : Decidable e.wellRanged := by
  unfold Entry.wellRanged; infer_instance

/-- Two entries do not share a code: if they have the same `byteCount`, no value lies in
both ranges. -/
def Entry.disjointFrom (a b : Entry) : Prop :=
  a.byteCount = b.byteCount → ∀ v, ¬ (a.from_ ≤ v ∧ v ≤ a.to_ ∧ b.from_ ≤ v ∧ v ≤ b.to_)

/-- The fields of an entry are 32-bit unsigned values. -/
def Entry.fits (e : Entry) : Prop :=
  e.from_ < 4294967296 ∧ e.to_ < 4294967296 ∧ e.byteCount < 4294967296 ∧ e.cid < 4294967296

/-- The members of a code map have the ranges of their C++ types: `unsigned int` fields and
an entry count that is a `size_t`. -/
def PDFFontCMap.fits (m : PDFFontCMap) : Prop :=
  m.m_maxKeyLength < 4294967296 ∧ m.m_entries.length < 18446744073709551616 ∧
    ∀ e ∈ m.m_entries, e.fits

/-! ## Vocabulary of the parser statements -/

/-- The state in which `createFromData` enters its main loop. -/
def ParseState.initial : ParseState :=
  { entries := [], additionalMappings := [], vertical := false,
    previousToken := Token.endOfFile }

/-- The end of `createFromData` (pdffont.cpp 1625-1636): sort, optimize, append the used
maps, construct. -/
def ParseState.toCMap (st : ParseState) : PDFFontCMap :=
  PDFFontCMap.create
    (appendMappings (optimize (sortEntries st.entries)) st.additionalMappings) st.vertical

/-- The token is a name token. -/
def Token.isName : Token → Bool
  | Token.name _ => true
  | _ => false

/-- The three tokens of a bfrange triple of strings. -/
def tripleTokens (t : List Nat × List Nat × List Nat) : List Token :=
  [Token.string t.1, Token.string t.2.1, Token.string t.2.2]

/-- A bfrange block with one or more triples of string tokens. -/
def bfrangeBlock (first : List Nat × List Nat × List Nat)
    (others : List (List Nat × List Nat × List Nat)) : List Token :=
  Token.command "beginbfrange" ::
    (tripleTokens first ++ others.flatMap tripleTokens ++ [Token.command "endbfrange"])

/-- The entry the parser builds from a bfrange triple of strings. -/
def bfrangeEntry (t : List Nat × List Nat × List Nat) : Entry :=
  { from_ := codeValue t.1, to_ := codeValue t.2.1,
    byteCount := max t.1.length t.2.1.length, cid := fetchUnicode (Token.string t.2.2) }

/-- The parser state `s'` is the state `s` with the entries `E` and the used maps `A` put in
front; the two previous tokens are equal or neither is a name token (the only thing the
parser ever asks of the previous token is the name it holds). -/
def ParseState.grafts (E : List Entry) (A : List PDFFontCMap) (s s' : ParseState) : Prop :=
  s'.entries = E ++ s.entries ∧ s'.additionalMappings = A ++ s.additionalMappings ∧
    s'.vertical = s.vertical ∧
    (s'.previousToken = s.previousToken ∨
      (s'.previousToken.isName = false ∧ s.previousToken.isName = false))

/-- Two outcomes of the parser agree up to grafted entries and maps: the same exception, or
final states of which the second is the first with `E` and `A` in front. -/
def outcomeGrafts (E : List Entry) (A : List PDFFontCMap) :
    Except ParseError ParseState → Except ParseError ParseState → Prop
  | Except.ok r, Except.ok r' => r.grafts E A r'
  | Except.error e, Except.error e' => e = e'
  | _, _ => False

/-! ## Glyph cache (pdffont.cpp 561-610) -/

/-- The struct `PDFRealizedFontImpl::Glyph`: the outline (a `QPainterPath`, here the list of
its encoded elements) and the advance. A `PDFReal` is rendered as an exact rational number;
the rounding of `double` is not modelled. -/
structure Glyph where
  glyph : List Int
  advance : Rat
deriving DecidableEq

/-- The object `static Glyph dummy` of `getGlyph`: an empty path; its advance is
zero-initialised. -/
def Glyph.dummy : Glyph := { glyph := [], advance := 0 }

/-- A FreeType error code different from zero, which `checkFreeTypeError` turns into a
`PDFParserException`. -/
structure FreeTypeError where
  code : Int
deriving DecidableEq

/-- The mutable part of a `PDFRealizedFontImpl`: `m_glyphCache` (a `std::map`, here the list
of its key/value pairs in order of insertion) together with an instrumentation counter of
the requests made to the rasterizer. -/
structure GlyphCacheState where
  m_glyphCache : List (Nat × Glyph)
  rasterizerCalls : Nat
deriving DecidableEq

/-- The glyph cache of a freshly realized font. -/
def GlyphCacheState.empty : GlyphCacheState := { m_glyphCache := [], rasterizerCalls := 0 }

/-- The function `PDFRealizedFontImpl::getGlyph` (pdffont.cpp 561-596): the outcome of the
call and the state after it. `rasterize` stands for the request to FreeType
(`FT_Load_Glyph`, `FT_Outline_Decompose`, `closeSubpath`, the scaled advance): the glyph
built, or the error that `checkFreeTypeError` throws. -/
def getGlyph (rasterize : Nat → Except FreeTypeError Glyph) (s : GlyphCacheState)
    (glyphIndex : Nat) : Except FreeTypeError Glyph × GlyphCacheState :=
  match s.m_glyphCache.lookup glyphIndex with
  | some glyph => (Except.ok glyph, s)
  | none =>
    if glyphIndex ≠ 0 then
      match rasterize glyphIndex with
      | Except.error e => (Except.error e, { s with rasterizerCalls := s.rasterizerCalls + 1 })
      | Except.ok glyph =>
        (Except.ok glyph,
          { m_glyphCache := s.m_glyphCache ++ [(glyphIndex, glyph)],
            rasterizerCalls := s.rasterizerCalls + 1 })
    else (Except.ok Glyph.dummy, s)

/-- A sequence of `getGlyph` calls, whatever their outcomes: the state after the last. -/
def getGlyphs (rasterize : Nat → Except FreeTypeError Glyph) (s : GlyphCacheState)
    (glyphIndices : List Nat) : GlyphCacheState :=
  glyphIndices.foldl (fun st glyphIndex => (getGlyph rasterize st glyphIndex).2) s

/-! ## Fonts as far as shaping reads them -/

/-- The class `PDFSimpleFont` (Type1, TrueType): first and last code, width table, the
code-to-character table (`encoding::EncodingTable`, 256 `QChar`s) and the code-to-glyph-index
table (`GlyphIndices`, 256 `GID`s), both indexed by a code 0..255. -/
structure PDFSimpleFont where
  m_firstChar : Int
  m_lastChar : Int
  m_widths : List Int
  m_encoding : Nat → Nat
  m_glyphIndices : Nat → Nat

/-- The function `PDFSimpleFont::getGlyphAdvance` (pdffont.cpp 1310-1325); `min` and `max`
are the first and last code converted to `size_t` (64-bit unsigned). -/
def PDFSimpleFont.getGlyphAdvance (font : PDFSimpleFont) (index : Nat) : Int :=
  let min := (font.m_firstChar % 18446744073709551616).toNat
  let max := (font.m_lastChar % 18446744073709551616).toNat
  if index ≥ min ∧ index ≤ max then
    let adjustedIndex := index - min
    if adjustedIndex < font.m_widths.length then font.m_widths.getD adjustedIndex 0
    else 0
  else 0

/-- The class `PDFType0Font`: code map, ToUnicode map, the `map` function of its
`PDFCIDtoGIDMapper`, default advance and the table of advance overrides (`m_advances`). -/
structure PDFType0Font where
  m_cmap : PDFFontCMap
  m_toUnicode : PDFFontCMap
  m_mapper : Nat → Nat
  m_defaultAdvance : Rat
  m_advances : Nat → Option Rat

/-- The function `PDFType0Font::getGlyphAdvance` (pdffont.cpp 1831-1840). -/
def PDFType0Font.getGlyphAdvance (font : PDFType0Font) (cid : Nat) : Rat :=
  match font.m_advances cid with
  | some advance => advance
  | none => font.m_defaultAdvance

/-- The class `PDFType3Font`: first and last character index, the drawing programs by
character index (`m_characterContentStreams`) and the width table. -/
structure PDFType3Font where
  m_firstCharacterIndex : Int
  m_lastCharacterIndex : Int
  m_characterContentStreams : Int → Option (List Nat)
  m_widths : List Rat

/-- The function `PDFType3Font::getWidth` (pdffont.cpp 1865-1877). -/
def PDFType3Font.getWidth (font : PDFType3Font) (characterIndex : Int) : Rat :=
  if characterIndex ≥ font.m_firstCharacterIndex ∧ characterIndex ≤ font.m_lastCharacterIndex then
    let index := (characterIndex - font.m_firstCharacterIndex).toNat
    if index < font.m_widths.length then font.m_widths.getD index 0
    else 0
  else 0

/-- The function `PDFType3Font::getContentStream` (pdffont.cpp 1879-1888): the stored drawing
program, or nothing (`nullptr`). -/
def PDFType3Font.getContentStream (font : PDFType3Font) (characterIndex : Int) :
    Option (List Nat) :=
  font.m_characterContentStreams characterIndex

/-- The font behind a realized font, by `getFontType()`. -/
inductive PDFFont where
  | type1 (font : PDFSimpleFont)
  | trueType (font : PDFSimpleFont)
  | type0 (font : PDFType0Font)
  | type3 (font : PDFType3Font)

/-! ## fillTextSequence (pdffont.cpp 442-527, 1890-1917) -/

/-- Modelled from the spec: `TextSequenceItem` is declared in pdffont.h, which is not among
the sources. An item is an outline reference or none, a character and an advance; for a
procedural font it is a reference to a drawing program with a width, or a width alone. -/
inductive TextSequenceItem where
  | glyph (outline : Option (List Int)) (character : Nat) (advance : Rat)
  | contentStream (stream : List Nat) (advance : Rat)
  | advanceOnly (advance : Rat)
deriving DecidableEq

/-- What a call of `fillTextSequence` does that its caller can see: the items appended to
`textSequence.items`, the codes reported as warnings through the reporter (both in order),
and the exception that ended the call, if any. -/
structure Shaping where
  items : List TextSequenceItem
  warnings : List Nat
  failure : Option FreeTypeError
deriving DecidableEq

/-- The FreeType face of a realized font as shaping uses it: whether the selected charmap is
a Unicode charmap, `FT_Get_Char_Index`, and the request of a glyph. -/
structure Face where
  hasUnicodeCharmap : Bool
  getCharIndex : Nat → Nat
  rasterize : Nat → Except FreeTypeError Glyph

/-- The constant `FONT_WIDTH_MULTIPLIER = 1.0 / 1000.0`. -/
def FONT_WIDTH_MULTIPLIER : Rat := 1 / 1000

/-- The glyph index of a code in the simple-font branch: the entry of the glyph-index table
and, when that is zero and the face has a Unicode charmap, `FT_Get_Char_Index` of the
character of the code. -/
def simpleGlyphIndex (face : Face) (font : PDFSimpleFont) (code : Nat) : Nat :=
  let glyphIndex := font.m_glyphIndices code
  if glyphIndex = 0 then
    if face.hasUnicodeCharmap then face.getCharIndex (font.m_encoding code)
    else glyphIndex
  else glyphIndex

/-- The `for` loop of the Type1/TrueType case of `PDFRealizedFontImpl::fillTextSequence`
(pdffont.cpp 458-486), with the glyph cache passed explicitly. -/
def fillSimple (face : Face) (font : PDFSimpleFont) (pixelSize : Rat) :
    List Nat → GlyphCacheState → Shaping × GlyphCacheState
  | [], gs => ({ items := [], warnings := [], failure := none }, gs)
  | byte :: rest, gs =>
    let code := byte % 256
    let glyphIndex := simpleGlyphIndex face font code
    let glyphWidth : Rat := (font.getGlyphAdvance code : Int)
    if glyphIndex ≠ 0 then
      match getGlyph face.rasterize gs glyphIndex with
      | (Except.error e, gs1) => ({ items := [], warnings := [], failure := some e }, gs1)
      | (Except.ok glyph, gs1) =>
        let tail := fillSimple face font pixelSize rest gs1
        ({ tail.1 with
            items := TextSequenceItem.glyph (some glyph.glyph) (font.m_encoding code)
              glyph.advance :: tail.1.items }, tail.2)
    else
      let tail := fillSimple face font pixelSize rest gs
      ({ tail.1 with
          items := (if glyphWidth > 0 then
              [TextSequenceItem.glyph none 0 (glyphWidth * pixelSize * FONT_WIDTH_MULTIPLIER)]
            else []) ++ tail.1.items,
          warnings := code :: tail.1.warnings }, tail.2)

/-- The `for` loop over the CIDs in the Type0 case of
`PDFRealizedFontImpl::fillTextSequence` (pdffont.cpp 500-519). -/
def fillComposite (face : Face) (font : PDFType0Font) (pixelSize : Rat) :
    List Nat → GlyphCacheState → Shaping × GlyphCacheState
  | [], gs => ({ items := [], warnings := [], failure := none }, gs)
  | cid :: rest, gs =>
    let glyphIndex := font.m_mapper cid
    let glyphWidth := font.getGlyphAdvance cid
    if glyphIndex ≠ 0 then
      let character := font.m_toUnicode.getToUnicode cid
      match getGlyph face.rasterize gs glyphIndex with
      | (Except.error e, gs1) => ({ items := [], warnings := [], failure := some e }, gs1)
      | (Except.ok glyph, gs1) =>
        let tail := fillComposite face font pixelSize rest gs1
        ({ tail.1 with
            items := TextSequenceItem.glyph (some glyph.glyph) character glyph.advance ::
              tail.1.items }, tail.2)
    else
      let tail := fillComposite face font pixelSize rest gs
      ({ tail.1 with
          items := (if glyphWidth > 0 then
              [TextSequenceItem.glyph none 0 (glyphWidth * pixelSize * FONT_WIDTH_MULTIPLIER)]
            else []) ++ tail.1.items,
          warnings := cid :: tail.1.warnings }, tail.2)

/-- The immutable members of a `PDFRealizedFontImpl` read by `fillTextSequence`. -/
structure PDFRealizedFontImpl where
  m_face : Face
  m_pixelSize : Rat
  m_parentFont : PDFFont

/-- The function `PDFRealizedFontImpl::fillTextSequence` (pdffont.cpp 442-527). The result
is `none` when the call has no defined outcome: `interpret` undefined on the code map, or a
font type the `switch` asserts not to occur. -/
def PDFRealizedFontImpl.fillTextSequence (impl : PDFRealizedFontImpl) (byteArray : List Nat)
    (gs : GlyphCacheState) : Option (Shaping × GlyphCacheState) :=
  match impl.m_parentFont with
  | PDFFont.type1 font => some (fillSimple impl.m_face font impl.m_pixelSize byteArray gs)
  | PDFFont.trueType font => some (fillSimple impl.m_face font impl.m_pixelSize byteArray gs)
  | PDFFont.type0 font =>
    match font.m_cmap.interpret byteArray with
    | none => none
    | some cids => some (fillComposite impl.m_face font impl.m_pixelSize cids gs)
  | PDFFont.type3 _ => none

/-- The function `PDFRealizedType3FontImpl::fillTextSequence` (pdffont.cpp 1890-1917); it
calls nothing that throws, so `failure` is always `none`. -/
def PDFRealizedType3FontImpl.fillTextSequence (parentFont : PDFType3Font) : List Nat → Shaping
  | [] => { items := [], warnings := [], failure := none }
  | byte :: rest =>
    let index : Int := ((byte % 256 : Nat) : Int)
    let contentStream := parentFont.getContentStream index
    let width := parentFont.getWidth index
    let tail := PDFRealizedType3FontImpl.fillTextSequence parentFont rest
    match contentStream with
    | some stream =>
      { tail with items := TextSequenceItem.contentStream stream width :: tail.items }
    | none =>
      { tail with
        items := (if width > 0 then [TextSequenceItem.advanceOnly width] else []) ++ tail.items,
        warnings := byte % 256 :: tail.warnings }

/-! ## PDFFontCache (pdffont.cpp 1353-1416) -/

/-- Modelled from the spec: `PDFObject` is declared in pdfobject.h, which is not among the
sources. For the font cache an object is either an indirect reference (object number and
generation) or a direct object, given by its content. -/
inductive PDFObject where
  | reference (reference : Nat × Nat)
  | direct (content : List Nat)
deriving DecidableEq

/-- A `PDFParserException` raised while a font or a realized font is constructed. -/
structure FontError where
  message : String
deriving DecidableEq

/-- The class `PDFFontCache` over fonts `F` and realized fonts `R`: the document (by
identity), the two limits, the two maps (`std::map`s, here the lists of their key/value
pairs in order of insertion), and two instrumentation counters of the constructions
requested from `PDFFont::createFont` and `PDFRealizedFont::createRealizedFont`. -/
structure PDFFontCache (F R : Type) where
  m_document : Nat
  m_fontCacheLimit : Nat
  m_realizedFontCacheLimit : Nat
  m_fontCache : List ((Nat × Nat) × F)
  m_realizedFontCache : List ((F × Rat) × R)
  fontConstructions : Nat
  realizedFontConstructions : Nat

/-- A cache with both maps empty. -/
def PDFFontCache.empty (F R : Type) (document fontCacheLimit realizedFontCacheLimit : Nat) :
    PDFFontCache F R :=
  { m_document := document, m_fontCacheLimit := fontCacheLimit,
    m_realizedFontCacheLimit := realizedFontCacheLimit, m_fontCache := [],
    m_realizedFontCache := [], fontConstructions := 0, realizedFontConstructions := 0 }

/-- The two statements after a successful construction, in both `getFont` and
`getRealizedFont`: `if (cache.size() >= limit) cache.clear();` and the `insert` of a key
that the map does not hold. -/
def storeWithLimit {K V : Type} (limit : Nat) (cache : List (K × V)) (key : K) (value : V) :
    List (K × V) :=
  (if cache.length ≥ limit then [] else cache) ++ [(key, value)]

/-- The function `PDFFontCache::getFont` (pdffont.cpp 1364-1394): the outcome and the cache
after the call; `createFont` is `PDFFont::createFont`. -/
def PDFFontCache.getFont {F R : Type} (createFont : PDFObject → Nat → Except FontError F)
    (cache : PDFFontCache F R) (fontObject : PDFObject) :
    Except FontError F × PDFFontCache F R :=
  match fontObject with
  | PDFObject.reference reference =>
    match cache.m_fontCache.lookup reference with
    | some font => (Except.ok font, cache)
    | none =>
      match createFont fontObject cache.m_document with
      | Except.error e =>
        (Except.error e, { cache with fontConstructions := cache.fontConstructions + 1 })
      | Except.ok font =>
        (Except.ok font,
          { cache with
            m_fontCache := storeWithLimit cache.m_fontCacheLimit cache.m_fontCache reference font,
            fontConstructions := cache.fontConstructions + 1 })
  | PDFObject.direct _ =>
    (createFont fontObject cache.m_document,
      { cache with fontConstructions := cache.fontConstructions + 1 })

/-- The function `PDFFontCache::getRealizedFont` (pdffont.cpp 1396-1416);
`createRealizedFont` is `PDFRealizedFont::createRealizedFont`. -/
def PDFFontCache.getRealizedFont {F R : Type} [DecidableEq F]
    (createRealizedFont : F → Rat → Except FontError R)
    (cache : PDFFontCache F R) (font : F) (size : Rat) :
    Except FontError R × PDFFontCache F R :=
  match cache.m_realizedFontCache.lookup (font, size) with
  | some realizedFont => (Except.ok realizedFont, cache)
  | none =>
    match createRealizedFont font size with
    | Except.error e =>
      (Except.error e,
        { cache with realizedFontConstructions := cache.realizedFontConstructions + 1 })
    | Except.ok realizedFont =>
      (Except.ok realizedFont,
        { cache with
          m_realizedFontCache := storeWithLimit cache.m_realizedFontCacheLimit
            cache.m_realizedFontCache (font, size) realizedFont,
          realizedFontConstructions := cache.realizedFontConstructions + 1 })

/-- A sequence of `getFont` calls, whatever their outcomes: the cache after the last. -/
def PDFFontCache.getFonts {F R : Type} (createFont : PDFObject → Nat → Except FontError F)
    (cache : PDFFontCache F R) (fontObjects : List PDFObject) : PDFFontCache F R :=
  fontObjects.foldl (fun c fontObject => (c.getFont createFont fontObject).2) cache

/-- A sequence of `getRealizedFont` calls, whatever their outcomes: the cache after the
last. -/
def PDFFontCache.getRealizedFonts {F R : Type} [DecidableEq F]
    (createRealizedFont : F → Rat → Except FontError R)
    (cache : PDFFontCache F R) (requests : List (F × Rat)) : PDFFontCache F R :=
  requests.foldl (fun c request => (c.getRealizedFont createRealizedFont request.1 request.2).2)
    cache

/-! ## Vocabulary of the shaping statements -/

/-- One shaping followed by another: items and warnings in sequence, the outcome of the
second. -/
def Shaping.andThen (a b : Shaping) : Shaping :=
  { items := a.items ++ b.items, warnings := a.warnings ++ b.warnings, failure := b.failure }

/-- The placeholder appended for a code without glyph: nothing when the declared width is
not positive, else one item without outline, with the null character and the advance
`width * pixelSize / 1000`. -/
def placeholderItems (width pixelSize : Rat) : List TextSequenceItem :=
  if 0 < width then [TextSequenceItem.glyph none 0 (width * pixelSize / 1000)] else []

/-- The items of one CID in a shaping that ended with the glyph cache `glyphs`: for a
non-zero glyph index the outline and advance of the glyph cached under that index, with the
character of the ToUnicode map; for glyph index 0 the placeholder of the declared advance. -/
def compositeItems (font : PDFType0Font) (pixelSize : Rat) (glyphs : GlyphCacheState)
    (cid : Nat) : List TextSequenceItem :=
  if font.m_mapper cid ≠ 0 then
    match glyphs.m_glyphCache.lookup (font.m_mapper cid) with
    | some glyph =>
      [TextSequenceItem.glyph (some glyph.glyph) (font.m_toUnicode.getToUnicode cid)
        glyph.advance]
    | none => []
  else placeholderItems (font.getGlyphAdvance cid) pixelSize

/-- The items of one code of a procedural font: the drawing program with the width, or,
without a program, the width alone when it is positive. -/
def type3Items (font : PDFType3Font) (code : Nat) : List TextSequenceItem :=
  match font.getContentStream (code : Int) with
  | some stream => [TextSequenceItem.contentStream stream (font.getWidth (code : Int))]
  | none =>
    if 0 < font.getWidth (code : Int) then
      [TextSequenceItem.advanceOnly (font.getWidth (code : Int))]
    else []

/-! ## PDFFontCache::setDocument (pdffont.cpp 1353-1362) -/

/-- The function `PDFFontCache::setDocument`; documents are compared by identity. -/
def PDFFontCache.setDocument {F R : Type} (cache : PDFFontCache F R) (document : Nat) :
    PDFFontCache F R :=
  if cache.m_document ≠ document then
    { cache with m_document := document, m_fontCache := [], m_realizedFontCache := [] }
  else cache

/-! ## Objects of the document, as PDFFont::createFont reads them -/

/-- Modelled from the spec: the class `PDFObject` is declared in pdfobject.h, which is not
among the sources. This is an object as `PDFDocument::getObject` returns it, every indirect
reference resolved: a dictionary is the list of its key/value pairs, a stream its dictionary
and its decoded bytes (`PDFDocument::getDecodedStream`). -/
inductive Object where
  | null
  | bool (value : Bool)
  | integer (value : Int)
  | real (value : Rat)
  | string (data : List Nat)
  | name (data : String)
  | array (items : List Object)
  | dictionary (entries : List (String × Object))
  | stream (entries : List (String × Object)) (decoded : List Nat)

/-- Modelled from the spec: `PDFObject::isInt`. -/
def Object.isInt : Object → Bool
  | Object.integer _ => true
  | _ => false

/-- Modelled from the spec: `PDFObject::isName`. -/
def Object.isName : Object → Bool
  | Object.name _ => true
  | _ => false

/-- Modelled from the spec: `PDFObject::isArray`. -/
def Object.isArray : Object → Bool
  | Object.array _ => true
  | _ => false

/-- Modelled from the spec: `PDFObject::isDictionary`. -/
def Object.isDictionary : Object → Bool
  | Object.dictionary _ => true
  | _ => false

/-- Modelled from the spec: `PDFObject::isStream`. -/
def Object.isStream : Object → Bool
  | Object.stream _ _ => true
  | _ => false

/-- A real or integer object. -/
def Object.isNumber : Object → Bool
  | Object.integer _ => true
  | Object.real _ => true
  | _ => false

/-- Modelled from the spec: `PDFDictionary::hasKey` (pdfobject.h). -/
def PDFDictionary.hasKey (dictionary : List (String × Object)) (key : String) : Bool :=
  (dictionary.lookup key).isSome

/-- Modelled from the spec: `PDFDictionary::get` (pdfobject.h): the value of the key, the
null object when the key is absent. -/
def PDFDictionary.get (dictionary : List (String × Object)) (key : String) : Object :=
  (dictionary.lookup key).getD Object.null

/-- Modelled from the spec: `PDFDocumentDataLoaderDecorator::readEnumByName` (pdfdocument.h
is not among the sources): the value listed for a name object, the default for an unlisted
name and for every other object. -/
def readEnumByName {α : Type} (object : Object) (table : List (String × α)) (defaultValue : α) :
    α :=
  match object with
  | Object.name data => (table.lookup data).getD defaultValue
  | _ => defaultValue

/-- Modelled from the spec: `PDFDocumentDataLoaderDecorator::readInteger`: the value of an
integer object, the default for every other object. -/
def readInteger (object : Object) (defaultValue : Int) : Int :=
  match object with
  | Object.integer value => value
  | _ => defaultValue

/-- Modelled from the spec: `PDFDocumentDataLoaderDecorator::readNumber`: the value of an
integer or real object, the default for every other object. -/
def readNumber (object : Object) (defaultValue : Rat) : Rat :=
  match object with
  | Object.integer value => (value : Rat)
  | Object.real value => value
  | _ => defaultValue

/-- Modelled from the spec: `PDFDocumentDataLoaderDecorator::readIntegerFromDictionary`. -/
def readIntegerFromDictionary (dictionary : List (String × Object)) (key : String)
    (defaultValue : Int) : Int :=
  if PDFDictionary.hasKey dictionary key then
    readInteger (PDFDictionary.get dictionary key) defaultValue
  else defaultValue

/-- Modelled from the spec: `PDFDocumentDataLoaderDecorator::readNumberFromDictionary`. -/
def readNumberFromDictionary (dictionary : List (String × Object)) (key : String)
    (defaultValue : Rat) : Rat :=
  if PDFDictionary.hasKey dictionary key then
    readNumber (PDFDictionary.get dictionary key) defaultValue
  else defaultValue

/-- The integers of a list of objects, if all of them are integer objects. -/
def integersOf : List Object → Option (List Int)
  | [] => some []
  | Object.integer value :: rest => (integersOf rest).map (fun values => value :: values)
  | _ :: _ => none

/-- The numbers of a list of objects, if all of them are integer or real objects. -/
def numbersOf : List Object → Option (List Rat)
  | [] => some []
  | Object.integer value :: rest => (numbersOf rest).map (fun values => (value : Rat) :: values)
  | Object.real value :: rest => (numbersOf rest).map (fun values => value :: values)
  | _ :: _ => none

/-- Modelled from the spec: `PDFDocumentDataLoaderDecorator::readIntegerArrayFromDictionary`:
the integers of an array of integers under the key, the empty vector otherwise. -/
def readIntegerArrayFromDictionary (dictionary : List (String × Object)) (key : String) :
    List Int :=
  match PDFDictionary.get dictionary key with
  | Object.array items => (integersOf items).getD []
  | _ => []

/-- Modelled from the spec: `PDFDocumentDataLoaderDecorator::readNumberArrayFromDictionary`
(the overload that returns a vector): the numbers of an array of numbers under the key, the
empty vector otherwise. -/
def readNumberArrayFromDictionary (dictionary : List (String × Object)) (key : String) :
    List Rat :=
  match PDFDictionary.get dictionary key with
  | Object.array items => (numbersOf items).getD []
  | _ => []

/-- Modelled from the spec: `PDFDocumentDataLoaderDecorator::readNumberArrayFromDictionary`
(the overload that fills a range), on the two-element array `dw2`: an array of exactly two
objects under the key overwrites each element that is a number; anything else leaves `dw2`
as it is. -/
def readNumberPairFromDictionary (dictionary : List (String × Object)) (key : String)
    (dw2 : Rat × Rat) : Rat × Rat :=
  match PDFDictionary.get dictionary key with
  | Object.array [first, second] => (readNumber first dw2.1, readNumber second dw2.2)
  | _ => dw2

/-! ## Encodings, standard fonts and the collaborators of createFont -/

/-- Modelled from the spec: the enumeration `PDFEncoding::Encoding` (pdfencoding.h is not
among the sources). -/
inductive Encoding where
  | Standard
  | MacRoman
  | WinAnsi
  | PDFDoc
  | MacExpert
  | Symbol
  | ZapfDingbats
  | MacOsRoman
  | Custom
  | Invalid
deriving DecidableEq

/-- Modelled from the spec: the enumeration `FontType` (pdffont.h). -/
inductive FontType where
  | Invalid
  | Type0
  | Type1
  | TrueType
  | Type3
deriving DecidableEq

/-- Modelled from the spec: the enumeration `StandardFontType` (pdffont.h): the 14 standard
fonts and `Invalid`. -/
inductive StandardFontType where
  | Invalid
  | TimesRoman
  | TimesRomanBold
  | TimesRomanItalics
  | TimesRomanBoldItalics
  | Helvetica
  | HelveticaBold
  | HelveticaOblique
  | HelveticaBoldOblique
  | Courier
  | CourierBold
  | CourierOblique
  | CourierBoldOblique
  | Symbol
  | ZapfDingbats
deriving DecidableEq

/-- The array `fontTypes` of `createFont` (pdffont.cpp 761-766). -/
def fontTypes : List (String × FontType) :=
  [("Type0", FontType.Type0), ("Type1", FontType.Type1), ("TrueType", FontType.TrueType),
   ("Type3", FontType.Type3)]

/-- The array `standardFonts` of `createFont` (pdffont.cpp 781-796). -/
def standardFonts : List (String × StandardFontType) :=
  [("Times-Roman", StandardFontType.TimesRoman),
   ("Times-Bold", StandardFontType.TimesRomanBold),
   ("Times-Italic", StandardFontType.TimesRomanItalics),
   ("Times-BoldItalic", StandardFontType.TimesRomanBoldItalics),
   ("Helvetica", StandardFontType.Helvetica),
   ("Helvetica-Bold", StandardFontType.HelveticaBold),
   ("Helvetica-Oblique", StandardFontType.HelveticaOblique),
   ("Helvetica-BoldOblique", StandardFontType.HelveticaBoldOblique),
   ("Courier", StandardFontType.Courier),
   ("Courier-Bold", StandardFontType.CourierBold),
   ("Courier-Oblique", StandardFontType.CourierOblique),
   ("Courier-BoldOblique", StandardFontType.CourierBoldOblique),
   ("Symbol", StandardFontType.Symbol),
   ("ZapfDingbats", StandardFontType.ZapfDingbats)]

/-- The array `encodings` of `createFont` (pdffont.cpp 829-833). -/
def encodings : List (String × Encoding) :=
  [("MacRomanEncoding", Encoding.MacRoman), ("MacExpertEncoding", Encoding.MacExpert),
   ("WinAnsiEncoding", Encoding.WinAnsi)]

/-- The null character `QChar()`. -/
def nullCharacter : Nat := 0

/-- The character `QChar::ReplacementCharacter`, U+FFFD. -/
def replacementCharacter : Nat := 65533

/-- The FreeType encoding tag of a charmap, as far as `createFont` tells them apart. -/
inductive FT_Encoding where
  | adobeStandard
  | adobeLatin1
  | adobeCustom
  | adobeExpert
  | other
deriving DecidableEq

/-- One charmap of a FreeType face: its encoding tag and the answer of `FT_Set_Charmap` -
nothing on error, else the function `FT_Get_Char_Index` computes while the charmap is
selected. -/
structure FT_CharMap where
  encoding : FT_Encoding
  setCharmap : Option (Nat → Nat)

/-- The answers of the FreeType library about one face, as far as `createFont` asks:
`FT_Has_PS_Glyph_Names`, the charmaps, `FT_Get_Glyph_Name` by glyph index (nothing on
error), and `FT_Select_Charmap` for the Apple Roman and the Unicode encoding (nothing on
error, else the function `FT_Get_Char_Index` computes after the selection). -/
structure FT_Face where
  hasPSGlyphNames : Bool
  charmaps : List FT_CharMap
  getGlyphName : Nat → Option String
  selectAppleRoman : Option (Nat → Nat)
  selectUnicode : Option (Nat → Nat)

/-- What `createFont` takes from outside pdffont.cpp: the tables of `PDFEncoding`, the name
lookups of `PDFNameToUnicode`, the built-in encoding of a standard font, the mapping of
`PDFCIDtoGIDMapper` for the bytes of a CIDtoGIDMap stream, the FreeType library
(`FT_Init_FreeType` succeeds or not; `FT_New_Memory_Face` gives a face or fails), the
lexical analyzer that turns the bytes of a code map into tokens, and the resource files of
`PDFFontCMap::createFromName`. Characters are `QChar` code units. -/
structure FontEnvironment where
  getTableForEncoding : Encoding → Nat → Nat
  getUnicodeUsingResolvedName : String → Nat
  getUnicodeForName : String → Nat
  getUnicodeForNameZapfDingbats : String → Nat
  builtInEncoding : StandardFontType → Encoding
  mapCIDtoGID : List Nat → Nat → Nat
  initFreeType : Bool
  newMemoryFace : List Nat → Option FT_Face
  tokens : List Nat → List Token
  createFromName : String → Except ParseError PDFFontCMap

/-- Modelled from the spec: `getEncodingForStandardFont` is declared in pdffont.h, which is
not among the sources. For a font that is not a standard font it gives the standard
encoding (spec: "lacking one, a generic standard table"; pdffont.cpp 851-852: "If we have
invalid standard font, then we get standard encoding"); for a standard font it gives the
built-in encoding of that font, taken from the environment. -/
def getEncodingForStandardFont (env : FontEnvironment) : StandardFontType → Encoding
  | StandardFontType.Invalid => Encoding.Standard
  | standardFont => env.builtInEncoding standardFont

/-- The structure `FontDescriptor`, as far as `createFont` reads it back: the three font
program buffers. -/
structure FontDescriptor where
  fontFile : List Nat
  fontFile2 : List Nat
  fontFile3 : List Nat
deriving DecidableEq

/-- The lambda `loadStream` of `readFontDescriptor` (pdffont.cpp 730-740): the decoded bytes
of a stream under the key, the empty buffer otherwise. -/
def loadStream (fontDescriptorDictionary : List (String × Object)) (name : String) : List Nat :=
  if PDFDictionary.hasKey fontDescriptorDictionary name then
    match PDFDictionary.get fontDescriptorDictionary name with
    | Object.stream _ decoded => decoded
    | _ => []
  else []

/-- The function `PDFFont::readFontDescriptor` (pdffont.cpp 692-747), program buffers
only. -/
def readFontDescriptor (fontDescriptorObject : Object) : FontDescriptor :=
  match fontDescriptorObject with
  | Object.dictionary fontDescriptorDictionary =>
    { fontFile := loadStream fontDescriptorDictionary "FontFile",
      fontFile2 := loadStream fontDescriptorDictionary "FontFile2",
      fontFile3 := loadStream fontDescriptorDictionary "FontFile3" }
  | _ => { fontFile := [], fontFile2 := [], fontFile3 := [] }

/-- The function `FontDescriptor::getEmbeddedFontData` (pdffont.cpp 1418-1434); `none` is
`nullptr`. -/
def FontDescriptor.getEmbeddedFontData (descriptor : FontDescriptor) : Option (List Nat) :=
  if !descriptor.fontFile.isEmpty then some descriptor.fontFile
  else if !descriptor.fontFile2.isEmpty then some descriptor.fontFile2
  else if !descriptor.fontFile3.isEmpty then some descriptor.fontFile3
  else none

/-- Modelled from the spec: `FontDescriptor::isEmbedded` is declared in pdffont.h, which is
not among the sources; a font is embedded when one of the three program buffers is not
empty. -/
def FontDescriptor.isEmbedded (descriptor : FontDescriptor) : Bool :=
  !descriptor.fontFile.isEmpty || !descriptor.fontFile2.isEmpty || !descriptor.fontFile3.isEmpty

/-- The `PDFParserException`s thrown by `createFont`, by message; `codeMap` carries an
exception thrown while a code map of a composite font is read. -/
inductive CreateFontError where
  | fontObjectNotDictionary
  | invalidFontType
  | invalidDifferences
  | invalidEncodingEntry
  | invalidCMap
  | invalidDescendantFont
  | invalidDescendantFontCount (count : Nat)
  | invalidType3FontMatrix
  | invalidType3ContentStreams
  | invalidType3CharacterRange (firstChar lastChar : Int)
  | invalidType3Encoding
  | invalidType3Differences
  | codeMap (error : ParseError)
deriving DecidableEq

/-! ## PDFFont::createFont, simple fonts (pdffont.cpp 816-1067) -/

/-- A loop `for (size_t i = 0; i < table.size(); ++i)` over the 256 codes of an
`encoding::EncodingTable` or of the `GlyphIndices`. -/
@[irreducible] def forEachCode {σ : Type} (body : Nat → σ → σ) (state : σ) : σ :=
  (List.range 256).foldl (fun s i => body i s) state

/-- The loop over the Differences array (pdffont.cpp 864-887): `currentOffset` is a
`size_t`, an integer item is converted to it (64-bit unsigned), and a name item is stored at
the current offset, which must be below the size of the table. -/
def readDifferences (resolve : String → Nat) :
    List Object → Nat → (Nat → Nat) → Except CreateFontError (Nat → Nat)
  | [], _, differences => pure differences
  | Object.integer value :: rest, _, differences =>
    readDifferences resolve rest (value % 18446744073709551616).toNat differences
  | Object.name data :: rest, currentOffset, differences =>
    if currentOffset ≥ 256 then throw CreateFontError.invalidDifferences
    else
      readDifferences resolve rest (currentOffset + 1)
        (Function.update differences currentOffset (resolve data))
  | _ :: _, _, _ => throw CreateFontError.invalidDifferences

/-- The variables `encoding`, `hasDifferences` and `differences` of `createFont` after the
Encoding entry of the font dictionary has been read. -/
structure DeclaredEncoding where
  encoding : Encoding
  hasDifferences : Bool
  differences : Nat → Nat

/-- The block that reads the Encoding entry of a simple font (pdffont.cpp 823-899). -/
def readEncoding (env : FontEnvironment) (standardFont : StandardFontType)
    (fontDictionary : List (String × Object)) : Except CreateFontError DeclaredEncoding :=
  if PDFDictionary.hasKey fontDictionary "Encoding" then
    match PDFDictionary.get fontDictionary "Encoding" with
    | Object.name data =>
      pure { encoding := readEnumByName (Object.name data) encodings Encoding.Invalid,
             hasDifferences := false, differences := fun _ => nullCharacter }
    | Object.dictionary encodingDictionary =>
      let encoding :=
        if PDFDictionary.hasKey encodingDictionary "BaseEncoding" then
          readEnumByName (PDFDictionary.get encodingDictionary "BaseEncoding") encodings
            Encoding.Invalid
        else getEncodingForStandardFont env standardFont
      if PDFDictionary.hasKey encodingDictionary "Differences" then
        match PDFDictionary.get encodingDictionary "Differences" with
        | Object.array items => do
          let differences ← readDifferences env.getUnicodeUsingResolvedName items 0
            (fun _ => nullCharacter)
          pure { encoding := encoding, hasDifferences := true, differences := differences }
        | _ => throw CreateFontError.invalidDifferences
      else
        pure { encoding := encoding, hasDifferences := false,
               differences := fun _ => nullCharacter }
    | _ => throw CreateFontError.invalidEncodingEntry
  else
    pure { encoding := Encoding.Invalid, hasDifferences := false,
           differences := fun _ => nullCharacter }

/-- The two tests on `encoding` after the Encoding entry has been read (pdffont.cpp
901-911): an invalid encoding is replaced by the encoding for the standard font, and an
encoding still invalid is an exception. -/
def selectEncoding (env : FontEnvironment) (standardFont : StandardFontType)
    (encoding : Encoding) : Except CreateFontError Encoding :=
  let encoding :=
    if encoding = Encoding.Invalid then getEncodingForStandardFont env standardFont
    else encoding
  if encoding = Encoding.Invalid then throw CreateFontError.invalidEncodingEntry
  else pure encoding

/-- The variables `encoding`, `simpleFontEncodingTable` and `glyphIndexArray` of
`createFont`. -/
structure SimpleFontState where
  encoding : Encoding
  simpleFontEncodingTable : Nat → Nat
  glyphIndexArray : Nat → Nat

/-- The first block of the lambda `finishFont` (pdffont.cpp 917-930): with Differences, every
code whose character in the Differences is not null takes that character, and the encoding
becomes `Custom`. -/
def fillDifferences (declared : DeclaredEncoding) (state : SimpleFontState) :
    SimpleFontState :=
  if declared.hasDifferences = true then
    { state with
      simpleFontEncodingTable :=
        forEachCode
          (fun i table =>
            if declared.differences i ≠ nullCharacter then
              Function.update table i (declared.differences i)
            else table)
          state.simpleFontEncodingTable,
      encoding := Encoding.Custom }
  else state

/-- The second block of the lambda `finishFont` (pdffont.cpp 932-941): every code whose
character is null or the replacement character takes the character of the standard
encoding, if that one is neither. -/
def fillStandard (env : FontEnvironment) (state : SimpleFontState) : SimpleFontState :=
  { state with
    simpleFontEncodingTable :=
      forEachCode
        (fun i table =>
          if (table i = nullCharacter ∨ table i = replacementCharacter) ∧
              (env.getTableForEncoding Encoding.Standard i ≠ nullCharacter ∧
                env.getTableForEncoding Encoding.Standard i ≠ replacementCharacter) then
            Function.update table i (env.getTableForEncoding Encoding.Standard i)
          else table)
        state.simpleFontEncodingTable }

/-- The lambda `finishFont` (pdffont.cpp 915-942). -/
def finishFont (env : FontEnvironment) (declared : DeclaredEncoding) (state : SimpleFontState) :
    SimpleFontState :=
  fillStandard env (fillDifferences declared state)

/-- The glyph index of a code in an Adobe charmap (pdffont.cpp 973-983): the code itself,
then the code + 0xF000, then the code + 0xF100. -/
def nativeGlyphIndex (charIndex : Nat → Nat) (i : Nat) : Nat :=
  let glyphIndex := charIndex i
  let glyphIndex := if glyphIndex = 0 then charIndex (i + 0xF000) else glyphIndex
  let glyphIndex := if glyphIndex = 0 then charIndex (i + 0xF100) else glyphIndex
  glyphIndex

/-- The body of the loop over the codes for one Adobe charmap (pdffont.cpp 971-1005). -/
def readAdobeCode (env : FontEnvironment) (face : FT_Face) (charIndex : Nat → Nat) (i : Nat)
    (state : SimpleFontState) : SimpleFontState :=
  let glyphIndex := nativeGlyphIndex charIndex i
  if glyphIndex > 0 then
    let state :=
      { state with glyphIndexArray := Function.update state.glyphIndexArray i glyphIndex }
    match face.getGlyphName glyphIndex with
    | some name =>
      let character := env.getUnicodeForName name
      let character :=
        if character = nullCharacter then env.getUnicodeForNameZapfDingbats name
        else character
      if character ≠ nullCharacter then
        { state with
          encoding := Encoding.Custom,
          simpleFontEncodingTable :=
            Function.update state.simpleFontEncodingTable i character }
      else state
    | none => state
  else state

/-- The body of the loop over the charmaps of a face with PostScript glyph names
(pdffont.cpp 958-1013). -/
def readCharMap (env : FontEnvironment) (face : FT_Face) (state : SimpleFontState)
    (charMap : FT_CharMap) : SimpleFontState :=
  if charMap.encoding = FT_Encoding.other then state
  else
    match charMap.setCharmap with
    | some charIndex => forEachCode (readAdobeCode env face charIndex) state
    | none => state

/-- The native-charmap step for a loaded face (pdffont.cpp 956-1032): the Adobe charmaps of
a face with PostScript glyph names, else the Apple Roman charmap if it can be selected. -/
def readNativeCharmaps (env : FontEnvironment) (face : FT_Face) (state : SimpleFontState) :
    SimpleFontState :=
  if face.hasPSGlyphNames then face.charmaps.foldl (readCharMap env face) state
  else
    match face.selectAppleRoman with
    | some charIndex =>
      forEachCode
        (fun i s =>
          if charIndex i > 0 then
            { s with glyphIndexArray := Function.update s.glyphIndexArray i (charIndex i) }
          else s)
        { state with
          simpleFontEncodingTable := env.getTableForEncoding Encoding.MacOsRoman,
          encoding := Encoding.Custom }
    | none => state

/-- The fill of the glyph indices from the Unicode charmap (pdffont.cpp 1037-1052). -/
def fillFromUnicode (face : FT_Face) (state : SimpleFontState) : SimpleFontState :=
  match face.selectUnicode with
  | some charIndex =>
    forEachCode
      (fun i s =>
        let character := s.simpleFontEncodingTable i
        if character ≠ nullCharacter ∧ character ≠ replacementCharacter then
          if charIndex character > 0 then
            { s with glyphIndexArray := Function.update s.glyphIndexArray i (charIndex character) }
          else s
        else s)
      state
  | none => state

/-- The branch `if (fontDescriptor.isEmbedded())` for the bytes of the embedded program
(pdffont.cpp 944-1059): nothing is done, `finishFont` included, when the FreeType library
cannot be initialised or cannot load the program. -/
def readEmbeddedFont (env : FontEnvironment) (declared : DeclaredEncoding)
    (embeddedFontData : List Nat) (state : SimpleFontState) : SimpleFontState :=
  if env.initFreeType then
    match env.newMemoryFace embeddedFontData with
    | some face =>
      fillFromUnicode face (finishFont env declared (readNativeCharmaps env face state))
    | none => state
  else state

/-- The case `Type1`/`TrueType` of the first `switch` of `createFont` (pdffont.cpp
818-1067): the three variables at the `break`; `none` is the failure of
`Q_ASSERT(embeddedFontData)`. -/
def readSimpleFont (env : FontEnvironment) (standardFont : StandardFontType)
    (fontDescriptor : FontDescriptor) (fontDictionary : List (String × Object)) :
    Option (Except CreateFontError SimpleFontState) :=
  match readEncoding env standardFont fontDictionary with
  | Except.error e => some (Except.error e)
  | Except.ok declared =>
    match selectEncoding env standardFont declared.encoding with
    | Except.error e => some (Except.error e)
    | Except.ok encoding =>
      let state : SimpleFontState :=
        { encoding := encoding, simpleFontEncodingTable := env.getTableForEncoding encoding,
          glyphIndexArray := fun _ => 0 }
      if fontDescriptor.isEmbedded then
        match fontDescriptor.getEmbeddedFontData with
        | some embeddedFontData =>
          some (Except.ok (readEmbeddedFont env declared embeddedFontData state))
        | none => none
      else some (Except.ok (finishFont env declared state))

/-! ## PDFFont::createFont, composite fonts (pdffont.cpp 1069-1183) -/

/-- The outcome of the loop over the W array: the table of advances, or an element access
`wArray->getItem(index)` with an index that is not below the count of the array (the index
and the count), or no outcome because the loop `currentCID <= endCID` never ends. -/
inductive AdvancesOutcome where
  | table (advances : Nat → Option Rat)
  | outOfRange (index count : Nat)
  | endless

/-- The conversion of a `PDFInteger` to a `CID` (`unsigned int`, 32 bits). -/
def toCID (value : Int) : Nat := (value % 4294967296).toNat

/-- The loop `for (CID currentCID = startCID; currentCID <= endCID; ++currentCID)
advances[currentCID] = width;` when it ends, that is for `endCID` below the largest `CID`. -/
def setAdvanceRange (advances : Nat → Option Rat) (startCID endCID : Nat) (width : Rat) :
    Nat → Option Rat :=
  fun cid => if startCID ≤ cid ∧ cid ≤ endCID then some width else advances cid

/-- The loop over a width array (pdffont.cpp 1155-1162): the item at `widthArrayIndex` is
the advance of the CID `startCID + widthArrayIndex` (in 32 bits). -/
def setAdvanceList (startCID : Nat) :
    List Object → Nat → (Nat → Option Rat) → Nat → Option Rat
  | [], _, advances => advances
  | item :: rest, widthArrayIndex, advances =>
    setAdvanceList startCID rest (widthArrayIndex + 1)
      (Function.update advances ((startCID + widthArrayIndex % 4294967296) % 4294967296)
        (some (readNumber item 0)))

/-- The loop over the W array (pdffont.cpp 1140-1165). The first argument is what is left of
the array from index `i` on, the third the count of the array; each iteration reads the
items at `i`, `i + 1` and, after an integer, `i + 2`, without comparing these indices with
the count. -/
def readAdvances :
    List Object → Nat → Nat → (Nat → Option Rat) → AdvancesOutcome
  | [], _, _, advances => AdvancesOutcome.table advances
  | [_], i, count, _ => AdvancesOutcome.outOfRange (i + 1) count
  | start :: Object.integer value :: rest, i, count, advances =>
    match rest with
    | [] => AdvancesOutcome.outOfRange (i + 2) count
    | third :: rest3 =>
      if toCID value = 4294967295 then AdvancesOutcome.endless
      else
        readAdvances rest3 (i + 3) count
          (setAdvanceRange advances (toCID (readInteger start 0)) (toCID value)
            ((readInteger third 0 : Int) : Rat))
  | start :: Object.array widthArray :: rest, i, count, advances =>
    readAdvances rest (i + 2) count
      (setAdvanceList (toCID (readInteger start 0)) widthArray 0 advances)
  | _ :: _ :: rest, i, count, advances => readAdvances rest (i + 2) count advances
termination_by structural wArray => wArray

/-- The block that reads the W entry of the descendant font (pdffont.cpp 1132-1168). -/
def readW (descendantFontDictionary : List (String × Object)) : AdvancesOutcome :=
  if PDFDictionary.hasKey descendantFontDictionary "W" then
    match PDFDictionary.get descendantFontDictionary "W" with
    | Object.array wArray => readAdvances wArray 0 wArray.length (fun _ => none)
    | _ => AdvancesOutcome.table (fun _ => none)
  else AdvancesOutcome.table (fun _ => none)

/-- The code map read from an Encoding or ToUnicode object (pdffont.cpp 1073-1084,
1170-1181): by name, from the data of a stream, else the default-constructed map (the
default constructor is declared in pdffont.h, not among the sources; a map without
entries). -/
def readCMap (env : FontEnvironment) (object : Object) : Except ParseError PDFFontCMap :=
  match object with
  | Object.name data => env.createFromName data
  | Object.stream _ decoded => createFromData env.createFromName (env.tokens decoded)
  | _ => pure { m_entries := [], m_maxKeyLength := 0, m_vertical := false }

/-- The font returned by `createFont`. For a simple font: the font type, the encoding kind
(`m_encodingType`), the standard font read from BaseFont (a member of a Type1 font only) and
the members that shaping reads. -/
inductive CreatedFont where
  | simple (fontType : FontType) (encodingType : Encoding) (standardFont : StandardFontType)
      (font : PDFSimpleFont)
  | type0 (fontDescriptor : FontDescriptor) (font : PDFType0Font)
  | type3 (font : PDFType3Font)

/-- The case `Type0` of `createFont` (pdffont.cpp 1069-1184); `none` when the loop over the W
array has no defined outcome. -/
def createType0Font (env : FontEnvironment) (fontDictionary : List (String × Object)) :
    Option (Except CreateFontError CreatedFont) :=
  match readCMap env (PDFDictionary.get fontDictionary "Encoding") with
  | Except.error e => some (Except.error (CreateFontError.codeMap e))
  | Except.ok cmap =>
    if !cmap.isValid then some (Except.error CreateFontError.invalidCMap)
    else
      match PDFDictionary.get fontDictionary "DescendantFonts" with
      | Object.array descendantFontsArray =>
        match descendantFontsArray with
        | [Object.dictionary descendantFontDictionary] =>
          let fontDescriptor :=
            readFontDescriptor (PDFDictionary.get descendantFontDictionary "FontDescriptor")
          let cidToGidMapping : List Nat :=
            match PDFDictionary.get descendantFontDictionary "CIDtoGIDMap" with
            | Object.stream _ decoded => decoded
            | _ => []
          let dw := readNumberFromDictionary descendantFontDictionary "DW" 1000
          let dw2 := readNumberPairFromDictionary descendantFontDictionary "DW2" (0, 0)
          let defaultWidth :=
            if PDFDictionary.hasKey descendantFontDictionary "DW" then dw else dw2.2
          match readW descendantFontDictionary with
          | AdvancesOutcome.table advances =>
            match readCMap env (PDFDictionary.get fontDictionary "ToUnicode") with
            | Except.error e => some (Except.error (CreateFontError.codeMap e))
            | Except.ok toUnicodeCMap =>
              some (Except.ok (CreatedFont.type0 fontDescriptor
                { m_cmap := cmap, m_toUnicode := toUnicodeCMap,
                  m_mapper := env.mapCIDtoGID cidToGidMapping,
                  m_defaultAdvance := defaultWidth, m_advances := advances }))
          | _ => none
        | [_] => some (Except.error CreateFontError.invalidDescendantFont)
        | _ =>
          some (Except.error
            (CreateFontError.invalidDescendantFontCount descendantFontsArray.length))
      | _ => some (Except.error CreateFontError.invalidDescendantFont)

/-! ## PDFFont::createFont, procedural fonts (pdffont.cpp 1186-1261) and the whole -/

/-- The loop over the Differences array of a Type 3 font (pdffont.cpp 1227-1257): a name
item at the current offset stores the decoded content stream that `CharProcs` holds under
the name, if it holds a stream. -/
def readType3Differences (charProcsDictionary : List (String × Object)) :
    List Object → Nat → (Int → Option (List Nat)) →
      Except CreateFontError (Int → Option (List Nat))
  | [], _, characterContentStreams => pure characterContentStreams
  | Object.integer value :: rest, _, characterContentStreams =>
    readType3Differences charProcsDictionary rest (value % 18446744073709551616).toNat
      characterContentStreams
  | Object.name characterName :: rest, currentOffset, characterContentStreams =>
    if currentOffset > 255 then throw CreateFontError.invalidType3Differences
    else
      readType3Differences charProcsDictionary rest (currentOffset + 1)
        (match PDFDictionary.get charProcsDictionary characterName with
         | Object.stream _ contentStream =>
           Function.update characterContentStreams (currentOffset : Int) (some contentStream)
         | _ => characterContentStreams)
  | _ :: _, _, _ => throw CreateFontError.invalidType3Differences

/-- The case `Type3` of `createFont` (pdffont.cpp 1186-1261). -/
def createType3Font (fontDictionary : List (String × Object)) :
    Except CreateFontError CreatedFont :=
  let fontMatrixValues := readNumberArrayFromDictionary fontDictionary "FontMatrix"
  if fontMatrixValues.length ≠ 6 then throw CreateFontError.invalidType3FontMatrix
  else
    match PDFDictionary.get fontDictionary "CharProcs" with
    | Object.dictionary charProcsDictionary =>
      let firstChar := readIntegerFromDictionary fontDictionary "FirstChar" (-1)
      let lastChar := readIntegerFromDictionary fontDictionary "LastChar" (-1)
      if firstChar < 0 ∨ lastChar > 255 ∨ firstChar > lastChar then
        throw (CreateFontError.invalidType3CharacterRange firstChar lastChar)
      else
        match PDFDictionary.get fontDictionary "Encoding" with
        | Object.dictionary encodingDictionary =>
          match PDFDictionary.get encodingDictionary "Differences" with
          | Object.array differencesArray => do
            let characterContentStreams ←
              readType3Differences charProcsDictionary differencesArray 0 (fun _ => none)
            let widths := readNumberArrayFromDictionary fontDictionary "Widths"
            pure (CreatedFont.type3
              { m_firstCharacterIndex := firstChar, m_lastCharacterIndex := lastChar,
                m_characterContentStreams := characterContentStreams, m_widths := widths })
          | _ => throw CreateFontError.invalidType3Encoding
        | _ => throw CreateFontError.invalidType3Encoding
    | _ => throw CreateFontError.invalidType3ContentStreams

/-- The function `PDFFont::createFont` (pdffont.cpp 749-1278) on the dereferenced font
object. `none` stands for a call without defined outcome (an element access outside the W
array, a loop that never ends, a failed assertion). -/
def createFont (env : FontEnvironment) (dereferencedFontDictionary : Object) :
    Option (Except CreateFontError CreatedFont) :=
  match dereferencedFontDictionary with
  | Object.dictionary fontDictionary =>
    let fontType :=
      readEnumByName (PDFDictionary.get fontDictionary "Subtype") fontTypes FontType.Invalid
    let firstChar := readIntegerFromDictionary fontDictionary "FirstChar" 0
    let lastChar := readIntegerFromDictionary fontDictionary "LastChar" 255
    let widths := readIntegerArrayFromDictionary fontDictionary "Widths"
    let standardFont :=
      readEnumByName (PDFDictionary.get fontDictionary "BaseFont") standardFonts
        StandardFontType.Invalid
    let fontDescriptor := readFontDescriptor (PDFDictionary.get fontDictionary "FontDescriptor")
    match fontType with
    | FontType.Invalid => some (Except.error CreateFontError.invalidFontType)
    | FontType.Type0 => createType0Font env fontDictionary
    | FontType.Type3 => some (createType3Font fontDictionary)
    | simpleFontType =>
      match readSimpleFont env standardFont fontDescriptor fontDictionary with
      | none => none
      | some (Except.error e) => some (Except.error e)
      | some (Except.ok state) =>
        some (Except.ok (CreatedFont.simple simpleFontType state.encoding standardFont
          { m_firstChar := firstChar, m_lastChar := lastChar, m_widths := widths,
            m_encoding := state.simpleFontEncodingTable,
            m_glyphIndices := state.glyphIndexArray }))
  | _ => some (Except.error CreateFontError.fontObjectNotDictionary)

/-! ## Vocabulary of the statements on createFont -/

/-- The entry of a code after the first loop of `finishFont`: the character of the
Differences if there are Differences and the character is not null, else the entry of the
table. -/
def mergedCharacter (declared : DeclaredEncoding) (table : Nat → Nat) (c : Nat) : Nat :=
  if declared.hasDifferences = true ∧ declared.differences c ≠ nullCharacter then
    declared.differences c
  else table c

/-- A character that can be shown: neither the null character nor the replacement
character. -/
@[reducible] def usable (character : Nat) : Prop :=
  character ≠ nullCharacter ∧ character ≠ replacementCharacter

/-- The current offset of the loop over a Differences array after the items `items`, from
the offset `start`: an integer item sets it (converted to `size_t`), a name item advances it
by one, any other item leaves it. -/
def offsetAfter : Nat → List Object → Nat
  | start, [] => start
  | _, Object.integer value :: rest =>
    offsetAfter (value % 18446744073709551616).toNat rest
  | start, Object.name _ :: rest => offsetAfter (start + 1) rest
  | start, _ :: rest => offsetAfter start rest

/-- A Differences array is invalid for a table of `size` codes: it has an item that is
neither an integer nor a name, or a name item that occurs while the current offset is not
below `size`. -/
def invalidDifferences (size : Nat) (items : List Object) : Prop :=
  ∃ front item back, items = front ++ item :: back ∧
    ((item.isInt = false ∧ item.isName = false) ∨
      (item.isName = true ∧ size ≤ offsetAfter 0 front))

/-- The font type that `createFont` reads from a font dictionary. -/
def fontTypeOf (fontDictionary : List (String × Object)) : FontType :=
  readEnumByName (PDFDictionary.get fontDictionary "Subtype") fontTypes FontType.Invalid

/-- The standard font that `createFont` reads from a font dictionary. -/
def standardFontOf (fontDictionary : List (String × Object)) : StandardFontType :=
  readEnumByName (PDFDictionary.get fontDictionary "BaseFont") standardFonts
    StandardFontType.Invalid

/-- The font descriptor that `createFont` reads from the dictionary of a simple font. -/
def fontDescriptorOf (fontDictionary : List (String × Object)) : FontDescriptor :=
  readFontDescriptor (PDFDictionary.get fontDictionary "FontDescriptor")

/-- The members that `createFont` gives to the constructor of a simple font. -/
def simpleFontOf (fontDictionary : List (String × Object)) (state : SimpleFontState) :
    PDFSimpleFont :=
  { m_firstChar := readIntegerFromDictionary fontDictionary "FirstChar" 0,
    m_lastChar := readIntegerFromDictionary fontDictionary "LastChar" 255,
    m_widths := readIntegerArrayFromDictionary fontDictionary "Widths",
    m_encoding := state.simpleFontEncodingTable,
    m_glyphIndices := state.glyphIndexArray }

/-- A small environment for the concrete statements: the standard table holds the printable
ASCII characters at their codes, the Windows-ANSI table in addition the Euro sign at code
128; three glyph names are known; no font program can be loaded and no code map resource
exists. -/
def sampleEnvironment : FontEnvironment :=
  { getTableForEncoding := fun encoding c =>
      if 32 ≤ c ∧ c < 127 then c
      else if encoding = Encoding.WinAnsi ∧ c = 128 then 8364
      else 0,
    getUnicodeUsingResolvedName := fun name =>
      if name = "A" then 65 else if name = "B" then 66 else if name = "Euro" then 8364 else 0,
    getUnicodeForName := fun name =>
      if name = "A" then 65 else if name = "B" then 66 else if name = "Euro" then 8364 else 0,
    getUnicodeForNameZapfDingbats := fun _ => 0,
    builtInEncoding := fun _ => Encoding.Standard,
    mapCIDtoGID := fun _ cid => cid,
    initFreeType := true,
    newMemoryFace := fun _ => none,
    tokens := fun _ => [],
    createFromName := noCMaps }

/-- A Type1 font dictionary for the concrete statements: base font Arial (not a standard
font), no font descriptor, an Encoding dictionary with the Differences `[65 /B]`. -/
def sampleType1Font : List (String × Object) :=
  [("Subtype", Object.name "Type1"), ("BaseFont", Object.name "Arial"),
   ("Encoding", Object.dictionary
      [("Differences", Object.array [Object.integer 65, Object.name "B"])])]

/-- The Encoding entry of `sampleType1Font` as `readEncoding` reads it. -/
def sampleDeclared : DeclaredEncoding :=
  { encoding := Encoding.Standard, hasDifferences := true,
    differences := Function.update (fun _ => nullCharacter) 65 66 }

/-- The variables of `createFont` for `sampleType1Font` before `finishFont`. -/
def sampleState : SimpleFontState :=
  { encoding := Encoding.Standard,
    simpleFontEncodingTable := sampleEnvironment.getTableForEncoding Encoding.Standard,
    glyphIndexArray := fun _ => 0 }

/-- The font `sampleType1Font` with an embedded program (the bytes 1, 2, 3 in `FontFile`),
which the FreeType library of `sampleEnvironment` cannot load. -/
def sampleEmbeddedFont : List (String × Object) :=
  ("FontDescriptor", Object.dictionary [("FontFile", Object.stream [] [1, 2, 3])]) ::
    sampleType1Font

/-- A TrueType font dictionary without Encoding entry, base font Arial (not a standard
font). -/
def sampleTrueTypeFont : List (String × Object) :=
  [("Subtype", Object.name "TrueType"), ("BaseFont", Object.name "Arial")]

/-- A Type1 font dictionary without Encoding entry, base font Arial (not a standard font). -/
def samplePlainType1Font : List (String × Object) :=
  [("Subtype", Object.name "Type1"), ("BaseFont", Object.name "Arial")]

/-- What `readEncoding` gives for a font dictionary without Encoding entry. -/
def noDeclaredEncoding : DeclaredEncoding :=
  { encoding := Encoding.Invalid, hasDifferences := false,
    differences := fun _ => nullCharacter }

/-- A Type1 font dictionary whose Differences `[300 /A]` name a glyph at the offset 300. -/
def sampleBadDifferencesFont : List (String × Object) :=
  [("Subtype", Object.name "Type1"),
   ("Encoding", Object.dictionary
      [("Differences", Object.array [Object.integer 300, Object.name "A"])])]

/-- The sample environment with a lexical analyzer that reads every code map data as the
one-byte code space range `begincidrange <00> <FF> 0 endcidrange`. -/
def sampleCompositeEnvironment : FontEnvironment :=
  { sampleEnvironment with
    tokens := fun _ =>
      [Token.command "begincidrange", Token.string [0], Token.string [255],
       Token.integer 0, Token.command "endcidrange"] }

/-- A Type0 font dictionary whose descendant font has the W array `[5]`: a start CID without
its array or end CID. -/
def sampleShortWFont : List (String × Object) :=
  [("Subtype", Object.name "Type0"), ("Encoding", Object.stream [] []),
   ("DescendantFonts", Object.array
      [Object.dictionary [("W", Object.array [Object.integer 5])]])]

/-- A Type0 font dictionary with two descendant fonts. -/
def sampleTwoDescendantsFont : List (String × Object) :=
  [("Subtype", Object.name "Type0"), ("Encoding", Object.stream [] []),
   ("DescendantFonts", Object.array [Object.dictionary [], Object.dictionary []])]

/-- A Type3 font dictionary with all required entries: codes 0..1, the glyph name `a` at
code 0, no drawing programs. -/
def sampleType3Font : List (String × Object) :=
  [("Subtype", Object.name "Type3"),
   ("FontMatrix", Object.array [Object.integer 1, Object.integer 0, Object.integer 0,
      Object.integer 1, Object.integer 0, Object.integer 0]),
   ("CharProcs", Object.dictionary []),
   ("FirstChar", Object.integer 0), ("LastChar", Object.integer 1),
   ("Encoding", Object.dictionary
      [("Differences", Object.array [Object.integer 0, Object.name "a"])])]

/-- The advance of a code as the claim C30 states it, with `f`, `l` and `c` compared as
integers: `W[c - f]` if `f <= c <= l` and `c - f < |W|`, and 0 otherwise. -/
def advanceAsClaimed (f l : Int) (W : List Int) (c : Nat) : Int :=
  if f ≤ (c : Int) ∧ (c : Int) ≤ l ∧ (c : Int) - f < (W.length : Int) then
    W.getD ((c : Int) - f).toNat 0
  else 0

/-! ## Vocabulary and samples of the statements on embedded programs, the cache, code
operands, the W array and the glyph indices -/

/-- A font descriptor whose `FontFile` is empty while `FontFile2` holds the bytes 7, 8 and
`FontFile3` the byte 9. -/
def sampleFontFile2Descriptor : FontDescriptor :=
  { fontFile := [], fontFile2 := [7, 8], fontFile3 := [9] }

/-- A cache at its limits for the concrete statements: both limits are 1, the font map holds
the font 10 under the reference (1, 0) and the realized-font map the realized font 20 under
the font 10 at size 12. -/
def sampleFullCache : PDFFontCache Nat Nat :=
  { m_document := 0, m_fontCacheLimit := 1, m_realizedFontCacheLimit := 1,
    m_fontCache := [((1, 0), 10)], m_realizedFontCache := [((10, 12), 20)],
    fontConstructions := 1, realizedFontConstructions := 1 }

/-- The big-endian value of a byte string, as the spec words it ("code value = big-endian
byte interpretation"): the first byte is the most significant digit in base 256. -/
def bigEndianValue (bytes : List Nat) : Nat := bytes.foldl (fun value byte => value * 256 + byte) 0

/-- One well-formed group of a W array with integer widths: `c [w_0 ... w_{n-1}]`, or
`c_first c_last w`. -/
inductive WGroup where
  | list (c : Nat) (widths : List Int)
  | range (first last : Nat) (width : Int)

/-- The items of a group in the W array. -/
def WGroup.items : WGroup → List Object
  | WGroup.list c widths => [Object.integer c, Object.array (widths.map Object.integer)]
  | WGroup.range first last width =>
    [Object.integer first, Object.integer last, Object.integer width]

/-- The CIDs of a group are CIDs (32-bit unsigned): `c + j` for every width of a list, the
first CID of a range, and the last CID of a range, which is below the largest CID. -/
def WGroup.wellFormed : WGroup → Prop
  | WGroup.list c widths => c + widths.length ≤ 4294967296
  | WGroup.range first last _ => first < 4294967296 ∧ last < 4294967295

instance WGroup.decidableWellFormed (g : WGroup) : Decidable g.wellFormed := by
  cases g <;> unfold WGroup.wellFormed <;> infer_instance

/-- The advance that a group gives to a CID, as the spec words it: the group
`c [w_0 ... w_{n-1}]` gives `w_j` to the CID `c + j`, the group `c_first c_last w` gives
`w` to every CID in `[c_first, c_last]`; nothing for a CID the group does not mention. -/
def WGroup.advance : WGroup → Nat → Option Rat
  | WGroup.list c widths, cid =>
    if c ≤ cid ∧ cid < c + widths.length then some ((widths.getD (cid - c) 0 : Int) : Rat)
    else none
  | WGroup.range first last width, cid =>
    if first ≤ cid ∧ cid ≤ last then some (width : Rat) else none

/-- The override table of a list of groups, as the spec words it: a CID has the advance of
the last group that mentions it, and no advance when no group mentions it. -/
def overrideTable : List WGroup → Nat → Option Rat
  | [], _ => none
  | g :: rest, cid =>
    match overrideTable rest cid with
    | some width => some width
    | none => g.advance cid

/-- A Type0 font dictionary whose descendant font has the W array
`[1 [500 600] 2 3 700]` and neither DW nor DW2. -/
def sampleWFont : List (String × Object) :=
  [("Subtype", Object.name "Type0"), ("Encoding", Object.stream [] []),
   ("DescendantFonts", Object.array
      [Object.dictionary
        [("W", Object.array
          [Object.integer 1, Object.array [Object.integer 500, Object.integer 600],
           Object.integer 2, Object.integer 3, Object.integer 700])]])]

/-- The descendant font dictionary of `sampleWFont`. -/
def sampleWDescendant : List (String × Object) :=
  [("W", Object.array
    [Object.integer 1, Object.array [Object.integer 500, Object.integer 600],
     Object.integer 2, Object.integer 3, Object.integer 700])]

/-- The groups of the W array of `sampleWFont`. -/
def sampleWGroups : List WGroup := [WGroup.list 1 [500, 600], WGroup.range 2 3 700]

/-- A Type0 font dictionary whose descendant font has no DW and the DW2 array
`[880 -1000]`. -/
def sampleDW2Font : List (String × Object) :=
  [("Subtype", Object.name "Type0"), ("Encoding", Object.stream [] []),
   ("DescendantFonts", Object.array
      [Object.dictionary
        [("DW2", Object.array [Object.integer 880, Object.integer (-1000)])]])]

/-- A face for the concrete statements: no PostScript glyph names; the Apple Roman charmap
and the Unicode charmap both have the glyph 5 for `A` (65), the glyph 7 for `B` (66) and no
other glyph. -/
def sampleFace : FT_Face :=
  { hasPSGlyphNames := false, charmaps := [], getGlyphName := fun _ => none,
    selectAppleRoman := some (fun i => if i = 65 then 5 else if i = 66 then 7 else 0),
    selectUnicode := some (fun character =>
      if character = 65 then 5 else if character = 66 then 7 else 0) }

/-- The sample environment with a FreeType library that loads every font program as
`sampleFace`. -/
def sampleFaceEnvironment : FontEnvironment :=
  { sampleEnvironment with newMemoryFace := fun _ => some sampleFace }

/-- A TrueType font dictionary with an embedded program (the bytes 1, 2, 3 in `FontFile2`),
base font Arial (not a standard font) and an Encoding dictionary with the Differences
`[65 /B]`. -/
def sampleEmbeddedTrueTypeFont : List (String × Object) :=
  [("FontDescriptor", Object.dictionary [("FontFile2", Object.stream [] [1, 2, 3])]),
   ("Subtype", Object.name "TrueType"), ("BaseFont", Object.name "Arial"),
   ("Encoding", Object.dictionary
      [("Differences", Object.array [Object.integer 65, Object.name "B"])])]

/-! ## Lemmas on interpret -/

theorem suits_iff (e : Entry) (v j : Nat) : e.suits v j = true ↔ e.covers v j := by
  simp [Entry.suits, Entry.covers, and_assoc]

theorem suits_eq_decide (v j : Nat) :
    Entry.suits v j = fun e => decide (e.covers v j) := by
  funext e
  rw [Bool.eq_iff_iff, suits_iff]
  simp

theorem find_none_of_not_covers (entries : List Entry) (v j : Nat)
    (h : ∀ x ∈ entries, ¬ x.covers v j) : entries.find? (Entry.suits v j) = none := by
  rw [List.find?_eq_none]
  intro x hx hs
  exact h x hx ((suits_iff x v j).mp hs)

theorem find_first (front back : List Entry) (e : Entry) (v j : Nat)
    (hfront : ∀ x ∈ front, ¬ x.covers v j) (he : e.covers v j) :
    (front ++ e :: back).find? (Entry.suits v j) = some e := by
  rw [List.find?_append, find_none_of_not_covers front v j hfront]
  simp [List.find?_cons, (suits_iff e v j).mpr he]

theorem foldl_max_ge_init (entries : List Entry) (init : Nat) :
    init ≤ entries.foldl (fun a b => max a b.byteCount) init := by
  induction entries generalizing init with
  | nil => simp
  | cons x xs ih =>
    simp only [List.foldl_cons]
    exact le_trans (le_max_left _ _) (ih _)

theorem byteCount_le_foldl (entries : List Entry) (init : Nat) (e : Entry) (he : e ∈ entries) :
    e.byteCount ≤ entries.foldl (fun a b => max a b.byteCount) init := by
  induction entries generalizing init with
  | nil => cases he
  | cons x xs ih =>
    simp only [List.foldl_cons]
    rcases List.mem_cons.mp he with h | h
    · subst h
      exact le_trans (le_max_right _ _) (foldl_max_ge_init xs _)
    · exact ih _ h

theorem byteCount_le_maxKeyLength (entries : List Entry) (vertical : Bool) (e : Entry)
    (he : e ∈ entries) : e.byteCount ≤ (PDFFontCMap.create entries vertical).m_maxKeyLength :=
  byteCount_le_foldl entries 0 e he

theorem foldl_max_le (entries : List Entry) (init k : Nat) (hinit : init ≤ k)
    (hall : ∀ e ∈ entries, e.byteCount ≤ k) :
    entries.foldl (fun a b => max a b.byteCount) init ≤ k := by
  induction entries generalizing init with
  | nil => simpa using hinit
  | cons x xs ih =>
    simp only [List.foldl_cons]
    exact ih _ (max_le hinit (hall x (by simp))) (fun e he => hall e (by simp [he]))

theorem foldl_max_init (entries : List Entry) (init : Nat) :
    entries.foldl (fun a b => max a b.byteCount) init =
      max init (entries.foldl (fun a b => max a b.byteCount) 0) := by
  induction entries generalizing init with
  | nil => simp
  | cons x xs ih =>
    simp only [List.foldl_cons]
    rw [ih (max init x.byteCount), ih (max 0 x.byteCount)]
    simp only [Nat.zero_max, max_assoc]

/-- Bytes that neither complete a covered code nor exhaust the key length only accumulate. -/
theorem interpretLoop_skip (entries : List Entry) (maxKeyLength : Nat) (skipped rest : List Nat)
    (value scanned : Nat)
    (hno : ∀ j, 1 ≤ j → j ≤ skipped.length →
      entries.find? (Entry.suits ((skipped.take j).foldl shiftIn value) (scanned + j)) = none)
    (hlt : scanned + skipped.length < maxKeyLength) :
    interpretLoop entries maxKeyLength value scanned (skipped ++ rest) =
      interpretLoop entries maxKeyLength (skipped.foldl shiftIn value)
        (scanned + skipped.length) rest := by
  induction skipped generalizing value scanned with
  | nil => simp
  | cons b bs ih =>
    have h1 := hno 1 (le_refl 1) (by simp)
    simp only [List.take_succ_cons, List.take_zero, List.foldl_cons, List.foldl_nil] at h1
    simp only [List.length_cons] at hlt
    rw [List.cons_append, interpretLoop]
    simp only [h1, List.length_cons, List.foldl_cons]
    rw [if_neg (by omega)]
    rw [ih (shiftIn value b) (scanned + 1)]
    · congr 1; omega
    · intro j hj1 hj2
      have := hno (j + 1) (by omega) (by simp; omega)
      simpa [List.take_succ_cons, Nat.add_assoc, Nat.add_comm 1 j] using this
    · omega

theorem interpretLoop_cons_some (entries : List Entry) (maxKeyLength value scanned b : Nat)
    (bs : List Nat) (entry : Entry)
    (h : entries.find? (Entry.suits (shiftIn value b) (scanned + 1)) = some entry) :
    interpretLoop entries maxKeyLength value scanned (b :: bs) =
      ((shiftIn value b - entry.from_ + entry.cid) % 4294967296) ::
        interpretLoop entries maxKeyLength 0 0 bs := by
  rw [interpretLoop]
  simp only [h]

theorem interpretLoop_cons_fail (entries : List Entry) (maxKeyLength value scanned b : Nat)
    (bs : List Nat)
    (h : entries.find? (Entry.suits (shiftIn value b) (scanned + 1)) = none)
    (hmax : scanned + 1 = maxKeyLength) :
    interpretLoop entries maxKeyLength value scanned (b :: bs) =
      0 :: interpretLoop entries maxKeyLength 0 0 bs := by
  rw [interpretLoop]
  simp only [h]
  rw [if_pos hmax]

theorem exists_init_last (b : List Nat) (hb : b ≠ []) : ∃ init last, b = init ++ [last] :=
  ⟨b.dropLast, b.getLast hb, (List.dropLast_append_getLast hb).symm⟩

theorem reserveSize_pos (size maxKeyLength : Nat) (h : 1 ≤ maxKeyLength) :
    reserveSize size maxKeyLength = some (size / maxKeyLength) := by
  unfold reserveSize
  rw [if_neg (by omega)]

theorem interpret_eq_loop (m : PDFFontCMap) (byteArray : List Nat) (h : 1 ≤ m.m_maxKeyLength) :
    m.interpret byteArray =
      some (interpretLoop m.m_entries m.m_maxKeyLength 0 0 byteArray) := by
  unfold PDFFontCMap.interpret
  rw [reserveSize_pos _ _ h]

theorem codeValue_concat (init : List Nat) (last : Nat) :
    codeValue (init ++ [last]) = shiftIn (codeValue init) last := by
  simp [codeValue, List.foldl_append]

/-! ## C1: the match step of interpret -/

/-- C1. PDFFontCMap::interpret, match step. Let `b` be a non-empty byte string such that no
shorter non-empty prefix of `b` has its value covered by an entry of that prefix's length,
and let `e` be the first entry in list order (the entries are `front ++ e :: back`, nothing
in `front` covers) with `from ≤ v ≤ to` and `byteCount = |b|`, where `v` is the value of `b`
as `interpret` accumulates it (big-endian, in 32-bit unsigned arithmetic). Then `interpret`
returns on `b ++ rest`, and its result is `identifier + (v − from)` (an `unsigned int`, so
modulo 2^32) followed by the result on `rest`. -/
theorem interpret_emits_on_match (front back : List Entry) (e : Entry) (vertical : Bool)
    (b rest : List Nat) (hb : b ≠ [])
    (hshort : ∀ j, 1 ≤ j → j < b.length →
      ∀ x ∈ front ++ e :: back, ¬ x.covers (codeValue (b.take j)) j)
    (hfront : ∀ x ∈ front, ¬ x.covers (codeValue b) b.length)
    (he : e.covers (codeValue b) b.length) :
    ∃ r, (PDFFontCMap.create (front ++ e :: back) vertical).interpret rest = some r ∧
      (PDFFontCMap.create (front ++ e :: back) vertical).interpret (b ++ rest) =
        some ((e.cid + (codeValue b - e.from_)) % 4294967296 :: r) := by
  obtain ⟨init, last, rfl⟩ := exists_init_last b hb
  have hmem : e ∈ front ++ e :: back := by simp
  have hmax := byteCount_le_maxKeyLength (front ++ e :: back) vertical e hmem
  have hbc : e.byteCount = init.length + 1 := by simpa using he.2.2
  have hpos : 1 ≤ (PDFFontCMap.create (front ++ e :: back) vertical).m_maxKeyLength := by omega
  refine ⟨_, interpret_eq_loop _ rest hpos, ?_⟩
  rw [interpret_eq_loop _ _ hpos, List.append_assoc]
  have hskip := interpretLoop_skip (front ++ e :: back)
    (PDFFontCMap.create (front ++ e :: back) vertical).m_maxKeyLength init ([last] ++ rest) 0 0
    (by
      intro j hj1 hj2
      apply find_none_of_not_covers
      intro x hx
      have := hshort j hj1 (by simp; omega) x hx
      rw [List.take_append_of_le_length hj2] at this
      simpa [codeValue] using this)
    (by omega)
  have hfind := find_first front back e _ _ hfront he
  rw [codeValue_concat] at hfind
  simp only [List.length_append, List.length_singleton] at hfind
  show some (interpretLoop (front ++ e :: back) _ 0 0 (init ++ ([last] ++ rest))) = _
  have hcv : List.foldl shiftIn 0 init = codeValue init := rfl
  rw [hskip, hcv, Nat.zero_add, List.singleton_append,
    interpretLoop_cons_some _ _ _ _ _ _ e hfind, codeValue_concat, Nat.add_comm e.cid]
  rfl

/-- C1, the scenario of the spec: with the single entry `{from 0x20, to 0x7e, byteCount 2,
identifier 0x20}` the two bytes `0x00 0x41` decode to the identifier `0x41`. -/
theorem interpret_emits_on_match_witness :
    (PDFFontCMap.create [⟨0x20, 0x7e, 2, 0x20⟩] false).interpret [0x00, 0x41] = some [0x41] := by
  obtain ⟨r, h1, h2⟩ := interpret_emits_on_match [] [] ⟨0x20, 0x7e, 2, 0x20⟩ false [0x00, 0x41] []
    (by decide)
    (by
      intro j h1 h2 x hx
      have hj : j = 1 := by simp at h2; omega
      subst hj
      simp at hx
      subst hx
      simp [Entry.covers])
    (by intro x hx; cases hx)
    (by decide)
  simp only [List.nil_append, List.append_nil] at h1 h2
  have hr : r = [] := by
    have : (PDFFontCMap.create [⟨0x20, 0x7e, 2, 0x20⟩] false).interpret [] = some [] := by rfl
    rw [this] at h1
    exact (Option.some.inj h1).symm
  subst hr
  simpa using h2

/-! ## C2: the failure step of interpret -/

/-- C2. PDFFontCMap::interpret, failure step. For a map whose maximal byteCount `m` is at
least 1 and a byte string `b` of length `m` such that no non-empty prefix of `b` (of any
length `j` from 1 to `m`) has its value covered by an entry of byteCount `j`, `interpret`
returns on `b ++ rest` and its result is the sentinel `0` followed by the result on `rest`:
one sentinel, exactly `m` bytes consumed, the accumulator cleared. -/
theorem interpret_emits_sentinel_on_failure (entries : List Entry) (vertical : Bool)
    (b rest : List Nat)
    (hm : 1 ≤ (PDFFontCMap.create entries vertical).m_maxKeyLength)
    (hlen : b.length = (PDFFontCMap.create entries vertical).m_maxKeyLength)
    (hno : ∀ j, 1 ≤ j → j ≤ b.length → ∀ x ∈ entries, ¬ x.covers (codeValue (b.take j)) j) :
    ∃ r, (PDFFontCMap.create entries vertical).interpret rest = some r ∧
      (PDFFontCMap.create entries vertical).interpret (b ++ rest) = some (0 :: r) := by
  have hb : b ≠ [] := by
    intro h; subst h; simp at hlen; omega
  obtain ⟨init, last, rfl⟩ := exists_init_last b hb
  refine ⟨_, interpret_eq_loop _ rest hm, ?_⟩
  rw [interpret_eq_loop _ _ hm, List.append_assoc]
  simp only [List.length_append, List.length_singleton] at hlen hno
  have hskip := interpretLoop_skip entries
    (PDFFontCMap.create entries vertical).m_maxKeyLength init ([last] ++ rest) 0 0
    (by
      intro j hj1 hj2
      apply find_none_of_not_covers
      intro x hx
      have := hno j hj1 (by omega) x hx
      rw [List.take_append_of_le_length hj2] at this
      simpa [codeValue] using this)
    (by omega)
  have hfind :
      entries.find? (Entry.suits (shiftIn (codeValue init) last) (init.length + 1)) = none := by
    apply find_none_of_not_covers
    intro x hx
    have := hno (init.length + 1) (by omega) (le_refl _) x hx
    rw [← codeValue_concat]
    rw [List.take_of_length_le (by simp)] at this
    exact this
  show some (interpretLoop entries _ 0 0 (init ++ ([last] ++ rest))) = _
  have hcv : List.foldl shiftIn 0 init = codeValue init := rfl
  rw [hskip, hcv, Nat.zero_add, List.singleton_append,
    interpretLoop_cons_fail _ _ _ _ _ _ hfind hlen]
  rfl

/-- C2 on a concrete map: with the entry `{0x20, 0x7e, 2, 0x20}` the unit `0x01 0x00` is
covered by nothing, so it yields one sentinel and the next unit `0x00 0x41` is decoded. -/
theorem interpret_emits_sentinel_on_failure_witness :
    (PDFFontCMap.create [⟨0x20, 0x7e, 2, 0x20⟩] false).interpret [0x01, 0x00, 0x00, 0x41] =
      some [0, 0x41] := by
  obtain ⟨r, h1, h2⟩ := interpret_emits_sentinel_on_failure [⟨0x20, 0x7e, 2, 0x20⟩] false
    [0x01, 0x00] [0x00, 0x41] (by decide) (by decide)
    (by
      intro j h1 h2 x hx
      simp at hx
      subst hx
      have hj : j = 1 ∨ j = 2 := by simp at h2; omega
      rcases hj with hj | hj <;> subst hj <;> simp [Entry.covers, codeValue, shiftIn])
  have hr : r = [0x41] := by
    have : (PDFFontCMap.create [⟨0x20, 0x7e, 2, 0x20⟩] false).interpret [0x00, 0x41] =
        some [0x41] := by rfl
    rw [this] at h1
    exact (Option.some.inj h1).symm
  subst hr
  simpa using h2

/-! ## C3: interpret on a map without entries -/

/-- C3 (the code departs from the claim). The claim says `interpret` is total and never
divides by zero, also on an invalid map. In the code the map without entries has
`m_maxKeyLength = 0`, so the quotient `byteArray.size() / m_maxKeyLength` that sizes the
result is a division by zero for every byte string, and `interpret` has no defined result;
`getToUnicode`, by contrast, tests `isValid()` first and returns the null character. The
same happens on the map parsed from `begincidchar <> 5 endcidchar`, which has an entry (so
it is valid) but whose maximal byteCount is 0. -/
theorem interpret_invalid_map_divides_by_zero (vertical : Bool) (byteArray : List Nat)
    (cid : Nat) :
    (PDFFontCMap.create [] vertical).isValid = false ∧
    (PDFFontCMap.create [] vertical).m_maxKeyLength = 0 ∧
    reserveSize byteArray.length (PDFFontCMap.create [] vertical).m_maxKeyLength = none ∧
    (PDFFontCMap.create [] vertical).interpret byteArray = none ∧
    (PDFFontCMap.create [] vertical).getToUnicode cid = 0 ∧
    (∃ m, createFromData noCMaps [Token.command "begincidchar", Token.string [],
        Token.integer 5, Token.command "endcidchar"] = Except.ok m ∧
      m.isValid = true ∧ m.interpret byteArray = none) :=
  ⟨rfl, rfl, rfl, rfl, rfl, PDFFontCMap.create [⟨0, 0, 0, 5⟩] false, rfl, rfl, rfl⟩

/-! ## C4: output length on a map of uniform byteCount -/

theorem maxKeyLength_uniform (entries : List Entry) (vertical : Bool) (k : Nat)
    (hne : entries ≠ []) (hall : ∀ e ∈ entries, e.byteCount = k) :
    (PDFFontCMap.create entries vertical).m_maxKeyLength = k := by
  apply le_antisymm
  · exact foldl_max_le entries 0 k (Nat.zero_le _) (fun e he => le_of_eq (hall e he))
  · obtain ⟨x, hx⟩ := List.exists_mem_of_ne_nil entries hne
    have := byteCount_le_maxKeyLength entries vertical x hx
    rw [hall x hx] at this
    exact this

theorem uniform_find_none (entries : List Entry) (k v j : Nat)
    (hall : ∀ e ∈ entries, e.byteCount = k) (hj : j ≠ k) :
    entries.find? (Entry.suits v j) = none := by
  apply find_none_of_not_covers
  intro x hx hc
  exact hj (by rw [← hc.2.2, hall x hx])

theorem uniform_short (entries : List Entry) (k : Nat) (s : List Nat)
    (hall : ∀ e ∈ entries, e.byteCount = k) (hs : s.length < k) :
    interpretLoop entries k 0 0 s = [] := by
  have h := interpretLoop_skip entries k s [] 0 0
    (fun j _ hj2 => uniform_find_none entries k _ _ hall (by omega)) (by omega)
  rw [List.append_nil] at h
  rw [h, interpretLoop]

theorem uniform_unit (entries : List Entry) (k : Nat) (b rest : List Nat)
    (hall : ∀ e ∈ entries, e.byteCount = k) (hk : 1 ≤ k) (hb : b.length = k) :
    interpretLoop entries k 0 0 (b ++ rest) =
      decodeUnit entries b :: interpretLoop entries k 0 0 rest := by
  have hne : b ≠ [] := by
    intro h; subst h; simp at hb; omega
  obtain ⟨init, last, rfl⟩ := exists_init_last b hne
  simp only [List.length_append, List.length_singleton] at hb
  have hskip := interpretLoop_skip entries k init ([last] ++ rest) 0 0
    (fun j _ hj2 => uniform_find_none entries k _ _ hall (by omega)) (by omega)
  have hcv : List.foldl shiftIn 0 init = codeValue init := rfl
  rw [List.append_assoc, hskip, hcv, Nat.zero_add, List.singleton_append]
  unfold decodeUnit
  rw [← suits_eq_decide, codeValue_concat, List.length_append, List.length_singleton]
  cases hfind : entries.find? (Entry.suits (shiftIn (codeValue init) last) (init.length + 1)) with
  | some e =>
    rw [interpretLoop_cons_some _ _ _ _ _ _ e hfind]
    simp only [Nat.add_comm]
  | none => rw [interpretLoop_cons_fail _ _ _ _ _ _ hfind hb]

theorem uniform_loop (entries : List Entry) (k : Nat) (hall : ∀ e ∈ entries, e.byteCount = k)
    (hk : 1 ≤ k) (n : Nat) (s : List Nat) (hn : s.length / k = n) :
    interpretLoop entries k 0 0 s =
      (List.range n).map (fun i => decodeUnit entries (unitAt k s i)) := by
  induction n generalizing s with
  | zero =>
    have : s.length < k := by
      rcases Nat.lt_or_ge s.length k with h | h
      · exact h
      · have := Nat.div_pos h (by omega); omega
    simp [uniform_short entries k s hall this]
  | succ n ih =>
    have hge : k ≤ s.length := by
      rcases Nat.lt_or_ge s.length k with h | h
      · rw [Nat.div_eq_of_lt h] at hn; omega
      · exact h
    have hlen : (s.take k).length = k := by simp [hge]
    have hdrop : (s.drop k).length / k = n := by
      rw [List.length_drop]
      have := Nat.div_eq_sub_div (by omega : 0 < k) hge
      omega
    have hunit := uniform_unit entries k (s.take k) (s.drop k) hall hk hlen
    rw [List.take_append_drop] at hunit
    rw [hunit, ih (s.drop k) hdrop, List.range_succ_eq_map, List.map_cons, List.map_map]
    congr 1
    · simp [unitAt]
    · apply List.map_congr_left
      intro i _
      simp only [Function.comp, unitAt, List.drop_drop]
      congr 3
      rw [Nat.succ_mul]
      omega

theorem unit_fits (k : Nat) (s : List Nat) (i : Nat) (hk : 1 ≤ k) (hi : i < s.length / k) :
    i * k + k ≤ s.length := by
  have h := (Nat.le_div_iff_mul_le (by omega : 0 < k)).mp (Nat.succ_le_of_lt hi)
  rw [Nat.succ_mul] at h
  exact h

theorem unitAt_length (k : Nat) (s : List Nat) (i : Nat) (hk : 1 ≤ k) (hi : i < s.length / k) :
    (unitAt k s i).length = k := by
  have := unit_fits k s i hk hi
  simp only [unitAt, List.length_take, List.length_drop]
  omega

theorem unitAt_take (k : Nat) (s : List Nat) (i : Nat) (hi : i < s.length / k) :
    unitAt k (s.take (k * (s.length / k))) i = unitAt k s i := by
  have h1 : i * k + k ≤ k * (s.length / k) := by
    have : (i + 1) * k ≤ (s.length / k) * k := Nat.mul_le_mul_right k (Nat.succ_le_of_lt hi)
    rw [Nat.succ_mul, Nat.mul_comm (s.length / k)] at this
    exact this
  simp only [unitAt, List.drop_take, List.take_take]
  congr 1
  omega

theorem decodeUnit_mapped (entries : List Entry) (u : List Nat)
    (h : ∃ e ∈ entries, e.covers (codeValue u) u.length) :
    ∃ e ∈ entries, e.covers (codeValue u) u.length ∧
      decodeUnit entries u = (e.cid + (codeValue u - e.from_)) % 4294967296 := by
  unfold decodeUnit
  rw [← suits_eq_decide]
  cases hfind : entries.find? (Entry.suits (codeValue u) u.length) with
  | none =>
    obtain ⟨e, he, hc⟩ := h
    have := List.find?_eq_none.mp hfind e he
    exact absurd ((suits_iff e _ _).mpr hc) this
  | some e =>
    exact ⟨e, List.mem_of_find?_eq_some hfind, (suits_iff e _ _).mp (List.find?_some hfind), rfl⟩

/-- C4. Output length of PDFFontCMap::interpret. For a map with at least one entry in which
every entry has the same byteCount `k ≥ 1`, and an input `s` of `L` bytes, `interpret`
returns a sequence `out` of exactly `L / k` elements; element `i` is what the `i`-th unit of
`k` bytes decodes to (the identifier from the first entry covering it, or the sentinel `0`),
in input order; the trailing `L mod k` bytes add nothing (the input cut down to its
complete units gives the same `out`); and every unit whose value lies in some entry yields a
mapped identifier of an entry containing it, not the failure branch. -/
theorem interpret_output_length_uniform (entries : List Entry) (vertical : Bool) (k : Nat)
    (s : List Nat) (hne : entries ≠ []) (hk : 1 ≤ k)
    (hall : ∀ e ∈ entries, e.byteCount = k) :
    ∃ out, (PDFFontCMap.create entries vertical).interpret s = some out ∧
      out.length = s.length / k ∧
      out = (List.range (s.length / k)).map (fun i => decodeUnit entries (unitAt k s i)) ∧
      (PDFFontCMap.create entries vertical).interpret (s.take (k * (s.length / k))) =
        some out ∧
      ∀ i, i < s.length / k → (∃ e ∈ entries, e.covers (codeValue (unitAt k s i)) k) →
        ∃ e ∈ entries, e.covers (codeValue (unitAt k s i)) k ∧
          out[i]? = some ((e.cid + (codeValue (unitAt k s i) - e.from_)) % 4294967296) := by
  have hmax := maxKeyLength_uniform entries vertical k hne hall
  have hpos : 1 ≤ (PDFFontCMap.create entries vertical).m_maxKeyLength := by omega
  have hloop := uniform_loop entries k hall hk (s.length / k) s rfl
  have htake : (s.take (k * (s.length / k))).length / k = s.length / k := by
    rw [List.length_take, Nat.min_eq_left (Nat.mul_div_le s.length k),
      Nat.mul_div_cancel_left _ (by omega : 0 < k)]
  have hloop2 := uniform_loop entries k hall hk (s.length / k) (s.take (k * (s.length / k))) htake
  refine ⟨_, ?_, ?_, rfl, ?_, ?_⟩
  · rw [interpret_eq_loop _ _ hpos, hmax]
    exact congrArg some hloop
  · simp
  · rw [interpret_eq_loop _ _ hpos, hmax]
    show some (interpretLoop entries k 0 0 _) = _
    rw [hloop2]
    congr 1
    apply List.map_congr_left
    intro i hi
    rw [unitAt_take k s i (List.mem_range.mp hi)]
  · intro i hi hex
    have hlen := unitAt_length k s i hk hi
    have hex2 : ∃ e ∈ entries, e.covers (codeValue (unitAt k s i)) (unitAt k s i).length := by
      rw [hlen]; exact hex
    obtain ⟨e, he, hc, hd⟩ := decodeUnit_mapped entries (unitAt k s i) hex2
    rw [hlen] at hc
    refine ⟨e, he, hc, ?_⟩
    rw [List.getElem?_map, List.getElem?_range hi]
    simp [hd]

/-- C4 on a concrete input: with the two-byte entry `{0x20, 0x7e, 2, 0x20}`, five input
bytes give `5 / 2 = 2` identifiers and the fifth byte gives none. -/
theorem interpret_output_length_uniform_witness :
    ∃ out, (PDFFontCMap.create [⟨0x20, 0x7e, 2, 0x20⟩] false).interpret
        [0x00, 0x41, 0x00, 0x42, 0x00] = some out ∧ out.length = 2 := by
  obtain ⟨out, h1, h2, _⟩ := interpret_output_length_uniform [⟨0x20, 0x7e, 2, 0x20⟩] false 2
    [0x00, 0x41, 0x00, 0x42, 0x00] (by decide) (by decide) (by decide)
  exact ⟨out, h1, h2⟩

/-! ## C5: optimize is idempotent -/

theorem canMerge_iff (a b : Entry) : a.canMerge b = true ↔
    a.byteCount = b.byteCount ∧ (a.to_ + 1) % 4294967296 = b.from_ ∧
    ((a.cid + a.to_ + 1) % 4294967296 + (4294967296 - a.from_ % 4294967296)) % 4294967296 =
      b.cid := by
  simp [Entry.canMerge, and_assoc]

theorem canMerge_congr (c a b : Entry) (h1 : a.from_ = b.from_) (h2 : a.byteCount = b.byteCount)
    (h3 : a.cid = b.cid) : c.canMerge a = c.canMerge b := by
  simp only [Entry.canMerge, h1, h2, h3]

theorem optimizeLoop_head (current : Entry) (rest : List Entry) :
    ∃ h t, optimizeLoop current rest = h :: t ∧ h.from_ = current.from_ ∧
      h.byteCount = current.byteCount ∧ h.cid = current.cid := by
  induction rest generalizing current with
  | nil => exact ⟨current, [], rfl, rfl, rfl, rfl⟩
  | cons x xs ih =>
    rw [optimizeLoop]
    split
    · obtain ⟨h, t, e, h1, h2, h3⟩ := ih (current.merge x)
      exact ⟨h, t, e, h1, h2, h3⟩
    · exact ⟨current, _, rfl, rfl, rfl, rfl⟩

theorem optimize_optimizeLoop (current : Entry) (rest : List Entry) :
    optimize (optimizeLoop current rest) = optimizeLoop current rest := by
  induction rest generalizing current with
  | nil => rfl
  | cons x xs ih =>
    rw [optimizeLoop]
    split
    · exact ih _
    · rename_i hno
      obtain ⟨h, t, e, h1, h2, h3⟩ := optimizeLoop_head x xs
      have ihx := ih x
      rw [e] at ihx ⊢
      rw [optimize] at ihx ⊢
      rw [optimizeLoop, canMerge_congr current h x h1 h2 h3, if_neg hno, ihx]

/-- C5. PDFFontCMap::optimize is idempotent: for every list of entries `E`, sorted or not,
`optimize (optimize E) = optimize E`, where two adjacent entries are merged exactly when
they share byteCount, the second's `from` is the first's `to + 1` and the second's
identifier continues the first's linear progression. -/
theorem optimize_is_idempotent (entries : List Entry) :
    optimize (optimize entries) = optimize entries := by
  cases entries with
  | nil => rfl
  | cons front rest => exact optimize_optimizeLoop front rest

/-! ## C6: optimize preserves decoding -/

theorem interpretLoop_congr (A B : List Entry) (maxKeyLength : Nat)
    (h : ∀ v j, lookupCID A v j = lookupCID B v j) (s : List Nat) (value scanned : Nat) :
    interpretLoop A maxKeyLength value scanned s = interpretLoop B maxKeyLength value scanned s := by
  induction s generalizing value scanned with
  | nil => simp [interpretLoop]
  | cons b bs ih =>
    have hl := h (shiftIn value b) (scanned + 1)
    unfold lookupCID at hl
    rw [interpretLoop, interpretLoop]
    cases hA : A.find? (Entry.suits (shiftIn value b) (scanned + 1)) with
    | none =>
      cases hB : B.find? (Entry.suits (shiftIn value b) (scanned + 1)) with
      | none =>
        simp only []
        split
        · rw [ih]
        · rw [ih]
      | some eb => rw [hA, hB] at hl; simp at hl
    | some ea =>
      cases hB : B.find? (Entry.suits (shiftIn value b) (scanned + 1)) with
      | none => rw [hA, hB] at hl; simp at hl
      | some eb =>
        rw [hA, hB] at hl
        simp only [Option.map_some', Option.some.injEq] at hl
        simp only [hl, ih]

theorem lookupCID_merge (cur x : Entry) (xs : List Entry) (hc : cur.wellRanged)
    (hx : x.wellRanged) (hm : cur.canMerge x = true) (v j : Nat) :
    lookupCID (cur.merge x :: xs) v j = lookupCID (cur :: x :: xs) v j := by
  obtain ⟨h1, h2, h3⟩ := (canMerge_iff cur x).mp hm
  obtain ⟨hc1, hc2⟩ := hc
  obtain ⟨hx1, hx2⟩ := hx
  simp only [lookupCID, List.find?_cons, Entry.suits, Entry.merge]
  by_cases hj : cur.byteCount = j
  · by_cases hv1 : cur.from_ ≤ v
    · by_cases hv2 : v ≤ cur.to_
      · have : v ≤ x.to_ := by omega
        simp [hj, hv1, hv2, this]
      · by_cases hv3 : v ≤ x.to_
        · have h4 : x.from_ ≤ v := by omega
          have h5 : x.byteCount = j := by omega
          simp only [hj, hv1, hv2, hv3, h4, h5, decide_True, decide_False, Bool.and_true,
            Bool.and_false, Bool.false_and, ge_iff_le, Option.map_some', Option.some.injEq,
            Bool.and_self]
          omega
        · simp [hj, hv1, hv2, hv3]
    · have h4 : ¬ x.from_ ≤ v := by omega
      simp [hj, hv1, h4]
  · have h5 : ¬ x.byteCount = j := by omega
    simp [hj, h5]

theorem lookupCID_cons_congr (c : Entry) (A B : List Entry) (v j : Nat)
    (h : lookupCID A v j = lookupCID B v j) : lookupCID (c :: A) v j = lookupCID (c :: B) v j := by
  unfold lookupCID at h ⊢
  rw [List.find?_cons, List.find?_cons]
  split
  · rfl
  · exact h

theorem wellRanged_merge (cur x : Entry) (hc : cur.wellRanged) (hx : x.wellRanged)
    (hm : cur.canMerge x = true) : (cur.merge x).wellRanged := by
  obtain ⟨_, h2, _⟩ := (canMerge_iff cur x).mp hm
  obtain ⟨hc1, hc2⟩ := hc
  obtain ⟨hx1, hx2⟩ := hx
  refine ⟨?_, hx2⟩
  show cur.from_ ≤ x.to_
  omega

theorem lookupCID_optimizeLoop (cur : Entry) (rest : List Entry) (hc : cur.wellRanged)
    (hr : ∀ e ∈ rest, e.wellRanged) (v j : Nat) :
    lookupCID (optimizeLoop cur rest) v j = lookupCID (cur :: rest) v j := by
  induction rest generalizing cur with
  | nil => rfl
  | cons x xs ih =>
    have hx : x.wellRanged := hr x (by simp)
    have hxs : ∀ e ∈ xs, e.wellRanged := fun e he => hr e (by simp [he])
    rw [optimizeLoop]
    split
    · rename_i hm
      rw [ih _ (wellRanged_merge cur x hc hx hm) hxs]
      exact lookupCID_merge cur x xs hc hx hm v j
    · exact lookupCID_cons_congr cur _ _ v j (ih x hx hxs)

theorem lookupCID_optimize (entries : List Entry) (hr : ∀ e ∈ entries, e.wellRanged)
    (v j : Nat) : lookupCID (optimize entries) v j = lookupCID entries v j := by
  cases entries with
  | nil => rfl
  | cons front rest =>
    exact lookupCID_optimizeLoop front rest (hr front (by simp))
      (fun e he => hr e (by simp [he])) v j

theorem maxKey_optimizeLoop (cur : Entry) (rest : List Entry) :
    (optimizeLoop cur rest).foldl (fun a b => max a b.byteCount) 0 =
      (cur :: rest).foldl (fun a b => max a b.byteCount) 0 := by
  induction rest generalizing cur with
  | nil => rfl
  | cons x xs ih =>
    rw [optimizeLoop]
    split
    · rename_i hm
      obtain ⟨h1, _, _⟩ := (canMerge_iff cur x).mp hm
      rw [ih]
      simp only [List.foldl_cons, Entry.merge, Nat.zero_max]
      rw [h1, max_self]
    · have := ih x
      simp only [List.foldl_cons, Nat.zero_max] at this ⊢
      rw [foldl_max_init _ cur.byteCount, this, foldl_max_init xs x.byteCount,
        foldl_max_init xs (max cur.byteCount x.byteCount), max_assoc]

theorem maxKey_optimize (entries : List Entry) (vertical : Bool) :
    (PDFFontCMap.create (optimize entries) vertical).m_maxKeyLength =
      (PDFFontCMap.create entries vertical).m_maxKeyLength := by
  cases entries with
  | nil => rfl
  | cons front rest => exact maxKey_optimizeLoop front rest

/-- C6. PDFFontCMap::optimize preserves decoding. For every list `E` of entries sorted by
(from, to, byteCount, identifier) in which every entry has `from ≤ to` and `to` below the
largest unsigned value, the maps built from `optimize E` and from `E` have the same maximal
byteCount, and for every byte string `s`, `interpret` over the first gives exactly what
`interpret` over the second gives. (The proof does not use that `E` is sorted.) -/
theorem optimize_preserves_interpret (E : List Entry) (vertical : Bool) (s : List Nat)
    (_hsorted : E.Sorted Entry.le) (hranges : ∀ e ∈ E, e.from_ ≤ e.to_ ∧ e.to_ < 4294967295) :
    (PDFFontCMap.create (optimize E) vertical).m_maxKeyLength =
      (PDFFontCMap.create E vertical).m_maxKeyLength ∧
    (PDFFontCMap.create (optimize E) vertical).interpret s =
      (PDFFontCMap.create E vertical).interpret s := by
  have hmax := maxKey_optimize E vertical
  refine ⟨hmax, ?_⟩
  unfold PDFFontCMap.interpret
  rw [hmax]
  cases reserveSize s.length (PDFFontCMap.create E vertical).m_maxKeyLength with
  | none => rfl
  | some _ =>
    show some (interpretLoop (optimize E) _ 0 0 s) = some (interpretLoop E _ 0 0 s)
    rw [interpretLoop_congr (optimize E) E _ (lookupCID_optimize E hranges) s 0 0]

/-- C6 on a concrete map: the sorted entries `{0,16,1,0}`, `{17,20,1,17}` merge into
`{0,20,1,0}` and the bytes `3, 18, 200` decode alike before and after. -/
theorem optimize_preserves_interpret_witness :
    optimize [⟨0, 16, 1, 0⟩, ⟨17, 20, 1, 17⟩] = [⟨0, 20, 1, 0⟩] ∧
    (PDFFontCMap.create (optimize [⟨0, 16, 1, 0⟩, ⟨17, 20, 1, 17⟩]) false).interpret
        [3, 18, 200] =
      (PDFFontCMap.create [⟨0, 16, 1, 0⟩, ⟨17, 20, 1, 17⟩] false).interpret [3, 18, 200] :=
  ⟨by decide,
    (optimize_preserves_interpret [⟨0, 16, 1, 0⟩, ⟨17, 20, 1, 17⟩] false [3, 18, 200]
      (by decide) (by decide)).2⟩

/-! ## C7: disjointness of ranges after optimize -/

theorem disjointFrom_symm {a b : Entry} (h : a.disjointFrom b) : b.disjointFrom a := by
  intro hb v hv
  exact h hb.symm v ⟨hv.2.2.1, hv.2.2.2, hv.1, hv.2.1⟩

theorem disjointFrom_merge (y a b : Entry) (ha : y.disjointFrom a) (hb : y.disjointFrom b)
    (hm : a.canMerge b = true) : y.disjointFrom (a.merge b) := by
  obtain ⟨h1, h2, _⟩ := (canMerge_iff a b).mp hm
  intro hbc v hv
  simp only [Entry.merge] at hbc hv
  by_cases hva : v ≤ a.to_
  · exact ha hbc v ⟨hv.1, hv.2.1, hv.2.2.1, hva⟩
  · have : b.from_ ≤ v := by
      have := Nat.mod_le (a.to_ + 1) 4294967296
      omega
    exact hb (hbc.trans h1) v ⟨hv.1, hv.2.1, this, hv.2.2.2⟩

theorem optimizeLoop_forall (Q : Entry → Prop)
    (hQ : ∀ a b, Q a → Q b → a.canMerge b = true → Q (a.merge b))
    (cur : Entry) (rest : List Entry) (hc : Q cur) (hr : ∀ e ∈ rest, Q e) :
    ∀ z ∈ optimizeLoop cur rest, Q z := by
  induction rest generalizing cur with
  | nil =>
    intro z hz
    simp only [optimizeLoop, List.mem_singleton] at hz
    exact hz ▸ hc
  | cons x xs ih =>
    have hx : Q x := hr x (by simp)
    have hxs : ∀ e ∈ xs, Q e := fun e he => hr e (by simp [he])
    rw [optimizeLoop]
    split
    · rename_i hm
      exact ih _ (hQ cur x hc hx hm) hxs
    · intro z hz
      rcases List.mem_cons.mp hz with h | h
      · exact h ▸ hc
      · exact ih x hx hxs z h

theorem pairwise_optimizeLoop (cur : Entry) (rest : List Entry)
    (h : (cur :: rest).Pairwise Entry.disjointFrom) :
    (optimizeLoop cur rest).Pairwise Entry.disjointFrom := by
  induction rest generalizing cur with
  | nil => simp [optimizeLoop]
  | cons x xs ih =>
    obtain ⟨hcur, hrest⟩ := List.pairwise_cons.mp h
    obtain ⟨hx, hxs⟩ := List.pairwise_cons.mp hrest
    rw [optimizeLoop]
    split
    · rename_i hm
      apply ih
      refine List.pairwise_cons.mpr ⟨?_, hxs⟩
      intro y hy
      exact disjointFrom_symm (disjointFrom_merge y cur x
        (disjointFrom_symm (hcur y (by simp [hy]))) (disjointFrom_symm (hx y hy)) hm)
    · refine List.pairwise_cons.mpr ⟨?_, ih x hrest⟩
      exact optimizeLoop_forall (fun z => cur.disjointFrom z)
        (fun a b ha hb hm => disjointFrom_merge cur a b ha hb hm) x xs
        (hcur x (by simp)) (fun e he => hcur e (by simp [he]))

/-- C7 as stated fails: the parsed entries `{5,32,1,100}` and `{0,16,1,0}` are sorted and
left as they are by `optimize` (they are not mergeable), so the result holds two distinct
entries of byteCount 1 whose ranges both contain the code 10. -/
theorem optimize_leaves_overlap_counterexample :
    optimize (sortEntries [⟨5, 32, 1, 100⟩, ⟨0, 16, 1, 0⟩]) =
      [⟨0, 16, 1, 0⟩, ⟨5, 32, 1, 100⟩] ∧
    ¬ (∀ a ∈ optimize (sortEntries [⟨5, 32, 1, 100⟩, ⟨0, 16, 1, 0⟩]),
        ∀ b ∈ optimize (sortEntries [⟨5, 32, 1, 100⟩, ⟨0, 16, 1, 0⟩]),
          a ≠ b → a.byteCount = b.byteCount →
            ∀ v, ¬ (a.from_ ≤ v ∧ v ≤ a.to_ ∧ b.from_ ≤ v ∧ v ≤ b.to_)) := by
  have hopt : optimize (sortEntries [⟨5, 32, 1, 100⟩, ⟨0, 16, 1, 0⟩]) =
      [⟨0, 16, 1, 0⟩, ⟨5, 32, 1, 100⟩] := by decide
  refine ⟨hopt, ?_⟩
  rw [hopt]
  intro h
  exact h ⟨0, 16, 1, 0⟩ (by simp) ⟨5, 32, 1, 100⟩ (by simp) (by decide) rfl 10 (by decide)

/-- C7, amended. If any two entries at different positions of the parsed list that share a
byteCount have disjoint `[from, to]` ranges, then after sorting and PDFFontCMap::optimize any
two entries at different positions of the result that share a byteCount have disjoint
ranges, so no code value of that byteCount lies in more than one entry. -/
theorem optimize_keeps_ranges_disjoint (entries : List Entry)
    (h : entries.Pairwise Entry.disjointFrom) :
    (optimize (sortEntries entries)).Pairwise Entry.disjointFrom := by
  have hperm : (sortEntries entries).Perm entries := List.perm_insertionSort _ _
  have hs : (sortEntries entries).Pairwise Entry.disjointFrom :=
    (hperm.pairwise_iff (fun h => disjointFrom_symm h)).mpr h
  cases hsort : sortEntries entries with
  | nil => simp [optimize]
  | cons front rest =>
    rw [hsort] at hs
    exact pairwise_optimizeLoop front rest hs

/-- C7, amended, on a concrete list: the disjoint entries `{17,20,1,17}`, `{40,50,1,0}` and
`{0,16,1,0}` are sorted and optimized into `{0,20,1,0}`, `{40,50,1,0}`, still disjoint. -/
theorem optimize_keeps_ranges_disjoint_witness :
    optimize (sortEntries [⟨17, 20, 1, 17⟩, ⟨40, 50, 1, 0⟩, ⟨0, 16, 1, 0⟩]) =
      [⟨0, 20, 1, 0⟩, ⟨40, 50, 1, 0⟩] ∧
    (optimize (sortEntries [⟨17, 20, 1, 17⟩, ⟨40, 50, 1, 0⟩, ⟨0, 16, 1, 0⟩])).Pairwise
      Entry.disjointFrom :=
  ⟨by decide,
    optimize_keeps_ranges_disjoint [⟨17, 20, 1, 17⟩, ⟨40, 50, 1, 0⟩, ⟨0, 16, 1, 0⟩]
      (by
        simp only [List.pairwise_cons, List.mem_cons, List.mem_singleton, Entry.disjointFrom,
          List.not_mem_nil, forall_eq_or_imp, forall_eq, List.Pairwise.nil, and_true,
          IsEmpty.forall_iff, implies_true]
        refine ⟨⟨?_, ?_⟩, ?_⟩ <;> intro _ v hv <;> omega)⟩

/-! ## C8: serialize / deserialize round trip -/

theorem getU32_putU32 (n : Nat) (rest : List Nat) (h : n < 4294967296) :
    getU32 (putU32 n ++ rest) = (n, rest) := by
  simp only [putU32, getU32, List.cons_append, List.nil_append, Prod.mk.injEq, and_true]
  omega

theorem getU64_putU64 (n : Nat) (rest : List Nat) (h : n < 18446744073709551616) :
    getU64 (putU64 n ++ rest) = (n, rest) := by
  unfold getU64 putU64
  rw [List.append_assoc, getU32_putU32 _ _ (Nat.mod_lt _ (by decide))]
  simp only []
  rw [getU32_putU32 _ _ (Nat.mod_lt _ (by decide))]
  simp only [Prod.mk.injEq, and_true]
  omega

theorem getBool_putBool (b : Bool) (rest : List Nat) :
    getBool (putBool b ++ rest) = (b, rest) := by
  cases b <;> simp [putBool, getBool]

theorem readEntries_putEntries (entries : List Entry) (rest : List Nat)
    (h : ∀ e ∈ entries, e.fits) :
    readEntries entries.length (entries.flatMap putEntry ++ rest) = entries := by
  induction entries with
  | nil => rfl
  | cons x xs ih =>
    obtain ⟨h1, h2, h3, h4⟩ := h x (by simp)
    have hxs : ∀ e ∈ xs, e.fits := fun e he => h e (by simp [he])
    simp only [List.flatMap_cons, List.length_cons, readEntries, putEntry, List.append_assoc]
    rw [getU32_putU32 _ _ h1]
    simp only []
    rw [getU32_putU32 _ _ h2]
    simp only []
    rw [getU32_putU32 _ _ h3]
    simp only []
    rw [getU32_putU32 _ _ h4]
    simp only []
    rw [ih hxs]

theorem deserialize_serialize_eq (qCompress qUncompress : List Nat → List Nat)
    (hinv : ∀ data, qUncompress (qCompress data) = data) (m : PDFFontCMap) (hm : m.fits) :
    PDFFontCMap.deserialize qUncompress (m.serialize qCompress) = m := by
  obtain ⟨h1, h2, h3⟩ := hm
  unfold PDFFontCMap.deserialize PDFFontCMap.serialize
  rw [hinv]
  simp only [List.append_assoc]
  rw [getU32_putU32 _ _ h1]
  simp only []
  rw [getBool_putBool]
  simp only []
  rw [getU64_putU64 _ _ h2]
  simp only []
  have := readEntries_putEntries m.m_entries [] h3
  rw [List.append_nil] at this
  rw [this]

/-- C8. Serialize/deserialize round trip. Given that decompression inverts compression, for
every code map `m` (its members within the ranges of their C++ types),
`deserialize (serialize m)` has the same entry list as `m` (same length, same order, same
four fields in every entry), the same vertical flag and the same cached maximal byteCount. -/
theorem serialize_deserialize_roundtrip (qCompress qUncompress : List Nat → List Nat)
    (hinv : ∀ data, qUncompress (qCompress data) = data) (m : PDFFontCMap) (hm : m.fits) :
    (PDFFontCMap.deserialize qUncompress (m.serialize qCompress)).m_entries = m.m_entries ∧
    (PDFFontCMap.deserialize qUncompress (m.serialize qCompress)).m_vertical = m.m_vertical ∧
    (PDFFontCMap.deserialize qUncompress (m.serialize qCompress)).m_maxKeyLength =
      m.m_maxKeyLength := by
  rw [deserialize_serialize_eq qCompress qUncompress hinv m hm]
  exact ⟨rfl, rfl, rfl⟩

/-- C8 on a concrete map, with a compression that stores the data unchanged: a vertical map
with the entries `{0x20,0x7e,2,0x20}` and `{0x8140,0x817e,2,633}` is read back as it was. -/
theorem serialize_deserialize_roundtrip_witness :
    (PDFFontCMap.deserialize id ((PDFFontCMap.create
        [⟨0x20, 0x7e, 2, 0x20⟩, ⟨0x8140, 0x817e, 2, 633⟩] true).serialize id)).m_entries =
      [⟨0x20, 0x7e, 2, 0x20⟩, ⟨0x8140, 0x817e, 2, 633⟩] ∧
    (PDFFontCMap.deserialize id ((PDFFontCMap.create
        [⟨0x20, 0x7e, 2, 0x20⟩, ⟨0x8140, 0x817e, 2, 633⟩] true).serialize id)).m_vertical =
      true ∧
    (PDFFontCMap.deserialize id ((PDFFontCMap.create
        [⟨0x20, 0x7e, 2, 0x20⟩, ⟨0x8140, 0x817e, 2, 633⟩] true).serialize id)).m_maxKeyLength =
      2 :=
  serialize_deserialize_roundtrip id id (fun _ => rfl)
    (PDFFontCMap.create [⟨0x20, 0x7e, 2, 0x20⟩, ⟨0x8140, 0x817e, 2, 633⟩] true)
    ⟨by decide, by decide, by
      intro e he
      simp only [PDFFontCMap.create, List.mem_cons, List.mem_singleton, List.not_mem_nil,
        or_false] at he
      rcases he with he | he <;> subst he <;> simp [Entry.fits]⟩

/-! ## C9: getToUnicode -/

theorem find_range_none (entries : List Entry) (c : Nat)
    (h : ∀ e ∈ entries, ¬ (e.from_ ≤ c ∧ c ≤ e.to_)) :
    entries.find? (fun entry => decide (entry.from_ ≤ c) && decide (entry.to_ ≥ c)) = none := by
  rw [List.find?_eq_none]
  intro x hx hs
  simp only [ge_iff_le, Bool.and_eq_true, decide_eq_true_eq] at hs
  exact h x hx hs

theorem find_range_first (front back : List Entry) (e : Entry) (c : Nat)
    (hfront : ∀ x ∈ front, ¬ (x.from_ ≤ c ∧ c ≤ x.to_)) (he : e.from_ ≤ c ∧ c ≤ e.to_) :
    (front ++ e :: back).find? (fun entry => decide (entry.from_ ≤ c) && decide (entry.to_ ≥ c)) =
      some e := by
  rw [List.find?_append, find_range_none front c hfront]
  simp [List.find?_cons, he.1, he.2]

/-- C9. PDFFontCMap::getToUnicode (reverse lookup). For every code map and identifier `c`:
if the map has no entries, or no entry satisfies `from ≤ c ≤ to`, the result is the null
character; otherwise, with `e` the first entry in list order whose range contains `c`
(the entries are `front ++ e :: back` and nothing in `front` contains `c`), whatever the
byteCount of `e`, the result is the character with code `c − e.from + e.identifier`
truncated to 16 bits. -/
theorem getToUnicode_first_containing_entry (m : PDFFontCMap) (c : Nat) :
    ((m.m_entries = [] ∨ ∀ e ∈ m.m_entries, ¬ (e.from_ ≤ c ∧ c ≤ e.to_)) →
      m.getToUnicode c = 0) ∧
    (∀ front e back, m.m_entries = front ++ e :: back →
      (∀ x ∈ front, ¬ (x.from_ ≤ c ∧ c ≤ x.to_)) → (e.from_ ≤ c ∧ c ≤ e.to_) →
      m.getToUnicode c = (c - e.from_ + e.cid) % 65536) := by
  constructor
  · intro h
    unfold PDFFontCMap.getToUnicode
    rcases h with h | h
    · simp [PDFFontCMap.isValid, h]
    · rw [find_range_none m.m_entries c h]
      simp
  · intro front e back hsplit hfront he
    unfold PDFFontCMap.getToUnicode
    rw [hsplit, find_range_first front back e c hfront he]
    have hvalid : PDFFontCMap.isValid m = true := by
      simp [PDFFontCMap.isValid, hsplit]
    rw [if_pos hvalid]
    show (c - e.from_ + e.cid) % 4294967296 % 65536 = (c - e.from_ + e.cid) % 65536
    omega

/-- C9 on a concrete map: the second entry is the first that contains `0x8141`, which maps
to the character `0x8141 − 0x8140 + 0x3000`; `0x7f` lies in no entry and maps to null. -/
theorem getToUnicode_first_containing_entry_witness :
    (PDFFontCMap.create [⟨0x20, 0x7e, 1, 0x20⟩, ⟨0x8140, 0x817e, 2, 0x3000⟩] false).getToUnicode
        0x8141 = 0x3001 ∧
    (PDFFontCMap.create [⟨0x20, 0x7e, 1, 0x20⟩, ⟨0x8140, 0x817e, 2, 0x3000⟩] false).getToUnicode
        0x7f = 0 :=
  ⟨(getToUnicode_first_containing_entry
      (PDFFontCMap.create [⟨0x20, 0x7e, 1, 0x20⟩, ⟨0x8140, 0x817e, 2, 0x3000⟩] false) 0x8141).2
      [⟨0x20, 0x7e, 1, 0x20⟩] ⟨0x8140, 0x817e, 2, 0x3000⟩ [] rfl (by decide) (by decide),
   (getToUnicode_first_containing_entry
      (PDFFontCMap.create [⟨0x20, 0x7e, 1, 0x20⟩, ⟨0x8140, 0x817e, 2, 0x3000⟩] false) 0x7f).1
      (Or.inr (by decide))⟩

/-! ## C10: the identifier of bfchar / bfrange entries -/

/-- C10 (the code departs from the claim). The claim says a two-byte mapped operand with
bytes `h`, `l` gives the identifier `256 * h + l`. In the code `fetchUnicode` computes that
value into a local and then returns `0` on every path, so every token gives the identifier
`0`: the bfchar block `<0041> <0042>` yields the entry `{from 0x41, to 0x41, byteCount 2,
identifier 0}` instead of identifier `0x42`, and the bfrange triple
`<0041> <0043> <0042>` yields `{0x41, 0x43, 2, 0}`. -/
theorem bf_identifier_is_always_zero :
    (∀ token, fetchUnicode token = 0) ∧
    createFromData noCMaps [Token.command "beginbfchar", Token.string [0x00, 0x41],
        Token.string [0x00, 0x42], Token.command "endbfchar"] =
      Except.ok (PDFFontCMap.create [⟨0x41, 0x41, 2, 0⟩] false) ∧
    createFromData noCMaps [Token.command "beginbfrange", Token.string [0x00, 0x41],
        Token.string [0x00, 0x43], Token.string [0x00, 0x42], Token.command "endbfrange"] =
      Except.ok (PDFFontCMap.create [⟨0x41, 0x43, 2, 0⟩] false) := by
  refine ⟨?_, rfl, rfl⟩
  intro token
  unfold fetchUnicode
  split
  · split <;> rfl
  · rfl

/-! ## Unfolding of the parser loop -/

theorem parseLoop_main_nil (cfn : String → Except ParseError PDFFontCMap) (st : ParseState) :
    parseLoop cfn none [] st = Except.ok st := rfl

theorem parseLoop_main_cons (cfn : String → Except ParseError PDFFontCMap) (token : Token)
    (rest : List Token) (st : ParseState) :
    parseLoop cfn none (token :: rest) st =
      if token = Token.name "WMode" then
        match rest with
        | [] => pure { st with vertical := false }
        | valueToken :: rest1 =>
          parseLoop cfn none rest1 { st with vertical := decide (valueToken = Token.integer 1) }
      else if token = Token.command "usecmap" then
        match st.previousToken with
        | Token.name name => do
          let map ← cfn name
          parseLoop cfn none rest
            { st with additionalMappings := st.additionalMappings ++ [map],
                      previousToken := token }
        | _ => throw ParseError.cantUseCMap
      else if token = Token.command "beginbfrange" then
        match rest with
        | [] => do
          let entry ← rangeEntry pureUnicode Token.endOfFile Token.endOfFile Token.endOfFile
          pure { st with entries := st.entries ++ [entry], previousToken := token }
        | token1 :: rest1 =>
          if token1 = Token.command "endbfrange" then pure st
          else
            match rest1 with
            | token2 :: token3 :: rest3 => do
              let entry ← rangeEntry pureUnicode token1 token2 token3
              parseLoop cfn none rest3
                { st with entries := st.entries ++ [entry], previousToken := token }
            | _ => do
              let entry ← rangeEntry pureUnicode token1 (fetch rest1).1 Token.endOfFile
              pure { st with entries := st.entries ++ [entry], previousToken := token }
      else if token = Token.command "begincidrange" then
        parseLoop cfn (some Block.cidrange) rest st
      else if token = Token.command "begincidchar" then
        parseLoop cfn (some Block.cidchar) rest st
      else if token = Token.command "beginbfchar" then
        parseLoop cfn (some Block.bfchar) rest st
      else parseLoop cfn none rest { st with previousToken := token } := by
  rcases rest with _ | ⟨a, _ | ⟨b, _ | ⟨c, r⟩⟩⟩ <;> rfl

theorem parseLoop_cidrange_cons (cfn : String → Except ParseError PDFFontCMap) (token1 : Token)
    (rest1 : List Token) (st : ParseState) :
    parseLoop cfn (some Block.cidrange) (token1 :: rest1) st =
      (if token1 = Token.command "endcidrange" then
        parseLoop cfn none rest1 { st with previousToken := Block.cidrange.opener }
      else
        match rest1 with
        | token2 :: token3 :: rest3 => do
          let entry ← rangeEntry fetchCID token1 token2 token3
          parseLoop cfn (some Block.cidrange) rest3
            { st with entries := st.entries ++ [entry] }
        | _ => do
          let _ ← rangeEntry fetchCID token1 (fetch rest1).1 Token.endOfFile
          throw ParseError.cantFetchCID) := by
  rcases rest1 with _ | ⟨a, _ | ⟨b, _ | ⟨c, r⟩⟩⟩ <;> rfl

theorem parseLoop_cidchar_cons (cfn : String → Except ParseError PDFFontCMap) (token1 : Token)
    (rest1 : List Token) (st : ParseState) :
    parseLoop cfn (some Block.cidchar) (token1 :: rest1) st =
      (if token1 = Token.command "endcidchar" then
        parseLoop cfn none rest1 { st with previousToken := Block.cidchar.opener }
      else
        match rest1 with
        | token2 :: rest2 => do
          let entry ← charEntry fetchCID token1 token2
          parseLoop cfn (some Block.cidchar) rest2
            { st with entries := st.entries ++ [entry] }
        | [] => do
          let _ ← charEntry fetchCID token1 Token.endOfFile
          throw ParseError.cantFetchCID) := by
  rcases rest1 with _ | ⟨a, _ | ⟨b, _ | ⟨c, r⟩⟩⟩ <;> rfl

theorem parseLoop_bfchar_cons (cfn : String → Except ParseError PDFFontCMap) (token1 : Token)
    (rest1 : List Token) (st : ParseState) :
    parseLoop cfn (some Block.bfchar) (token1 :: rest1) st =
      (if token1 = Token.command "endbfchar" then
        parseLoop cfn none rest1 { st with previousToken := Block.bfchar.opener }
      else
        match rest1 with
        | token2 :: rest2 => do
          let entry ← charEntry pureUnicode token1 token2
          parseLoop cfn (some Block.bfchar) rest2
            { st with entries := st.entries ++ [entry] }
        | [] => do
          let _ ← charEntry pureUnicode token1 Token.endOfFile
          throw ParseError.cantFetchCode) := by
  rcases rest1 with _ | ⟨a, _ | ⟨b, _ | ⟨c, r⟩⟩⟩ <;> rfl

/-! ## C11: faults in code and CID operands -/

theorem createFromData_eq (cfn : String → Except ParseError PDFFontCMap) (tokens : List Token) :
    createFromData cfn tokens =
      (parseLoop cfn none tokens ParseState.initial).map ParseState.toCMap := by
  unfold createFromData
  show (parseLoop cfn none tokens ParseState.initial >>= _) = _
  cases parseLoop cfn none tokens ParseState.initial <;> rfl

theorem outcomeGrafts_bind {α : Type} (E : List Entry) (A : List PDFFontCMap) (x : Except ParseError α)
    (f f' : α → Except ParseError ParseState) (h : ∀ a, outcomeGrafts E A (f a) (f' a)) :
    outcomeGrafts E A (x >>= f) (x >>= f') := by
  cases x with
  | error e => show e = e; rfl
  | ok a => exact h a

theorem outcomeGrafts_bind_throw {α : Type} (E : List Entry) (A : List PDFFontCMap) (x : Except ParseError α)
    (e : ParseError) :
    outcomeGrafts E A (x >>= fun _ => (throw e : Except ParseError ParseState))
      (x >>= fun _ => (throw e : Except ParseError ParseState)) := by
  cases x with
  | error e0 => show e0 = e0; rfl
  | ok a => show e = e; rfl

theorem parseLoop_grafts (cfn : String → Except ParseError PDFFontCMap) (E : List Entry)
    (A : List PDFFontCMap) (n : Nat) : ∀ (tokens : List Token), tokens.length ≤ n → ∀ (mode : Option Block)
    (s s' : ParseState), s.grafts E A s' →
    outcomeGrafts E A (parseLoop cfn mode tokens s) (parseLoop cfn mode tokens s') := by
  induction n with
  | zero =>
    intro tokens hlen mode s s' hr
    have : tokens = [] := List.length_eq_zero.mp (Nat.le_zero.mp hlen)
    subst this
    cases mode with
    | none => exact hr
    | some b => cases b <;> exact rfl
  | succ n ih =>
    intro tokens hlen mode s s' hr
    obtain ⟨hE, hA, hV, hP⟩ := hr
    cases tokens with
    | nil =>
      cases mode with
      | none => exact ⟨hE, hA, hV, hP⟩
      | some b => cases b <;> exact rfl
    | cons token rest =>
      have hrest : rest.length ≤ n := by simpa using hlen
      cases mode with
      | none =>
        rw [parseLoop_main_cons, parseLoop_main_cons]
        split
        · -- WMode
          cases rest with
          | nil => exact ⟨hE, hA, rfl, hP⟩
          | cons valueToken rest1 =>
            exact ih rest1 (by simp at hrest; omega) none _ _ ⟨hE, hA, rfl, hP⟩
        · split
          · -- usecmap
            rcases hP with hP | ⟨hP1, hP2⟩
            · rw [hP]
              cases hprev : s.previousToken with
              | name nm =>
                exact outcomeGrafts_bind E A _ _ _
                  (fun map => ih rest hrest none _ _ ⟨hE, by simp [hA], hV, Or.inl rfl⟩)
              | integer _ => rfl
              | string _ => rfl
              | command _ => rfl
              | other => rfl
              | endOfFile => rfl
            · cases hprev : s.previousToken with
              | name nm => rw [hprev] at hP2; simp [Token.isName] at hP2
              | integer _ =>
                cases hprev' : s'.previousToken with
                | name nm => rw [hprev'] at hP1; simp [Token.isName] at hP1
                | _ => rfl
              | string _ =>
                cases hprev' : s'.previousToken with
                | name nm => rw [hprev'] at hP1; simp [Token.isName] at hP1
                | _ => rfl
              | command _ =>
                cases hprev' : s'.previousToken with
                | name nm => rw [hprev'] at hP1; simp [Token.isName] at hP1
                | _ => rfl
              | other =>
                cases hprev' : s'.previousToken with
                | name nm => rw [hprev'] at hP1; simp [Token.isName] at hP1
                | _ => rfl
              | endOfFile =>
                cases hprev' : s'.previousToken with
                | name nm => rw [hprev'] at hP1; simp [Token.isName] at hP1
                | _ => rfl
          · split
            · -- beginbfrange
              rcases rest with _ | ⟨t1, _ | ⟨t2, _ | ⟨t3, r3⟩⟩⟩
              · exact outcomeGrafts_bind E A _ _ _
                  (fun entry => ⟨by simp [hE], hA, hV, Or.inl rfl⟩)
              · simp only []
                split
                · exact ⟨hE, hA, hV, hP⟩
                · exact outcomeGrafts_bind E A _ _ _
                    (fun entry => ⟨by simp [hE], hA, hV, Or.inl rfl⟩)
              · simp only []
                split
                · exact ⟨hE, hA, hV, hP⟩
                · exact outcomeGrafts_bind E A _ _ _
                    (fun entry => ⟨by simp [hE], hA, hV, Or.inl rfl⟩)
              · simp only []
                split
                · exact ⟨hE, hA, hV, hP⟩
                · exact outcomeGrafts_bind E A _ _ _
                    (fun entry => ih r3 (by simp at hrest; omega) none _ _
                      ⟨by simp [hE], hA, hV, Or.inl rfl⟩)
            · split
              · exact ih rest hrest _ _ _ ⟨hE, hA, hV, hP⟩
              · split
                · exact ih rest hrest _ _ _ ⟨hE, hA, hV, hP⟩
                · split
                  · exact ih rest hrest _ _ _ ⟨hE, hA, hV, hP⟩
                  · exact ih rest hrest none _ _ ⟨hE, hA, hV, Or.inl rfl⟩
      | some b =>
        cases b with
        | cidrange =>
          rw [parseLoop_cidrange_cons, parseLoop_cidrange_cons]
          split
          · exact ih rest hrest none _ _ ⟨hE, hA, hV, Or.inl rfl⟩
          · rcases rest with _ | ⟨t2, _ | ⟨t3, r3⟩⟩
            · exact outcomeGrafts_bind_throw E A _ _
            · exact outcomeGrafts_bind_throw E A _ _
            · exact outcomeGrafts_bind E A _ _ _
                (fun entry => ih r3 (by simp at hrest; omega) _ _ _
                  ⟨by simp [hE], hA, hV, hP⟩)
        | cidchar =>
          rw [parseLoop_cidchar_cons, parseLoop_cidchar_cons]
          split
          · exact ih rest hrest none _ _ ⟨hE, hA, hV, Or.inl rfl⟩
          · rcases rest with _ | ⟨t2, r2⟩
            · exact outcomeGrafts_bind_throw E A _ _
            · exact outcomeGrafts_bind E A _ _ _
                (fun entry => ih r2 (by simp at hrest; omega) _ _ _
                  ⟨by simp [hE], hA, hV, hP⟩)
        | bfchar =>
          rw [parseLoop_bfchar_cons, parseLoop_bfchar_cons]
          split
          · exact ih rest hrest none _ _ ⟨hE, hA, hV, Or.inl rfl⟩
          · rcases rest with _ | ⟨t2, r2⟩
            · exact outcomeGrafts_bind_throw E A _ _
            · exact outcomeGrafts_bind E A _ _ _
                (fun entry => ih r2 (by simp at hrest; omega) _ _ _
                  ⟨by simp [hE], hA, hV, hP⟩)

/-! ## C12: bf targets of the wrong kind -/

/-- C12 (the code departs from the claim). The claim says a mapped-identifier operand of a
bfchar pair or bfrange triple that is not a string token makes `createFromData` fail. In the
code `fetchUnicode` has no failing path: for a token that is not a string it returns `0`
like for every other token. The bfchar pair `<0041> 66` (an integer as target) yields the
entry `{0x41, 0x41, 2, 0}` and the bfrange triple `<0041> <0043> /X` (a name as target)
yields `{0x41, 0x43, 2, 0}`, both without an exception. -/
theorem bf_target_of_wrong_kind_is_accepted :
    (∀ token, pureUnicode token = Except.ok 0) ∧
    createFromData noCMaps [Token.command "beginbfchar", Token.string [0x00, 0x41],
        Token.integer 66, Token.command "endbfchar"] =
      Except.ok (PDFFontCMap.create [⟨0x41, 0x41, 2, 0⟩] false) ∧
    createFromData noCMaps [Token.command "beginbfrange", Token.string [0x00, 0x41],
        Token.string [0x00, 0x43], Token.name "X", Token.command "endbfrange"] =
      Except.ok (PDFFontCMap.create [⟨0x41, 0x43, 2, 0⟩] false) := by
  refine ⟨?_, rfl, rfl⟩
  intro token
  unfold pureUnicode fetchUnicode
  split
  · split <;> rfl
  · rfl

/-! ## C13: a bfrange block and the tokens after it -/

theorem parseLoop_skip_strings (cfn : String → Except ParseError PDFFontCMap)
    (ds : List (List Nat)) (rest : List Token) (st : ParseState) :
    parseLoop cfn none (ds.map Token.string ++ Token.command "endbfrange" :: rest) st =
      parseLoop cfn none rest { st with previousToken := Token.command "endbfrange" } := by
  induction ds generalizing st with
  | nil =>
    rw [List.map_nil, List.nil_append, parseLoop_main_cons]
    simp
  | cons d ds ih =>
    rw [List.map_cons, List.cons_append, parseLoop_main_cons]
    simp only [reduceCtorEq, if_false]
    rw [ih]

theorem parseLoop_bfrange_triple (cfn : String → Except ParseError PDFFontCMap)
    (t : List Nat × List Nat × List Nat) (rest : List Token) (st : ParseState) :
    parseLoop cfn none (Token.command "beginbfrange" :: (tripleTokens t ++ rest)) st =
      parseLoop cfn none rest
        { st with entries := st.entries ++ [bfrangeEntry t],
                  previousToken := Token.command "beginbfrange" } := by
  rw [parseLoop_main_cons, if_neg (by decide), if_neg (by decide), if_pos rfl]
  simp only [tripleTokens, List.cons_append, List.nil_append, reduceCtorEq, if_false]
  rfl

theorem flatMap_tripleTokens (others : List (List Nat × List Nat × List Nat)) :
    others.flatMap tripleTokens =
      (others.flatMap (fun t => [t.1, t.2.1, t.2.2])).map Token.string := by
  induction others with
  | nil => rfl
  | cons t ts ih =>
    simp only [List.flatMap_cons, List.map_append, ih]
    rfl

theorem parseLoop_bfrangeBlock (cfn : String → Except ParseError PDFFontCMap)
    (first : List Nat × List Nat × List Nat) (others : List (List Nat × List Nat × List Nat))
    (rest : List Token) (st : ParseState) :
    parseLoop cfn none (bfrangeBlock first others ++ rest) st =
      parseLoop cfn none rest
        { st with entries := st.entries ++ [bfrangeEntry first],
                  previousToken := Token.command "endbfrange" } := by
  have hshape : bfrangeBlock first others ++ rest =
      Token.command "beginbfrange" :: (tripleTokens first ++
        ((others.flatMap (fun t => [t.1, t.2.1, t.2.2])).map Token.string ++
          Token.command "endbfrange" :: rest)) := by
    simp [bfrangeBlock, flatMap_tripleTokens, List.append_assoc]
  rw [hshape, parseLoop_bfrange_triple, parseLoop_skip_strings]

theorem map_outcome_of_grafts (E : List Entry) (A : List PDFFontCMap)
    (x y : Except ParseError ParseState) (h : outcomeGrafts E A x y) :
    y.map ParseState.toCMap =
      x.map (fun r => ParseState.toCMap
        { r with entries := E ++ r.entries, additionalMappings := A ++ r.additionalMappings }) := by
  cases x with
  | error e =>
    cases y with
    | error e' =>
      have : e = e' := h
      subst this
      rfl
    | ok r' => exact absurd h (by simp [outcomeGrafts])
  | ok r =>
    cases y with
    | error e' => exact absurd h (by simp [outcomeGrafts])
    | ok r' =>
      obtain ⟨h1, h2, h3, _⟩ := (h : r.grafts E A r')
      show Except.ok _ = Except.ok _
      simp only [ParseState.toCMap, h1, h2, h3]

/-- C13 as stated fails: after the bfrange block `beginbfrange <00> <01> <0041> endbfrange`
the cidchar block `begincidchar <05> 7 endcidchar` is still read; the resulting map holds
its entry `{5, 5, 1, 7}` next to the entry `{0, 1, 1, 0}` of the bfrange triple, and so
differs from the map of the stream cut at the endbfrange marker. -/
theorem bfrange_block_counterexample :
    createFromData noCMaps [Token.command "beginbfrange", Token.string [0x00],
        Token.string [0x01], Token.string [0x00, 0x41], Token.command "endbfrange",
        Token.command "begincidchar", Token.string [0x05], Token.integer 7,
        Token.command "endcidchar"] =
      Except.ok (PDFFontCMap.create [⟨0, 1, 1, 0⟩, ⟨5, 5, 1, 7⟩] false) ∧
    createFromData noCMaps [Token.command "beginbfrange", Token.string [0x00],
        Token.string [0x01], Token.string [0x00, 0x41], Token.command "endbfrange"] =
      Except.ok (PDFFontCMap.create [⟨0, 1, 1, 0⟩] false) ∧
    (⟨5, 5, 1, 7⟩ : Entry) ∈ (PDFFontCMap.create [⟨0, 1, 1, 0⟩, ⟨5, 5, 1, 7⟩] false).m_entries :=
  ⟨rfl, rfl, by decide⟩

/-- C13, amended. For every token stream whose parse meets, in the main loop and in a state
`st`, a bfrange block with one or more triples of string tokens followed by the tokens
`rest` (`hreach`), `createFromData` does not stop at the endbfrange marker: the map it
returns is built from the entries and used maps read before the block, the entry of the
block's first triple, and whatever the parse of `rest` yields - its entries, its used maps
and its writing mode - so the blocks after the marker contribute their entries; an
exception raised in `rest` is raised by the whole. -/
theorem bfrange_block_does_not_end_parsing (cfn : String → Except ParseError PDFFontCMap)
    (tokens : List Token) (first : List Nat × List Nat × List Nat)
    (others : List (List Nat × List Nat × List Nat)) (rest : List Token) (st : ParseState)
    (hreach : parseLoop cfn none tokens ParseState.initial =
      parseLoop cfn none (bfrangeBlock first others ++ rest) st) :
    createFromData cfn tokens =
      (parseLoop cfn none rest { ParseState.initial with vertical := st.vertical }).map
        (fun r => ParseState.toCMap
          { r with entries := (st.entries ++ [bfrangeEntry first]) ++ r.entries,
                   additionalMappings := st.additionalMappings ++ r.additionalMappings }) := by
  rw [createFromData_eq, hreach, parseLoop_bfrangeBlock]
  apply map_outcome_of_grafts
  apply parseLoop_grafts cfn _ _ rest.length rest (le_refl _) none
  exact ⟨by simp [ParseState.initial], by simp [ParseState.initial], rfl,
    Or.inr ⟨rfl, rfl⟩⟩

/-- C13, amended, on a concrete stream: a cidchar block, then a bfrange block of two
triples, then a cidrange block; the map holds the entries of all three blocks (the bfrange
block gives the entry of its first triple). -/
theorem bfrange_block_does_not_end_parsing_witness :
    createFromData noCMaps [Token.command "begincidchar", Token.string [0x09],
        Token.integer 3, Token.command "endcidchar",
        Token.command "beginbfrange", Token.string [0x00], Token.string [0x01],
        Token.string [0x00, 0x41], Token.string [0x02], Token.string [0x03],
        Token.string [0x00, 0x42], Token.command "endbfrange",
        Token.command "begincidrange", Token.string [0x05], Token.string [0x06],
        Token.integer 7, Token.command "endcidrange"] =
      Except.ok (PDFFontCMap.create [⟨0, 1, 1, 0⟩, ⟨5, 6, 1, 7⟩, ⟨9, 9, 1, 3⟩] false) := by
  have h := bfrange_block_does_not_end_parsing noCMaps
    [Token.command "begincidchar", Token.string [0x09],
        Token.integer 3, Token.command "endcidchar",
        Token.command "beginbfrange", Token.string [0x00], Token.string [0x01],
        Token.string [0x00, 0x41], Token.string [0x02], Token.string [0x03],
        Token.string [0x00, 0x42], Token.command "endbfrange",
        Token.command "begincidrange", Token.string [0x05], Token.string [0x06],
        Token.integer 7, Token.command "endcidrange"]
    ([0x00], [0x01], [0x00, 0x41]) [([0x02], [0x03], [0x00, 0x42])]
    [Token.command "begincidrange", Token.string [0x05], Token.string [0x06],
        Token.integer 7, Token.command "endcidrange"]
    { entries := [⟨9, 9, 1, 3⟩], additionalMappings := [], vertical := false,
      previousToken := Token.command "begincidchar" } rfl
  rw [h]
  rfl

/-! ## C14: used maps come after the local entries -/

theorem appendMappings_eq (entries : List Entry) (maps : List PDFFontCMap) :
    appendMappings entries maps = entries ++ maps.flatMap (fun m => m.m_entries) := by
  unfold appendMappings
  induction maps generalizing entries with
  | nil => simp
  | cons m ms ih =>
    simp only [List.foldl_cons, List.flatMap_cons]
    rw [ih, List.append_assoc]

theorem find_append_of_covered (local_ used : List Entry) (v j : Nat)
    (h : ∃ e ∈ local_, e.covers v j) :
    ∃ e ∈ local_, e.covers v j ∧ (local_ ++ used).find? (Entry.suits v j) = some e := by
  cases hfind : local_.find? (Entry.suits v j) with
  | none =>
    obtain ⟨e, he, hc⟩ := h
    have := List.find?_eq_none.mp hfind e he
    exact absurd ((suits_iff e v j).mpr hc) this
  | some e =>
    refine ⟨e, List.mem_of_find?_eq_some hfind, (suits_iff e v j).mp (List.find?_some hfind), ?_⟩
    rw [List.find?_append, hfind]
    rfl

theorem parseLoop_usecmap (cfn : String → Except ParseError PDFFontCMap) (name : String)
    (used : PDFFontCMap) (rest : List Token) (s : ParseState)
    (hprev : s.previousToken = Token.name name) (hload : cfn name = Except.ok used) :
    parseLoop cfn none (Token.command "usecmap" :: rest) s =
      parseLoop cfn none rest
        { s with additionalMappings := s.additionalMappings ++ [used],
                 previousToken := Token.command "usecmap" } := by
  rw [parseLoop_main_cons, if_neg (by decide), if_pos rfl]
  simp only [hprev, hload]
  rfl

/-- C14. usecmap priority. Each `usecmap` met by the main loop after a name token appends the
map loaded for that name to the end of the list of used maps (so the list is in order of
appearance). When the parse ends with the local entries `L = st.entries` and the used maps
`U1, ..., Un = st.additionalMappings`, the entry list of the map built by
PDFFontCMap::createFromData is `optimize (sort L)` followed by the entries of `U1`, ...,
`Un`, unchanged and in order. Hence whenever `interpret` has accumulated a value and a byte
count covered by an entry of the local part, the identifier it emits is the one derived from
a local entry covering them, whatever the used maps contain; and when every entry of `L`
has `from ≤ to` and `to` below the largest unsigned value, the same holds for a value and
byte count covered by an entry of `L` itself. -/
theorem usecmap_entries_follow_local_entries (cfn : String → Except ParseError PDFFontCMap)
    (tokens : List Token) (st : ParseState)
    (hparse : parseLoop cfn none tokens ParseState.initial = Except.ok st) :
    (∀ name used rest s, s.previousToken = Token.name name → cfn name = Except.ok used →
      parseLoop cfn none (Token.command "usecmap" :: rest) s =
        parseLoop cfn none rest
          { s with additionalMappings := s.additionalMappings ++ [used],
                   previousToken := Token.command "usecmap" }) ∧
    ∃ m, createFromData cfn tokens = Except.ok m ∧
      m.m_entries = optimize (sortEntries st.entries) ++
        st.additionalMappings.flatMap (fun u => u.m_entries) ∧
      (∀ value scanned b bs,
        (∃ e ∈ optimize (sortEntries st.entries),
          e.covers (shiftIn value b) (scanned + 1)) →
        ∃ e ∈ optimize (sortEntries st.entries), e.covers (shiftIn value b) (scanned + 1) ∧
          interpretLoop m.m_entries m.m_maxKeyLength value scanned (b :: bs) =
            ((shiftIn value b - e.from_ + e.cid) % 4294967296) ::
              interpretLoop m.m_entries m.m_maxKeyLength 0 0 bs) ∧
      ((∀ e ∈ st.entries, e.from_ ≤ e.to_ ∧ e.to_ < 4294967295) →
        ∀ value scanned b bs,
          (∃ e ∈ st.entries, e.covers (shiftIn value b) (scanned + 1)) →
          ∃ e ∈ st.entries, e.covers (shiftIn value b) (scanned + 1) ∧
            interpretLoop m.m_entries m.m_maxKeyLength value scanned (b :: bs) =
              ((shiftIn value b - e.from_ + e.cid) % 4294967296) ::
                interpretLoop m.m_entries m.m_maxKeyLength 0 0 bs) := by
  refine ⟨fun name used rest s hprev hload => parseLoop_usecmap cfn name used rest s hprev hload,
    ParseState.toCMap st, ?_, ?_, ?_, ?_⟩
  · rw [createFromData_eq, hparse]
    rfl
  · exact appendMappings_eq _ _
  · intro value scanned b bs hcov
    have hent : (ParseState.toCMap st).m_entries = optimize (sortEntries st.entries) ++
        st.additionalMappings.flatMap (fun u => u.m_entries) := appendMappings_eq _ _
    obtain ⟨e, he, hc, hfind⟩ := find_append_of_covered _
      (st.additionalMappings.flatMap (fun u => u.m_entries)) _ _ hcov
    refine ⟨e, he, hc, ?_⟩
    rw [hent]
    exact interpretLoop_cons_some _ _ _ _ _ _ e hfind
  · intro hranges value scanned b bs hcov
    have hent : (ParseState.toCMap st).m_entries = optimize (sortEntries st.entries) ++
        st.additionalMappings.flatMap (fun u => u.m_entries) := appendMappings_eq _ _
    have hperm : (sortEntries st.entries).Perm st.entries := List.perm_insertionSort _ _
    have hsorted : ∀ e ∈ sortEntries st.entries, e.wellRanged :=
      fun e he => hranges e (hperm.mem_iff.mp he)
    have hcov' : ∃ e ∈ sortEntries st.entries, e.covers (shiftIn value b) (scanned + 1) := by
      obtain ⟨e, he, hc⟩ := hcov
      exact ⟨e, hperm.mem_iff.mpr he, hc⟩
    obtain ⟨e, he, hc, hfind⟩ := find_append_of_covered (sortEntries st.entries) [] _ _ hcov'
    rw [List.append_nil] at hfind
    have hlook := lookupCID_optimize (sortEntries st.entries) hsorted
      (shiftIn value b) (scanned + 1)
    unfold lookupCID at hlook
    rw [hfind] at hlook
    cases hopt : (optimize (sortEntries st.entries)).find?
        (Entry.suits (shiftIn value b) (scanned + 1)) with
    | none => rw [hopt] at hlook; simp at hlook
    | some e' =>
      rw [hopt] at hlook
      simp only [Option.map_some', Option.some.injEq] at hlook
      refine ⟨e, hperm.mem_iff.mp he, hc, ?_⟩
      rw [hent, ← hlook]
      apply interpretLoop_cons_some
      rw [List.find?_append, hopt]
      rfl

/-- C14 on a concrete stream: `/Base usecmap begincidchar <41> 7 endcidchar` with a loader
whose map `Base` holds the entry `{0x41, 0x41, 1, 99}`: the built entry list is the local
entry followed by the used one, and the byte 0x41 is decoded to the local identifier 7. -/
theorem usecmap_entries_follow_local_entries_witness :
    createFromData (fun _ => Except.ok (PDFFontCMap.create [⟨0x41, 0x41, 1, 99⟩] false))
      [Token.name "Base", Token.command "usecmap", Token.command "begincidchar",
       Token.string [0x41], Token.integer 7, Token.command "endcidchar"] =
      Except.ok (PDFFontCMap.create [⟨0x41, 0x41, 1, 7⟩, ⟨0x41, 0x41, 1, 99⟩] false) ∧
    (PDFFontCMap.create [⟨0x41, 0x41, 1, 7⟩, ⟨0x41, 0x41, 1, 99⟩] false).interpret [0x41] =
      some [7] := by
  obtain ⟨_, m, hm, hentries, _, _⟩ := usecmap_entries_follow_local_entries
    (fun _ => Except.ok (PDFFontCMap.create [⟨0x41, 0x41, 1, 99⟩] false))
    [Token.name "Base", Token.command "usecmap", Token.command "begincidchar",
     Token.string [0x41], Token.integer 7, Token.command "endcidchar"]
    { entries := [⟨0x41, 0x41, 1, 7⟩],
      additionalMappings := [PDFFontCMap.create [⟨0x41, 0x41, 1, 99⟩] false],
      vertical := false, previousToken := Token.command "begincidchar" }
    rfl
  exact ⟨rfl, rfl⟩

/-! ## Lemmas on the glyph cache -/

theorem lookup_append_some {K V : Type} [BEq K] (l l' : List (K × V)) (k : K) (v : V)
    (h : l.lookup k = some v) : (l ++ l').lookup k = some v := by
  induction l with
  | nil => simp at h
  | cons x xs ih =>
    obtain ⟨k0, v0⟩ := x
    simp only [List.cons_append, List.lookup_cons] at h ⊢
    cases hk : (k == k0) with
    | true => rw [hk] at h; exact h
    | false => rw [hk] at h; exact ih h

theorem lookup_append_none {K V : Type} [BEq K] (l l' : List (K × V)) (k : K)
    (h : l.lookup k = none) : (l ++ l').lookup k = l'.lookup k := by
  induction l with
  | nil => rfl
  | cons x xs ih =>
    obtain ⟨k0, v0⟩ := x
    simp only [List.cons_append, List.lookup_cons] at h ⊢
    cases hk : (k == k0) with
    | true => rw [hk] at h; simp at h
    | false => rw [hk] at h; exact ih h

theorem getGlyph_hit (rasterize : Nat → Except FreeTypeError Glyph) (s : GlyphCacheState)
    (i : Nat) (g : Glyph) (h : s.m_glyphCache.lookup i = some g) :
    getGlyph rasterize s i = (Except.ok g, s) := by
  unfold getGlyph
  rw [h]

theorem getGlyph_cached (rasterize : Nat → Except FreeTypeError Glyph) (s s1 : GlyphCacheState)
    (i : Nat) (g : Glyph) (hi : i ≠ 0) (h : getGlyph rasterize s i = (Except.ok g, s1)) :
    s1.m_glyphCache.lookup i = some g := by
  unfold getGlyph at h
  cases hl : s.m_glyphCache.lookup i with
  | some g0 =>
    rw [hl] at h
    simp only [Prod.mk.injEq, Except.ok.injEq] at h
    rw [← h.2, ← h.1]
    exact hl
  | none =>
    rw [hl] at h
    simp only [ne_eq, hi, not_false_eq_true, if_true] at h
    cases hr : rasterize i with
    | error e => rw [hr] at h; simp at h
    | ok g1 =>
      rw [hr] at h
      simp only [Prod.mk.injEq, Except.ok.injEq] at h
      rw [← h.2, ← h.1]
      show (s.m_glyphCache ++ [(i, g1)]).lookup i = some g1
      rw [lookup_append_none _ _ _ hl]
      simp [List.lookup_cons]

theorem getGlyph_keeps (rasterize : Nat → Except FreeTypeError Glyph) (s : GlyphCacheState)
    (i j : Nat) (g : Glyph) (h : s.m_glyphCache.lookup i = some g) :
    (getGlyph rasterize s j).2.m_glyphCache.lookup i = some g := by
  unfold getGlyph
  cases hl : s.m_glyphCache.lookup j with
  | some g0 => exact h
  | none =>
    simp only []
    split
    · cases hr : rasterize j with
      | error e => exact h
      | ok g1 => exact lookup_append_some _ _ _ _ h
    · exact h

theorem getGlyphs_keeps (rasterize : Nat → Except FreeTypeError Glyph) (s : GlyphCacheState)
    (i : Nat) (g : Glyph) (later : List Nat) (h : s.m_glyphCache.lookup i = some g) :
    (getGlyphs rasterize s later).m_glyphCache.lookup i = some g := by
  induction later generalizing s with
  | nil => exact h
  | cons j js ih => exact ih _ (getGlyph_keeps rasterize s i j g h)

theorem getGlyph_no_zero_key (rasterize : Nat → Except FreeTypeError Glyph)
    (s : GlyphCacheState) (j : Nat) (h : s.m_glyphCache.lookup 0 = none) :
    (getGlyph rasterize s j).2.m_glyphCache.lookup 0 = none := by
  unfold getGlyph
  cases hl : s.m_glyphCache.lookup j with
  | some g0 => exact h
  | none =>
    simp only []
    split
    · rename_i hj
      cases hr : rasterize j with
      | error e => exact h
      | ok g1 =>
        show (s.m_glyphCache ++ [(j, g1)]).lookup 0 = none
        rw [lookup_append_none _ _ _ h]
        have : (0 == j) = false := by
          simp only [beq_eq_false_iff_ne, ne_eq]
          exact fun h0 => hj h0.symm
        simp [List.lookup_cons, this]
    · exact h

theorem getGlyphs_no_zero_key (rasterize : Nat → Except FreeTypeError Glyph)
    (s : GlyphCacheState) (calls : List Nat) (h : s.m_glyphCache.lookup 0 = none) :
    (getGlyphs rasterize s calls).m_glyphCache.lookup 0 = none := by
  induction calls generalizing s with
  | nil => exact h
  | cons j js ih => exact ih _ (getGlyph_no_zero_key rasterize s j h)

/-! ## C18: glyph cache memoization -/

/-- C18. Glyph cache memoization, on the state (cache, count of rasterizer requests). For
every non-zero glyph index `i`: after a first successful `getGlyph i`, whatever `getGlyph`
calls come in between, every later `getGlyph i` returns the same glyph and leaves the state
as it is - no rasterizer request, the cache unchanged. `getGlyph 0` on a cache without key 0
returns the empty glyph and leaves the state as it is, and no `getGlyph` call puts key 0
into the cache; so from the empty cache, after any sequence of calls, key 0 is absent and
`getGlyph 0` returns the empty glyph without a rasterizer request. -/
theorem glyph_cache_memoizes (rasterize : Nat → Except FreeTypeError Glyph) :
    (∀ s i g s1, i ≠ 0 → getGlyph rasterize s i = (Except.ok g, s1) →
      ∀ later, getGlyph rasterize (getGlyphs rasterize s1 later) i =
        (Except.ok g, getGlyphs rasterize s1 later)) ∧
    (∀ s, s.m_glyphCache.lookup 0 = none →
      getGlyph rasterize s 0 = (Except.ok Glyph.dummy, s)) ∧
    (∀ s j, s.m_glyphCache.lookup 0 = none →
      (getGlyph rasterize s j).2.m_glyphCache.lookup 0 = none) ∧
    (∀ calls,
      (getGlyphs rasterize GlyphCacheState.empty calls).m_glyphCache.lookup 0 = none ∧
      getGlyph rasterize (getGlyphs rasterize GlyphCacheState.empty calls) 0 =
        (Except.ok Glyph.dummy, getGlyphs rasterize GlyphCacheState.empty calls)) := by
  have hzero : ∀ s : GlyphCacheState, s.m_glyphCache.lookup 0 = none →
      getGlyph rasterize s 0 = (Except.ok Glyph.dummy, s) := by
    intro s h
    unfold getGlyph
    rw [h]
    simp
  refine ⟨?_, hzero, fun s j h => getGlyph_no_zero_key rasterize s j h, ?_⟩
  · intro s i g s1 hi hfirst later
    exact getGlyph_hit rasterize _ i g
      (getGlyphs_keeps rasterize s1 i g later (getGlyph_cached rasterize s s1 i g hi hfirst))
  · intro calls
    have h := getGlyphs_no_zero_key rasterize GlyphCacheState.empty calls rfl
    exact ⟨h, hzero _ h⟩

/-- C18 on a concrete rasterizer that delivers glyph `i` with outline `[i]`: after
`getGlyph 7`, then `getGlyph 3`, `getGlyph 0`, `getGlyph 9`, a second `getGlyph 7` returns the
cached glyph and leaves the count of rasterizer requests at 3. -/
theorem glyph_cache_memoizes_witness :
    getGlyph (fun i => Except.ok ⟨[(i : Int)], 0⟩)
        (getGlyphs (fun i => Except.ok ⟨[(i : Int)], 0⟩)
          ⟨[(7, ⟨[7], 0⟩)], 1⟩ [3, 0, 9]) 7 =
      (Except.ok ⟨[7], 0⟩, ⟨[(7, ⟨[7], 0⟩), (3, ⟨[3], 0⟩), (9, ⟨[9], 0⟩)], 3⟩) := by
  have h := (glyph_cache_memoizes (fun i => Except.ok ⟨[(i : Int)], 0⟩)).1
    GlyphCacheState.empty 7 ⟨[7], 0⟩ ⟨[(7, ⟨[7], 0⟩)], 1⟩ (by decide) rfl [3, 0, 9]
  rw [h]
  rfl

/-! ## C15: simple-font shaping of a missing glyph -/

theorem placeholder_eq (width pixelSize : Rat) :
    (if width > 0 then
        [TextSequenceItem.glyph none 0 (width * pixelSize * FONT_WIDTH_MULTIPLIER)]
      else []) = placeholderItems width pixelSize := by
  unfold placeholderItems FONT_WIDTH_MULTIPLIER
  simp only [gt_iff_lt, mul_one_div]

theorem fillSimple_missing (face : Face) (font : PDFSimpleFont) (pixelSize : Rat) (byte : Nat)
    (rest : List Nat) (gs : GlyphCacheState)
    (hmiss : simpleGlyphIndex face font (byte % 256) = 0) :
    fillSimple face font pixelSize (byte :: rest) gs =
      (Shaping.andThen
        { items := placeholderItems (font.getGlyphAdvance (byte % 256) : Int) pixelSize,
          warnings := [byte % 256], failure := none }
        (fillSimple face font pixelSize rest gs).1,
       (fillSimple face font pixelSize rest gs).2) := by
  rw [fillSimple]
  simp only [hmiss, ne_eq, not_true_eq_false, if_false, placeholder_eq]
  rfl

theorem andThen_assoc (a b c : Shaping) :
    (a.andThen b).andThen c = a.andThen (b.andThen c) := by
  simp [Shaping.andThen, List.append_assoc]

theorem fillSimple_append (face : Face) (font : PDFSimpleFont) (pixelSize : Rat)
    (front back : List Nat) (gs : GlyphCacheState)
    (hok : (fillSimple face font pixelSize front gs).1.failure = none) :
    fillSimple face font pixelSize (front ++ back) gs =
      ((fillSimple face font pixelSize front gs).1.andThen
        (fillSimple face font pixelSize back (fillSimple face font pixelSize front gs).2).1,
       (fillSimple face font pixelSize back (fillSimple face font pixelSize front gs).2).2) := by
  induction front generalizing gs with
  | nil => simp [fillSimple, Shaping.andThen]
  | cons byte rest ih =>
    rw [List.cons_append, fillSimple, fillSimple] at *
    simp only [] at hok ⊢
    split
    · rename_i hg
      rw [if_pos hg] at hok
      cases hget : getGlyph face.rasterize gs (simpleGlyphIndex face font (byte % 256)) with
      | mk outcome gs1 =>
        cases outcome with
        | error e => rw [hget] at hok; simp at hok
        | ok glyph =>
          rw [hget] at hok
          simp only [] at hok ⊢
          rw [ih gs1 hok]
          simp [Shaping.andThen]
    · rename_i hg
      rw [if_neg hg] at hok
      rw [ih gs hok]
      simp [Shaping.andThen]

/-- C15. Simple-font shaping of a missing glyph. In `fillTextSequence` for a Type1/TrueType
font, take any input `front ++ byte :: back` in which the code `c` of `byte` gets no glyph
index (the glyph-index table gives 0 and the Unicode-charmap fallback gives 0 or does not
apply), the bytes before it having been shaped without a rasterizer exception. Then the
outcome of the call is made of three parts in sequence: what `front` produced, then exactly
one warning for `c` and the placeholder - nothing if the declared width
`PDFSimpleFont::getGlyphAdvance(c)` is not positive, otherwise one item without outline,
with the null character and advance `width * pixelSize / 1000` - and then what `back`
produces from the same glyph cache. -/
theorem simple_font_missing_glyph (impl : PDFRealizedFontImpl) (font : PDFSimpleFont)
    (front : List Nat) (byte : Nat) (back : List Nat) (gs : GlyphCacheState)
    (hfont : impl.m_parentFont = PDFFont.type1 font ∨ impl.m_parentFont = PDFFont.trueType font)
    (hmiss : simpleGlyphIndex impl.m_face font (byte % 256) = 0)
    (hfront : (fillSimple impl.m_face font impl.m_pixelSize front gs).1.failure = none) :
    impl.fillTextSequence (front ++ byte :: back) gs =
      some
        (((fillSimple impl.m_face font impl.m_pixelSize front gs).1.andThen
            { items := placeholderItems (font.getGlyphAdvance (byte % 256) : Int)
                impl.m_pixelSize,
              warnings := [byte % 256], failure := none }).andThen
          (fillSimple impl.m_face font impl.m_pixelSize back
            (fillSimple impl.m_face font impl.m_pixelSize front gs).2).1,
         (fillSimple impl.m_face font impl.m_pixelSize back
            (fillSimple impl.m_face font impl.m_pixelSize front gs).2).2) := by
  have hfill : impl.fillTextSequence (front ++ byte :: back) gs =
      some (fillSimple impl.m_face font impl.m_pixelSize (front ++ byte :: back) gs) := by
    unfold PDFRealizedFontImpl.fillTextSequence
    rcases hfont with h | h <;> rw [h]
  rw [hfill, fillSimple_append _ _ _ _ _ _ hfront, fillSimple_missing _ _ _ _ _ _ hmiss,
    andThen_assoc]

/-- C15, the scenario of the spec: first code 32, widths `[500] * 32` (codes 32..63), the
character `A` at code 65, no glyph index resolvable; shaping the byte string `"A"` gives
one warning (for code 65) and no item. -/
theorem simple_font_missing_glyph_witness :
    PDFRealizedFontImpl.fillTextSequence
        { m_face := { hasUnicodeCharmap := false, getCharIndex := fun _ => 0,
                      rasterize := fun _ => Except.error ⟨1⟩ },
          m_pixelSize := 12,
          m_parentFont := PDFFont.type1
            { m_firstChar := 32, m_lastChar := 63, m_widths := List.replicate 32 500,
              m_encoding := fun c => c, m_glyphIndices := fun _ => 0 } }
        [65] GlyphCacheState.empty =
      some ({ items := [], warnings := [65], failure := none }, GlyphCacheState.empty) := by
  have h := simple_font_missing_glyph
    { m_face := { hasUnicodeCharmap := false, getCharIndex := fun _ => 0,
                  rasterize := fun _ => Except.error ⟨1⟩ },
      m_pixelSize := 12,
      m_parentFont := PDFFont.type1
        { m_firstChar := 32, m_lastChar := 63, m_widths := List.replicate 32 500,
          m_encoding := fun c => c, m_glyphIndices := fun _ => 0 } }
    { m_firstChar := 32, m_lastChar := 63, m_widths := List.replicate 32 500,
      m_encoding := fun c => c, m_glyphIndices := fun _ => 0 }
    [] 65 [] GlyphCacheState.empty (Or.inl rfl) rfl rfl
  rw [List.nil_append] at h
  rw [h]
  rfl

/-! ## C16: composite-font shaping -/

theorem flatMap_congr_mem {α β : Type} (l : List α) (f g : α → List β)
    (h : ∀ a ∈ l, f a = g a) : l.flatMap f = l.flatMap g := by
  induction l with
  | nil => rfl
  | cons x xs ih =>
    simp only [List.flatMap_cons]
    rw [h x (by simp), ih (fun a ha => h a (by simp [ha]))]

theorem compositeItems_of_keeps (font : PDFType0Font) (pixelSize : Rat)
    (gs gs' : GlyphCacheState) (cid : Nat)
    (hkeep : ∀ i g, gs.m_glyphCache.lookup i = some g → gs'.m_glyphCache.lookup i = some g)
    (hhave : font.m_mapper cid ≠ 0 → ∃ g, gs.m_glyphCache.lookup (font.m_mapper cid) = some g) :
    compositeItems font pixelSize gs cid = compositeItems font pixelSize gs' cid := by
  unfold compositeItems
  split
  · rename_i hne
    obtain ⟨g, hg⟩ := hhave hne
    rw [hg, hkeep _ _ hg]
  · rfl

theorem type3_fill_shape (font : PDFType3Font) (byteArray : List Nat) :
    (PDFRealizedType3FontImpl.fillTextSequence font byteArray).failure = none ∧
    (PDFRealizedType3FontImpl.fillTextSequence font byteArray).items =
      byteArray.flatMap (fun byte => type3Items font (byte % 256)) ∧
    (PDFRealizedType3FontImpl.fillTextSequence font byteArray).warnings =
      (byteArray.map (fun byte => byte % 256)).filter
        (fun code : Nat => (font.getContentStream ((code : Nat) : Int)).isNone) := by
  induction byteArray with
  | nil => simp [PDFRealizedType3FontImpl.fillTextSequence]
  | cons byte rest ih =>
    obtain ⟨h1, h2, h3⟩ := ih
    rw [PDFRealizedType3FontImpl.fillTextSequence]
    cases hcs : font.getContentStream ((byte % 256 : Nat) : Int) with
    | some stream =>
      simp only [List.flatMap_cons, List.map_cons, List.filter_cons,
        type3Items, hcs, Option.isNone_some, h1, h2, h3, List.singleton_append]
      simp
    | none =>
      simp only [List.flatMap_cons, List.map_cons, List.filter_cons,
        type3Items, hcs, Option.isNone_none, h1, h2, h3, gt_iff_lt, if_true]
      simp

theorem type3_warning_count (font : PDFType3Font) (byteArray : List Nat) :
    ((byteArray.map (fun byte => byte % 256)).filter
        (fun code : Nat => (font.getContentStream ((code : Nat) : Int)).isNone)).length =
      byteArray.countP
        (fun byte => (font.getContentStream ((byte % 256 : Nat) : Int)).isNone) := by
  induction byteArray with
  | nil => rfl
  | cons byte rest ih =>
    rw [List.map_cons, List.filter_cons, List.countP_cons]
    cases hcs : (font.getContentStream ((byte % 256 : Nat) : Int)).isNone
    · simp only [Bool.false_eq_true, if_false, Nat.add_zero]
      exact ih
    · simp only [if_true, List.length_cons, ih]

theorem type3_item_count (font : PDFType3Font) (byteArray : List Nat) :
    (byteArray.flatMap (fun byte => type3Items font (byte % 256))).length =
      byteArray.countP
        (fun byte => (font.getContentStream ((byte % 256 : Nat) : Int)).isSome) +
      byteArray.countP (fun byte =>
        (font.getContentStream ((byte % 256 : Nat) : Int)).isNone &&
          decide (0 < font.getWidth ((byte % 256 : Nat) : Int))) := by
  induction byteArray with
  | nil => rfl
  | cons byte rest ih =>
    rw [List.flatMap_cons, List.length_append, ih, List.countP_cons, List.countP_cons]
    unfold type3Items
    cases hcs : font.getContentStream ((byte % 256 : Nat) : Int) with
    | some stream =>
      simp only [Option.isSome_some, Option.isNone_some, Bool.false_and, if_true,
        Bool.false_eq_true, if_false, List.length_singleton]
      omega
    | none =>
      by_cases hw : 0 < font.getWidth ((byte % 256 : Nat) : Int)
      · simp only [Option.isSome_none, Option.isNone_none, Bool.true_and, hw, decide_True,
          if_true, Bool.false_eq_true, if_false, List.length_singleton]
        omega
      · simp only [Option.isSome_none, Option.isNone_none, Bool.true_and, hw, decide_False,
          Bool.false_eq_true, if_false, List.length_nil]
        omega

/-- C17. Procedural-font shaping. `PDFRealizedType3FontImpl::fillTextSequence` handles every
input byte, in order, and ends without exception: the items are, byte by byte, for a code
with a stored drawing program one item (the program, `getWidth(code)`), for a code without
one a width-only item exactly when `getWidth(code) > 0`; the warnings are exactly the codes
without a drawing program, one each. So the number of warnings is the number of bytes
without a program, and the number of items is the number of bytes with a program plus the
number of bytes without a program but with positive width. -/
theorem type3_font_shaping (font : PDFType3Font) (byteArray : List Nat) :
    (PDFRealizedType3FontImpl.fillTextSequence font byteArray).failure = none ∧
    (PDFRealizedType3FontImpl.fillTextSequence font byteArray).items =
      byteArray.flatMap (fun byte => type3Items font (byte % 256)) ∧
    (PDFRealizedType3FontImpl.fillTextSequence font byteArray).warnings =
      (byteArray.map (fun byte => byte % 256)).filter
        (fun code : Nat => (font.getContentStream ((code : Nat) : Int)).isNone) ∧
    (PDFRealizedType3FontImpl.fillTextSequence font byteArray).warnings.length =
      byteArray.countP (fun byte => (font.getContentStream ((byte % 256 : Nat) : Int)).isNone) ∧
    (PDFRealizedType3FontImpl.fillTextSequence font byteArray).items.length =
      byteArray.countP (fun byte => (font.getContentStream ((byte % 256 : Nat) : Int)).isSome) +
      byteArray.countP (fun byte =>
        (font.getContentStream ((byte % 256 : Nat) : Int)).isNone &&
          decide (0 < font.getWidth ((byte % 256 : Nat) : Int))) := by
  obtain ⟨h1, h2, h3⟩ := type3_fill_shape font byteArray
  refine ⟨h1, h2, h3, ?_, ?_⟩
  · rw [h3]; exact type3_warning_count font byteArray
  · rw [h2]; exact type3_item_count font byteArray

/-! ## C19, C20: the font cache -/

theorem storeWithLimit_length_le {K V : Type} (limit : Nat) (cache : List (K × V)) (key : K)
    (value : V) (hlimit : 1 ≤ limit) :
    (storeWithLimit limit cache key value).length ≤ limit := by
  unfold storeWithLimit
  split
  · simpa using hlimit
  · rw [List.length_append, List.length_singleton]
    omega

theorem storeWithLimit_full {K V : Type} (limit : Nat) (cache : List (K × V)) (key : K)
    (value : V) (hfull : limit ≤ cache.length) :
    storeWithLimit limit cache key value = [(key, value)] := by
  unfold storeWithLimit
  rw [if_pos hfull]
  rfl

theorem storeWithLimit_room {K V : Type} (limit : Nat) (cache : List (K × V)) (key : K)
    (value : V) (hroom : cache.length < limit) :
    storeWithLimit limit cache key value = cache ++ [(key, value)] := by
  unfold storeWithLimit
  rw [if_neg (by omega)]

theorem getFont_miss {F R : Type} (createFont : PDFObject → Nat → Except FontError F)
    (cache : PDFFontCache F R) (reference : Nat × Nat) (font : F)
    (hmiss : cache.m_fontCache.lookup reference = none)
    (hmake : createFont (PDFObject.reference reference) cache.m_document = Except.ok font) :
    cache.getFont createFont (PDFObject.reference reference) =
      (Except.ok font,
        { cache with
          m_fontCache := storeWithLimit cache.m_fontCacheLimit cache.m_fontCache reference font,
          fontConstructions := cache.fontConstructions + 1 }) := by
  unfold PDFFontCache.getFont
  simp only [hmiss, hmake]

theorem getFont_invariant {F R : Type} (createFont : PDFObject → Nat → Except FontError F)
    (cache : PDFFontCache F R) (fontObject : PDFObject) (limit : Nat) (hlimit : 1 ≤ limit)
    (h : cache.m_fontCacheLimit = limit ∧ cache.m_fontCache.length ≤ limit) :
    (cache.getFont createFont fontObject).2.m_fontCacheLimit = limit ∧
    (cache.getFont createFont fontObject).2.m_fontCache.length ≤ limit := by
  obtain ⟨h1, h2⟩ := h
  unfold PDFFontCache.getFont
  cases fontObject with
  | direct content => exact ⟨h1, h2⟩
  | reference reference =>
    simp only []
    cases cache.m_fontCache.lookup reference with
    | some font => exact ⟨h1, h2⟩
    | none =>
      simp only []
      cases createFont (PDFObject.reference reference) cache.m_document with
      | error e => exact ⟨h1, h2⟩
      | ok font =>
        refine ⟨h1, ?_⟩
        simp only [h1]
        exact storeWithLimit_length_le limit _ _ _ hlimit

theorem getFonts_invariant {F R : Type} (createFont : PDFObject → Nat → Except FontError F)
    (fontObjects : List PDFObject) (limit : Nat) (hlimit : 1 ≤ limit) :
    ∀ cache : PDFFontCache F R,
      cache.m_fontCacheLimit = limit ∧ cache.m_fontCache.length ≤ limit →
      (cache.getFonts createFont fontObjects).m_fontCacheLimit = limit ∧
      (cache.getFonts createFont fontObjects).m_fontCache.length ≤ limit := by
  induction fontObjects with
  | nil => intro cache h; exact h
  | cons fontObject rest ih =>
    intro cache h
    unfold PDFFontCache.getFonts
    rw [List.foldl_cons]
    exact ih _ (getFont_invariant createFont cache fontObject limit hlimit h)

theorem getRealizedFont_miss {F R : Type} [DecidableEq F]
    (createRealizedFont : F → Rat → Except FontError R)
    (cache : PDFFontCache F R) (font : F) (size : Rat) (realizedFont : R)
    (hmiss : cache.m_realizedFontCache.lookup (font, size) = none)
    (hmake : createRealizedFont font size = Except.ok realizedFont) :
    cache.getRealizedFont createRealizedFont font size =
      (Except.ok realizedFont,
        { cache with
          m_realizedFontCache := storeWithLimit cache.m_realizedFontCacheLimit
            cache.m_realizedFontCache (font, size) realizedFont,
          realizedFontConstructions := cache.realizedFontConstructions + 1 }) := by
  unfold PDFFontCache.getRealizedFont
  simp only [hmiss, hmake]

theorem getRealizedFont_invariant {F R : Type} [DecidableEq F]
    (createRealizedFont : F → Rat → Except FontError R)
    (cache : PDFFontCache F R) (font : F) (size : Rat) (limit : Nat) (hlimit : 1 ≤ limit)
    (h : cache.m_realizedFontCacheLimit = limit ∧ cache.m_realizedFontCache.length ≤ limit) :
    (cache.getRealizedFont createRealizedFont font size).2.m_realizedFontCacheLimit = limit ∧
    (cache.getRealizedFont createRealizedFont font size).2.m_realizedFontCache.length ≤
      limit := by
  obtain ⟨h1, h2⟩ := h
  unfold PDFFontCache.getRealizedFont
  cases cache.m_realizedFontCache.lookup (font, size) with
  | some realizedFont => exact ⟨h1, h2⟩
  | none =>
    simp only []
    cases createRealizedFont font size with
    | error e => exact ⟨h1, h2⟩
    | ok realizedFont =>
      refine ⟨h1, ?_⟩
      simp only [h1]
      exact storeWithLimit_length_le limit _ _ _ hlimit

theorem getRealizedFonts_invariant {F R : Type} [DecidableEq F]
    (createRealizedFont : F → Rat → Except FontError R)
    (requests : List (F × Rat)) (limit : Nat) (hlimit : 1 ≤ limit) :
    ∀ cache : PDFFontCache F R,
      cache.m_realizedFontCacheLimit = limit ∧ cache.m_realizedFontCache.length ≤ limit →
      (cache.getRealizedFonts createRealizedFont requests).m_realizedFontCacheLimit = limit ∧
      (cache.getRealizedFonts createRealizedFont requests).m_realizedFontCache.length ≤
        limit := by
  induction requests with
  | nil => intro cache h; exact h
  | cons request rest ih =>
    intro cache h
    unfold PDFFontCache.getRealizedFonts
    rw [List.foldl_cons]
    exact ih _ (getRealizedFont_invariant createRealizedFont cache request.1 request.2 limit
      hlimit h)

theorem lookup_single_ne {K V : Type} [BEq K] [LawfulBEq K] (k k' : K) (v : V) (h : k ≠ k') :
    List.lookup k [(k', v)] = none := by
  have hb : (k == k') = false := beq_false_of_ne h
  simp [List.lookup, hb]

theorem getFonts_snoc {F R : Type} (createFont : PDFObject → Nat → Except FontError F)
    (cache : PDFFontCache F R) (fontObjects : List PDFObject) (fontObject : PDFObject) :
    cache.getFonts createFont (fontObjects ++ [fontObject]) =
      ((cache.getFonts createFont fontObjects).getFont createFont fontObject).2 := by
  unfold PDFFontCache.getFonts
  rw [List.foldl_append]
  rfl

theorem getRealizedFonts_snoc {F R : Type} [DecidableEq F]
    (createRealizedFont : F → Rat → Except FontError R)
    (cache : PDFFontCache F R) (requests : List (F × Rat)) (request : F × Rat) :
    cache.getRealizedFonts createRealizedFont (requests ++ [request]) =
      ((cache.getRealizedFonts createRealizedFont requests).getRealizedFont
        createRealizedFont request.1 request.2).2 := by
  unfold PDFFontCache.getRealizedFonts
  rw [List.foldl_append]
  rfl

theorem getFonts_three {F R : Type} (createFont : PDFObject → Nat → Except FontError F)
    (cache : PDFFontCache F R) (r1 r2 r3 : Nat × Nat) (f1 f2 f3 : F)
    (hlimit : cache.m_fontCacheLimit = 2) (hempty : cache.m_fontCache = [])
    (h12 : r1 ≠ r2) (h13 : r1 ≠ r3) (h23 : r2 ≠ r3)
    (hf1 : createFont (PDFObject.reference r1) cache.m_document = Except.ok f1)
    (hf2 : createFont (PDFObject.reference r2) cache.m_document = Except.ok f2)
    (hf3 : createFont (PDFObject.reference r3) cache.m_document = Except.ok f3) :
    cache.getFonts createFont
        [PDFObject.reference r1, PDFObject.reference r2, PDFObject.reference r3] =
      { cache with m_fontCache := [(r3, f3)],
                   fontConstructions := cache.fontConstructions + 3 } := by
  have hb21 : (r2 == r1) = false := beq_false_of_ne (Ne.symm h12)
  have hb31 : (r3 == r1) = false := beq_false_of_ne (Ne.symm h13)
  have hb32 : (r3 == r2) = false := beq_false_of_ne (Ne.symm h23)
  unfold PDFFontCache.getFonts
  simp only [List.foldl_cons, List.foldl_nil]
  simp [PDFFontCache.getFont, hempty, hlimit, hf1, hf2, hf3, storeWithLimit, List.lookup,
    hb21, hb31, hb32]

theorem getRealizedFonts_three {F R : Type} [DecidableEq F]
    (createRealizedFont : F → Rat → Except FontError R)
    (cache : PDFFontCache F R) (k1 k2 k3 : F × Rat) (v1 v2 v3 : R)
    (hlimit : cache.m_realizedFontCacheLimit = 2) (hempty : cache.m_realizedFontCache = [])
    (h12 : k1 ≠ k2) (h13 : k1 ≠ k3) (h23 : k2 ≠ k3)
    (hf1 : createRealizedFont k1.1 k1.2 = Except.ok v1)
    (hf2 : createRealizedFont k2.1 k2.2 = Except.ok v2)
    (hf3 : createRealizedFont k3.1 k3.2 = Except.ok v3) :
    cache.getRealizedFonts createRealizedFont [k1, k2, k3] =
      { cache with m_realizedFontCache := [(k3, v3)],
                   realizedFontConstructions := cache.realizedFontConstructions + 3 } := by
  have hb21 : (k2 == k1) = false := beq_false_of_ne (Ne.symm h12)
  have hb31 : (k3 == k1) = false := beq_false_of_ne (Ne.symm h13)
  have hb32 : (k3 == k2) = false := beq_false_of_ne (Ne.symm h23)
  unfold PDFFontCache.getRealizedFonts
  simp only [List.foldl_cons, List.foldl_nil]
  simp [PDFFontCache.getRealizedFont, hempty, hlimit, hf1, hf2, hf3, storeWithLimit,
    List.lookup, hb21, hb31, hb32]

/-- C19. Font cache ceiling. For a `PDFFontCache` with font-cache limit `N >= 1` and
realized-font-cache limit `M >= 1`: a `getFont` miss on a reference (whose font is
constructed) while the font map holds `>= N` entries leaves the map containing exactly the
newly inserted reference, and a miss below the limit adds one entry at the others;
starting from an empty cache the font map never holds more than `N` entries after any
sequence of `getFont` calls; and with limit 2, `getFont` on three distinct references
leaves only the third in the map, so that the next access to the first or to the second
misses and constructs the font again (the construction counter goes from 3 to 4). The same
holds for `getRealizedFont`, its map and its limit. -/
theorem font_cache_ceiling {F R : Type} [DecidableEq F]
    (createFont : PDFObject → Nat → Except FontError F)
    (createRealizedFont : F → Rat → Except FontError R)
    (document N M : Nat) (hN : 1 ≤ N) (hM : 1 ≤ M) :
    (∀ (cache : PDFFontCache F R) (reference : Nat × Nat) (font : F),
      cache.m_fontCacheLimit = N →
      cache.m_fontCache.lookup reference = none →
      createFont (PDFObject.reference reference) cache.m_document = Except.ok font →
      (N ≤ cache.m_fontCache.length →
        (cache.getFont createFont (PDFObject.reference reference)).2.m_fontCache =
          [(reference, font)]) ∧
      (cache.m_fontCache.length < N →
        (cache.getFont createFont (PDFObject.reference reference)).2.m_fontCache =
          cache.m_fontCache ++ [(reference, font)])) ∧
    (∀ fontObjects : List PDFObject,
      ((PDFFontCache.empty F R document N M).getFonts createFont fontObjects).m_fontCache.length
        ≤ N) ∧
    (∀ (r1 r2 r3 : Nat × Nat) (f1 f2 f3 : F), r1 ≠ r2 → r1 ≠ r3 → r2 ≠ r3 →
      createFont (PDFObject.reference r1) document = Except.ok f1 →
      createFont (PDFObject.reference r2) document = Except.ok f2 →
      createFont (PDFObject.reference r3) document = Except.ok f3 →
      ((PDFFontCache.empty F R document 2 M).getFonts createFont
          [PDFObject.reference r1, PDFObject.reference r2, PDFObject.reference r3]).m_fontCache =
        [(r3, f3)] ∧
      ((PDFFontCache.empty F R document 2 M).getFonts createFont
          [PDFObject.reference r1, PDFObject.reference r2, PDFObject.reference r3,
           PDFObject.reference r1]).fontConstructions = 4 ∧
      ((PDFFontCache.empty F R document 2 M).getFonts createFont
          [PDFObject.reference r1, PDFObject.reference r2, PDFObject.reference r3,
           PDFObject.reference r2]).fontConstructions = 4) ∧
    (∀ (cache : PDFFontCache F R) (font : F) (size : Rat) (realizedFont : R),
      cache.m_realizedFontCacheLimit = M →
      cache.m_realizedFontCache.lookup (font, size) = none →
      createRealizedFont font size = Except.ok realizedFont →
      (M ≤ cache.m_realizedFontCache.length →
        (cache.getRealizedFont createRealizedFont font size).2.m_realizedFontCache =
          [((font, size), realizedFont)]) ∧
      (cache.m_realizedFontCache.length < M →
        (cache.getRealizedFont createRealizedFont font size).2.m_realizedFontCache =
          cache.m_realizedFontCache ++ [((font, size), realizedFont)])) ∧
    (∀ requests : List (F × Rat),
      ((PDFFontCache.empty F R document N M).getRealizedFonts createRealizedFont
        requests).m_realizedFontCache.length ≤ M) ∧
    (∀ (k1 k2 k3 : F × Rat) (v1 v2 v3 : R), k1 ≠ k2 → k1 ≠ k3 → k2 ≠ k3 →
      createRealizedFont k1.1 k1.2 = Except.ok v1 →
      createRealizedFont k2.1 k2.2 = Except.ok v2 →
      createRealizedFont k3.1 k3.2 = Except.ok v3 →
      ((PDFFontCache.empty F R document N 2).getRealizedFonts createRealizedFont
          [k1, k2, k3]).m_realizedFontCache = [(k3, v3)] ∧
      ((PDFFontCache.empty F R document N 2).getRealizedFonts createRealizedFont
          [k1, k2, k3, k1]).realizedFontConstructions = 4 ∧
      ((PDFFontCache.empty F R document N 2).getRealizedFonts createRealizedFont
          [k1, k2, k3, k2]).realizedFontConstructions = 4) := by
  refine ⟨?_, ?_, ?_, ?_, ?_, ?_⟩
  · intro cache reference font hlimit hmiss hmake
    rw [getFont_miss createFont cache reference font hmiss hmake]
    constructor
    · intro hfull
      exact storeWithLimit_full _ _ _ _ (by rw [hlimit]; exact hfull)
    · intro hroom
      exact storeWithLimit_room _ _ _ _ (by rw [hlimit]; exact hroom)
  · intro fontObjects
    exact (getFonts_invariant createFont fontObjects N hN (PDFFontCache.empty F R document N M)
      ⟨rfl, Nat.zero_le N⟩).2
  · intro r1 r2 r3 f1 f2 f3 h12 h13 h23 hf1 hf2 hf3
    have h3 := getFonts_three createFont (PDFFontCache.empty F R document 2 M) r1 r2 r3
      f1 f2 f3 rfl rfl h12 h13 h23 hf1 hf2 hf3
    have hstep := getFonts_snoc createFont (PDFFontCache.empty F R document 2 M)
      [PDFObject.reference r1, PDFObject.reference r2, PDFObject.reference r3]
    simp only [List.cons_append, List.nil_append] at hstep
    obtain ⟨c3, hc3⟩ : ∃ c3, c3 = (PDFFontCache.empty F R document 2 M).getFonts createFont
        [PDFObject.reference r1, PDFObject.reference r2, PDFObject.reference r3] := ⟨_, rfl⟩
    rw [← hc3] at h3 hstep ⊢
    have hcache : c3.m_fontCache = [(r3, f3)] := by rw [h3]
    have hdoc : c3.m_document = document := by rw [h3]; rfl
    have hcount : c3.fontConstructions = 3 := by rw [h3]; rfl
    refine ⟨hcache, ?_, ?_⟩
    · rw [hstep, getFont_miss createFont c3 r1 f1
        (by rw [hcache]; exact lookup_single_ne r1 r3 f3 h13) (by rw [hdoc]; exact hf1)]
      show c3.fontConstructions + 1 = 4
      rw [hcount]
    · rw [hstep, getFont_miss createFont c3 r2 f2
        (by rw [hcache]; exact lookup_single_ne r2 r3 f3 h23) (by rw [hdoc]; exact hf2)]
      show c3.fontConstructions + 1 = 4
      rw [hcount]
  · intro cache font size realizedFont hlimit hmiss hmake
    rw [getRealizedFont_miss createRealizedFont cache font size realizedFont hmiss hmake]
    constructor
    · intro hfull
      exact storeWithLimit_full _ _ _ _ (by rw [hlimit]; exact hfull)
    · intro hroom
      exact storeWithLimit_room _ _ _ _ (by rw [hlimit]; exact hroom)
  · intro requests
    exact (getRealizedFonts_invariant createRealizedFont requests M hM
      (PDFFontCache.empty F R document N M) ⟨rfl, Nat.zero_le M⟩).2
  · intro k1 k2 k3 v1 v2 v3 h12 h13 h23 hf1 hf2 hf3
    have h3 := getRealizedFonts_three createRealizedFont (PDFFontCache.empty F R document N 2)
      k1 k2 k3 v1 v2 v3 rfl rfl h12 h13 h23 hf1 hf2 hf3
    have hstep := getRealizedFonts_snoc createRealizedFont
      (PDFFontCache.empty F R document N 2) [k1, k2, k3]
    simp only [List.cons_append, List.nil_append] at hstep
    obtain ⟨c3, hc3⟩ : ∃ c3, c3 = (PDFFontCache.empty F R document N 2).getRealizedFonts
        createRealizedFont [k1, k2, k3] := ⟨_, rfl⟩
    rw [← hc3] at h3 hstep ⊢
    have hcache : c3.m_realizedFontCache = [(k3, v3)] := by rw [h3]
    have hcount : c3.realizedFontConstructions = 3 := by rw [h3]; rfl
    refine ⟨hcache, ?_, ?_⟩
    · rw [hstep, getRealizedFont_miss createRealizedFont c3 k1.1 k1.2 v1
        (by rw [hcache]; exact lookup_single_ne (k1.1, k1.2) k3 v3 h13) hf1]
      show c3.realizedFontConstructions + 1 = 4
      rw [hcount]
    · rw [hstep, getRealizedFont_miss createRealizedFont c3 k2.1 k2.2 v2
        (by rw [hcache]; exact lookup_single_ne (k2.1, k2.2) k3 v3 h23) hf2]
      show c3.realizedFontConstructions + 1 = 4
      rw [hcount]

/-- C19 on the spec's scenario: limit 2, fonts numbered by the object number of their
reference, references 1, 2 and 3: after the third insertion the map holds only reference 3,
and a fourth call on reference 1 constructs again. -/
theorem font_cache_ceiling_witness :
    ((PDFFontCache.empty Nat Nat 0 2 2).getFonts (fun _ _ => Except.ok 7)
        [PDFObject.reference (1, 0), PDFObject.reference (2, 0),
         PDFObject.reference (3, 0)]).m_fontCache = [((3, 0), 7)] ∧
    ((PDFFontCache.empty Nat Nat 0 2 2).getFonts (fun _ _ => Except.ok 7)
        [PDFObject.reference (1, 0), PDFObject.reference (2, 0),
         PDFObject.reference (3, 0), PDFObject.reference (1, 0)]).fontConstructions = 4 :=
  have h := (font_cache_ceiling (fun _ _ => Except.ok 7)
    (fun _ _ => (Except.ok 9 : Except FontError Nat)) 0 2 2 (by decide) (by decide)).2.2.1
      (1, 0) (2, 0) (3, 0) 7 7 7 (by decide) (by decide) (by decide) rfl rfl rfl
  ⟨h.1, h.2.1⟩

/-- C20. Direct font objects bypass the cache. For every font object that is not an
indirect reference, `PDFFontCache::getFont` returns what `PDFFont::createFont` gives for the
object and the cache's document, whether a font or an exception, requests one construction
and leaves the font map and the realized-font map exactly as they were; so a sequence of
calls on direct objects requests one construction per call and leaves both maps as they
were. -/
theorem direct_font_objects_bypass_cache {F R : Type}
    (createFont : PDFObject → Nat → Except FontError F) (cache : PDFFontCache F R) :
    (∀ content : List Nat,
      (cache.getFont createFont (PDFObject.direct content)).1 =
        createFont (PDFObject.direct content) cache.m_document ∧
      (cache.getFont createFont (PDFObject.direct content)).2.m_fontCache = cache.m_fontCache ∧
      (cache.getFont createFont (PDFObject.direct content)).2.m_realizedFontCache =
        cache.m_realizedFontCache ∧
      (cache.getFont createFont (PDFObject.direct content)).2.fontConstructions =
        cache.fontConstructions + 1) ∧
    (∀ contents : List (List Nat),
      (cache.getFonts createFont (contents.map PDFObject.direct)).m_fontCache =
        cache.m_fontCache ∧
      (cache.getFonts createFont (contents.map PDFObject.direct)).m_realizedFontCache =
        cache.m_realizedFontCache ∧
      (cache.getFonts createFont (contents.map PDFObject.direct)).fontConstructions =
        cache.fontConstructions + contents.length) := by
  constructor
  · intro content
    exact ⟨rfl, rfl, rfl, rfl⟩
  · intro contents
    induction contents generalizing cache with
    | nil => exact ⟨rfl, rfl, rfl⟩
    | cons content rest ih =>
      unfold PDFFontCache.getFonts
      rw [List.map_cons, List.foldl_cons]
      obtain ⟨h1, h2, h3⟩ := ih (cache.getFont createFont (PDFObject.direct content)).2
      unfold PDFFontCache.getFonts at h1 h2 h3
      refine ⟨h1, h2, ?_⟩
      rw [h3, List.length_cons]
      show cache.fontConstructions + 1 + rest.length = cache.fontConstructions + (rest.length + 1)
      omega

/-! ## C21: the cache and the document -/

/-- C21. Cache reset on document change. `PDFFontCache::setDocument(d)` with `d` different
from the current document empties the font map and the realized-font map and records `d`
(limits untouched); with `d` the current document it leaves the cache, both maps and the
document included, exactly as it is. -/
theorem setDocument_resets_on_change {F R : Type} (cache : PDFFontCache F R) (document : Nat) :
    (document ≠ cache.m_document →
      (cache.setDocument document).m_fontCache = [] ∧
      (cache.setDocument document).m_realizedFontCache = [] ∧
      (cache.setDocument document).m_document = document ∧
      (cache.setDocument document).m_fontCacheLimit = cache.m_fontCacheLimit ∧
      (cache.setDocument document).m_realizedFontCacheLimit = cache.m_realizedFontCacheLimit) ∧
    (document = cache.m_document → cache.setDocument document = cache) := by
  constructor
  · intro h
    unfold PDFFontCache.setDocument
    rw [if_pos (Ne.symm h)]
    exact ⟨rfl, rfl, rfl, rfl, rfl⟩
  · intro h
    unfold PDFFontCache.setDocument
    rw [if_neg (by simp [h])]

/-- C21 on a cache of document 1 that holds one font and one realized font: changing to
document 2 empties both maps, naming document 1 again leaves them. -/
theorem setDocument_resets_on_change_witness :
    ((⟨1, 2, 2, [((1, 0), 7)], [((7, 12), 9)], 1, 1⟩ : PDFFontCache Nat Nat).setDocument
        2).m_fontCache = [] ∧
    ((⟨1, 2, 2, [((1, 0), 7)], [((7, 12), 9)], 1, 1⟩ : PDFFontCache Nat Nat).setDocument
        2).m_realizedFontCache = [] ∧
    (⟨1, 2, 2, [((1, 0), 7)], [((7, 12), 9)], 1, 1⟩ : PDFFontCache Nat Nat).setDocument 1 =
      ⟨1, 2, 2, [((1, 0), 7)], [((7, 12), 9)], 1, 1⟩ :=
  have h := setDocument_resets_on_change
    (⟨1, 2, 2, [((1, 0), 7)], [((7, 12), 9)], 1, 1⟩ : PDFFontCache Nat Nat)
  ⟨((h 2).1 (by decide)).1, ((h 2).1 (by decide)).2.1, (h 1).2 rfl⟩

/-! ## Loops over the 256 codes -/

theorem foldl_range_pointwise (body : Nat → (Nat → Nat) → (Nat → Nat)) (f : Nat → Nat → Nat)
    (hbody : ∀ i t, body i t = Function.update t i (f i (t i))) (n : Nat) (table : Nat → Nat)
    (c : Nat) :
    (List.range n).foldl (fun s i => body i s) table c =
      if c < n then f c (table c) else table c := by
  induction n with
  | zero => simp
  | succ n ih =>
    rw [List.range_succ, List.foldl_append, List.foldl_cons, List.foldl_nil, hbody]
    by_cases hc : c = n
    · subst hc
      rw [Function.update_same, ih]
      simp
    · rw [Function.update_noteq hc, ih]
      by_cases hlt : c < n
      · rw [if_pos hlt, if_pos (by omega)]
      · rw [if_neg hlt, if_neg (by omega)]

theorem forEachCode_pointwise (body : Nat → (Nat → Nat) → (Nat → Nat)) (f : Nat → Nat → Nat)
    (hbody : ∀ i t, body i t = Function.update t i (f i (t i))) (table : Nat → Nat) (c : Nat) :
    forEachCode body table c = if c < 256 then f c (table c) else table c := by
  unfold forEachCode
  exact foldl_range_pointwise body f hbody 256 table c

/-! ## Lemmas on finishFont -/

theorem fillDifferences_table (declared : DeclaredEncoding) (state : SimpleFontState) (c : Nat)
    (hc : c < 256) :
    (fillDifferences declared state).simpleFontEncodingTable c =
      mergedCharacter declared state.simpleFontEncodingTable c := by
  unfold fillDifferences mergedCharacter
  by_cases hd : declared.hasDifferences = true
  · rw [if_pos hd]
    show forEachCode _ state.simpleFontEncodingTable c = _
    rw [forEachCode_pointwise _
      (fun i old =>
        if declared.differences i ≠ nullCharacter then declared.differences i else old),
      if_pos hc]
    · by_cases h : declared.differences c ≠ nullCharacter
      · rw [if_pos h, if_pos ⟨hd, h⟩]
      · rw [if_neg h, if_neg (fun h2 => h h2.2)]
    · intro i t
      by_cases h : declared.differences i ≠ nullCharacter
      · rw [if_pos h, if_pos h]
      · rw [if_neg h, if_neg h, Function.update_eq_self]
  · rw [if_neg hd, if_neg (fun h2 => hd h2.1)]

theorem fillStandard_table (env : FontEnvironment) (state : SimpleFontState) (c : Nat)
    (hc : c < 256) :
    (fillStandard env state).simpleFontEncodingTable c =
      if (state.simpleFontEncodingTable c = nullCharacter ∨
            state.simpleFontEncodingTable c = replacementCharacter) ∧
          usable (env.getTableForEncoding Encoding.Standard c) then
        env.getTableForEncoding Encoding.Standard c
      else state.simpleFontEncodingTable c := by
  unfold fillStandard
  show forEachCode _ state.simpleFontEncodingTable c = _
  rw [forEachCode_pointwise _
    (fun i old =>
      if (old = nullCharacter ∨ old = replacementCharacter) ∧
          (env.getTableForEncoding Encoding.Standard i ≠ nullCharacter ∧
            env.getTableForEncoding Encoding.Standard i ≠ replacementCharacter) then
        env.getTableForEncoding Encoding.Standard i
      else old), if_pos hc]
  intro i t
  by_cases h : (t i = nullCharacter ∨ t i = replacementCharacter) ∧
      (env.getTableForEncoding Encoding.Standard i ≠ nullCharacter ∧
        env.getTableForEncoding Encoding.Standard i ≠ replacementCharacter)
  · rw [if_pos h, if_pos h]
  · rw [if_neg h, if_neg h, Function.update_eq_self]

theorem finishFont_table (env : FontEnvironment) (declared : DeclaredEncoding)
    (state : SimpleFontState) (c : Nat) (hc : c < 256) :
    (finishFont env declared state).simpleFontEncodingTable c =
      if (mergedCharacter declared state.simpleFontEncodingTable c = nullCharacter ∨
            mergedCharacter declared state.simpleFontEncodingTable c = replacementCharacter) ∧
          usable (env.getTableForEncoding Encoding.Standard c) then
        env.getTableForEncoding Encoding.Standard c
      else mergedCharacter declared state.simpleFontEncodingTable c := by
  unfold finishFont
  rw [fillStandard_table env _ c hc, fillDifferences_table declared state c hc]

theorem finishFont_encoding (env : FontEnvironment) (declared : DeclaredEncoding)
    (state : SimpleFontState) :
    (finishFont env declared state).encoding =
      if declared.hasDifferences = true then Encoding.Custom else state.encoding := by
  unfold finishFont fillStandard fillDifferences
  by_cases hd : declared.hasDifferences = true
  · rw [if_pos hd, if_pos hd]
  · rw [if_neg hd, if_neg hd]

theorem finishFont_glyphIndexArray (env : FontEnvironment) (declared : DeclaredEncoding)
    (state : SimpleFontState) :
    (finishFont env declared state).glyphIndexArray = state.glyphIndexArray := by
  unfold finishFont fillStandard fillDifferences
  by_cases hd : declared.hasDifferences = true
  · rw [if_pos hd]
  · rw [if_neg hd]

theorem finishFont_differences (env : FontEnvironment) (declared : DeclaredEncoding)
    (state : SimpleFontState) (c : Nat) (hc : c < 256)
    (hhas : declared.hasDifferences = true) (hch : usable (declared.differences c)) :
    (finishFont env declared state).simpleFontEncodingTable c = declared.differences c := by
  have hm : mergedCharacter declared state.simpleFontEncodingTable c =
      declared.differences c := by
    unfold mergedCharacter
    rw [if_pos ⟨hhas, hch.1⟩]
  rw [finishFont_table env declared state c hc, hm, if_neg]
  rintro ⟨h | h, _⟩
  · exact hch.1 h
  · exact hch.2 h

/-! ## Lemmas on the loop over the Differences array -/

theorem readDifferences_other (resolve : String → Nat) (item : Object) (rest : List Object)
    (currentOffset : Nat) (differences : Nat → Nat)
    (hint : item.isInt = false) (hname : item.isName = false) :
    readDifferences resolve (item :: rest) currentOffset differences =
      Except.error CreateFontError.invalidDifferences := by
  cases item with
  | integer value => simp [Object.isInt] at hint
  | name data => simp [Object.isName] at hname
  | _ => rfl

theorem readDifferences_integer (resolve : String → Nat) (value : Int) (rest : List Object)
    (currentOffset : Nat) (differences : Nat → Nat) :
    readDifferences resolve (Object.integer value :: rest) currentOffset differences =
      readDifferences resolve rest (value % 18446744073709551616).toNat differences := by
  rw [readDifferences]

theorem readDifferences_name (resolve : String → Nat) (data : String) (rest : List Object)
    (currentOffset : Nat) (differences : Nat → Nat) :
    readDifferences resolve (Object.name data :: rest) currentOffset differences =
      if currentOffset ≥ 256 then Except.error CreateFontError.invalidDifferences
      else
        readDifferences resolve rest (currentOffset + 1)
          (Function.update differences currentOffset (resolve data)) := by
  rw [readDifferences]
  rfl

theorem offsetAfter_other (item : Object) (rest : List Object) (start : Nat)
    (hint : item.isInt = false) (hname : item.isName = false) :
    offsetAfter start (item :: rest) = offsetAfter start rest := by
  cases item with
  | integer value => simp [Object.isInt] at hint
  | name data => simp [Object.isName] at hname
  | _ => rfl

theorem readDifferences_error (resolve : String → Nat) (items : List Object) :
    ∀ (currentOffset : Nat) (differences : Nat → Nat) (e : CreateFontError),
      readDifferences resolve items currentOffset differences = Except.error e →
      e = CreateFontError.invalidDifferences ∧
      ∃ front item back, items = front ++ item :: back ∧
        ((item.isInt = false ∧ item.isName = false) ∨
          (item.isName = true ∧ 256 ≤ offsetAfter currentOffset front)) := by
  induction items with
  | nil =>
    intro currentOffset differences e h
    simp [readDifferences, pure, Except.pure] at h
  | cons item rest ih =>
    intro currentOffset differences e h
    by_cases hint : item.isInt = true
    · cases item with
      | integer value =>
        rw [readDifferences_integer] at h
        obtain ⟨he, front, item, back, hitems, hfault⟩ := ih _ _ e h
        exact ⟨he, Object.integer value :: front, item, back, by rw [hitems]; rfl,
          by simpa [offsetAfter] using hfault⟩
      | _ => simp [Object.isInt] at hint
    · by_cases hname : item.isName = true
      · cases item with
        | name data =>
          rw [readDifferences_name] at h
          by_cases hoff : currentOffset ≥ 256
          · rw [if_pos hoff] at h
            simp only [Except.error.injEq] at h
            exact ⟨h.symm, [], Object.name data, rest, rfl, Or.inr ⟨rfl, hoff⟩⟩
          · rw [if_neg hoff] at h
            obtain ⟨he, front, item, back, hitems, hfault⟩ := ih _ _ e h
            exact ⟨he, Object.name data :: front, item, back, by rw [hitems]; rfl,
              by simpa [offsetAfter] using hfault⟩
        | _ => simp [Object.isName] at hname
      · have hint2 : item.isInt = false := by simpa using hint
        have hname2 : item.isName = false := by simpa using hname
        rw [readDifferences_other resolve item rest _ _ hint2 hname2] at h
        simp only [Except.error.injEq] at h
        exact ⟨h.symm, [], item, rest, rfl, Or.inl ⟨hint2, hname2⟩⟩

theorem readDifferences_fails (resolve : String → Nat) (items : List Object) :
    ∀ (currentOffset : Nat) (differences : Nat → Nat),
      (∃ front item back, items = front ++ item :: back ∧
        ((item.isInt = false ∧ item.isName = false) ∨
          (item.isName = true ∧ 256 ≤ offsetAfter currentOffset front))) →
      readDifferences resolve items currentOffset differences =
        Except.error CreateFontError.invalidDifferences := by
  induction items with
  | nil =>
    intro currentOffset differences h
    obtain ⟨front, item, back, hitems, _⟩ := h
    simp at hitems
  | cons head rest ih =>
    intro currentOffset differences h
    obtain ⟨front, item, back, hitems, hfault⟩ := h
    by_cases hint : head.isInt = true
    · cases head with
      | integer value =>
        rw [readDifferences_integer]
        apply ih
        cases front with
        | nil =>
          simp only [List.nil_append, List.cons.injEq] at hitems
          rcases hfault with ⟨h1, _⟩ | ⟨h1, _⟩
          · rw [← hitems.1] at h1; simp [Object.isInt] at h1
          · rw [← hitems.1] at h1; simp [Object.isName] at h1
        | cons x front' =>
          simp only [List.cons_append, List.cons.injEq] at hitems
          refine ⟨front', item, back, hitems.2, ?_⟩
          rw [← hitems.1] at hfault
          simpa [offsetAfter] using hfault
      | _ => simp [Object.isInt] at hint
    · by_cases hname : head.isName = true
      · cases head with
        | name data =>
          rw [readDifferences_name]
          by_cases hoff : currentOffset ≥ 256
          · rw [if_pos hoff]
          · rw [if_neg hoff]
            apply ih
            cases front with
            | nil =>
              simp only [List.nil_append, List.cons.injEq] at hitems
              rcases hfault with ⟨_, h2⟩ | ⟨_, h2⟩
              · rw [← hitems.1] at h2; simp [Object.isName] at h2
              · exact absurd h2 hoff
            | cons x front' =>
              simp only [List.cons_append, List.cons.injEq] at hitems
              refine ⟨front', item, back, hitems.2, ?_⟩
              rw [← hitems.1] at hfault
              simpa [offsetAfter] using hfault
        | _ => simp [Object.isName] at hname
      · have hint2 : head.isInt = false := by simpa using hint
        have hname2 : head.isName = false := by simpa using hname
        exact readDifferences_other resolve head rest _ _ hint2 hname2

theorem readDifferences_integers (resolve : String → Nat) (items : List Object)
    (hitems : ∀ item ∈ items, item.isInt = true) :
    ∀ (currentOffset : Nat) (differences : Nat → Nat),
      readDifferences resolve items currentOffset differences = Except.ok differences := by
  induction items with
  | nil => intro currentOffset differences; rfl
  | cons item rest ih =>
    intro currentOffset differences
    cases item with
    | integer value =>
      rw [readDifferences_integer]
      exact ih (fun x hx => hitems x (List.mem_cons_of_mem _ hx)) _ _
    | _ =>
      have h := hitems _ (List.mem_cons_self _ _)
      simp [Object.isInt] at h

theorem readDifferences_append (resolve : String → Nat) (front rest : List Object) :
    ∀ (currentOffset : Nat) (differences table : Nat → Nat),
      readDifferences resolve front currentOffset differences = Except.ok table →
      readDifferences resolve (front ++ rest) currentOffset differences =
        readDifferences resolve rest (offsetAfter currentOffset front) table := by
  induction front with
  | nil =>
    intro currentOffset differences table h
    simp only [readDifferences, pure, Except.pure, Except.ok.injEq] at h
    rw [h]
    rfl
  | cons item front ih =>
    intro currentOffset differences table h
    by_cases hint : item.isInt = true
    · cases item with
      | integer value =>
        rw [readDifferences_integer] at h
        rw [List.cons_append, readDifferences_integer, ih _ _ _ h]
        rfl
      | _ => simp [Object.isInt] at hint
    · by_cases hname : item.isName = true
      · cases item with
        | name data =>
          rw [readDifferences_name] at h
          rw [List.cons_append, readDifferences_name]
          by_cases hoff : currentOffset ≥ 256
          · rw [if_pos hoff] at h
            simp at h
          · rw [if_neg hoff] at h
            rw [if_neg hoff, ih _ _ _ h]
            rfl
        | _ => simp [Object.isName] at hname
      · have hint2 : item.isInt = false := by simpa using hint
        have hname2 : item.isName = false := by simpa using hname
        rw [readDifferences_other resolve item front _ _ hint2 hname2] at h
        simp at h

theorem readDifferences_names (resolve : String → Nat) (names : List String) :
    ∀ (currentOffset : Nat) (differences : Nat → Nat),
      currentOffset + names.length ≤ 256 →
      ∃ table, readDifferences resolve (names.map Object.name) currentOffset differences =
          Except.ok table ∧
        (∀ j (hj : j < names.length), table (currentOffset + j) = resolve (names.get ⟨j, hj⟩)) ∧
        (∀ c, (c < currentOffset ∨ currentOffset + names.length ≤ c) →
          table c = differences c) := by
  induction names with
  | nil =>
    intro currentOffset differences _
    exact ⟨differences, rfl, fun j hj => absurd hj (by simp), fun c _ => rfl⟩
  | cons name names ih =>
    intro currentOffset differences hlen
    rw [List.length_cons] at hlen
    obtain ⟨table, hread, hin, hout⟩ := ih (currentOffset + 1)
      (Function.update differences currentOffset (resolve name)) (by omega)
    refine ⟨table, ?_, ?_, ?_⟩
    · rw [List.map_cons, readDifferences_name, if_neg (by omega)]
      exact hread
    · intro j hj
      cases j with
      | zero =>
        rw [Nat.add_zero, hout currentOffset (Or.inl (by omega)), Function.update_same]
        rfl
      | succ j =>
        have h := hin j (by simpa using hj)
        rw [show currentOffset + (j + 1) = currentOffset + 1 + j by omega, h]
        rfl
    · intro c hc
      rw [List.length_cons] at hc
      rw [hout c (by omega), Function.update_noteq (by omega)]

/-! ## Lemmas on createFont for simple fonts -/

theorem createFont_simple (env : FontEnvironment) (fontDictionary : List (String × Object))
    (hsimple : fontTypeOf fontDictionary = FontType.Type1 ∨
      fontTypeOf fontDictionary = FontType.TrueType) :
    createFont env (Object.dictionary fontDictionary) =
      match readSimpleFont env (standardFontOf fontDictionary)
          (fontDescriptorOf fontDictionary) fontDictionary with
      | none => none
      | some (Except.error e) => some (Except.error e)
      | some (Except.ok state) =>
        some (Except.ok (CreatedFont.simple (fontTypeOf fontDictionary) state.encoding
          (standardFontOf fontDictionary) (simpleFontOf fontDictionary state))) := by
  unfold createFont
  simp only []
  rcases hsimple with h | h
  · have hl : readEnumByName (PDFDictionary.get fontDictionary "Subtype") fontTypes
        FontType.Invalid = FontType.Type1 := h
    rw [h, hl]
    rfl
  · have hl : readEnumByName (PDFDictionary.get fontDictionary "Subtype") fontTypes
        FontType.Invalid = FontType.TrueType := h
    rw [h, hl]
    rfl

theorem getEmbeddedFontData_of_embedded (descriptor : FontDescriptor)
    (h : descriptor.isEmbedded = true) :
    ∃ data, descriptor.getEmbeddedFontData = some data ∧ data ≠ [] := by
  unfold FontDescriptor.isEmbedded at h
  unfold FontDescriptor.getEmbeddedFontData
  by_cases h1 : descriptor.fontFile = []
  · by_cases h2 : descriptor.fontFile2 = []
    · by_cases h3 : descriptor.fontFile3 = []
      · simp [h1, h2, h3] at h
      · exact ⟨descriptor.fontFile3, by simp [h1, h2, h3], h3⟩
    · exact ⟨descriptor.fontFile2, by simp [h1, h2], h2⟩
  · exact ⟨descriptor.fontFile, by simp [h1], h1⟩

theorem readSimpleFont_not_embedded (env : FontEnvironment) (standardFont : StandardFontType)
    (fontDescriptor : FontDescriptor) (fontDictionary : List (String × Object))
    (hnot : fontDescriptor.isEmbedded = false) :
    readSimpleFont env standardFont fontDescriptor fontDictionary =
      match readEncoding env standardFont fontDictionary with
      | Except.error e => some (Except.error e)
      | Except.ok declared =>
        match selectEncoding env standardFont declared.encoding with
        | Except.error e => some (Except.error e)
        | Except.ok encoding =>
          some (Except.ok (finishFont env declared
            { encoding := encoding,
              simpleFontEncodingTable := env.getTableForEncoding encoding,
              glyphIndexArray := fun _ => 0 })) := by
  unfold readSimpleFont
  cases readEncoding env standardFont fontDictionary with
  | error e => rfl
  | ok declared =>
    simp only []
    cases selectEncoding env standardFont declared.encoding with
    | error e => rfl
    | ok encoding =>
      simp only [hnot]
      rfl

/-! ## C23: completeness of encoding resolution -/

theorem finishFont_null (env : FontEnvironment) (declared : DeclaredEncoding)
    (state : SimpleFontState) (c : Nat) (hc : c < 256)
    (hnull : (finishFont env declared state).simpleFontEncodingTable c = nullCharacter) :
    state.simpleFontEncodingTable c = nullCharacter ∧
    ¬ (declared.hasDifferences = true ∧ declared.differences c ≠ nullCharacter) ∧
    ¬ usable (env.getTableForEncoding Encoding.Standard c) := by
  rw [finishFont_table env declared state c hc] at hnull
  by_cases hcond : (mergedCharacter declared state.simpleFontEncodingTable c = nullCharacter ∨
      mergedCharacter declared state.simpleFontEncodingTable c = replacementCharacter) ∧
      usable (env.getTableForEncoding Encoding.Standard c)
  · rw [if_pos hcond] at hnull
    exact absurd hnull hcond.2.1
  · rw [if_neg hcond] at hnull
    have hstd : ¬ usable (env.getTableForEncoding Encoding.Standard c) :=
      fun h => hcond ⟨Or.inl hnull, h⟩
    unfold mergedCharacter at hnull
    by_cases hd : declared.hasDifferences = true ∧ declared.differences c ≠ nullCharacter
    · rw [if_pos hd] at hnull
      exact absurd hnull hd.2
    · rw [if_neg hd] at hnull
      exact ⟨hnull, hd, hstd⟩

/-- C23. Completeness of encoding resolution for a non-embedded simple font. When
`createFont` returns a Type1/TrueType font without embedded program, the Encoding entry was
read into a declared encoding (`declared`, with the table of the Differences) and a base
encoding was selected (`encoding`), and for every code `c` in 0..255: if the final
code-to-character table has the null character at `c`, then the base table has the null
character at `c`, the Differences gave `c` no non-null character, and the standard table has
no usable character at `c` (null or replacement); so every code for which the base table,
the Differences or the standard table offers a usable character ends up non-null. -/
theorem encoding_resolution_is_complete (env : FontEnvironment)
    (fontDictionary : List (String × Object)) (encodingType : Encoding) (font : PDFSimpleFont)
    (hsimple : fontTypeOf fontDictionary = FontType.Type1 ∨
      fontTypeOf fontDictionary = FontType.TrueType)
    (hnot : (fontDescriptorOf fontDictionary).isEmbedded = false)
    (hfont : createFont env (Object.dictionary fontDictionary) =
      some (Except.ok (CreatedFont.simple (fontTypeOf fontDictionary) encodingType
        (standardFontOf fontDictionary) font))) :
    ∃ declared encoding,
      readEncoding env (standardFontOf fontDictionary) fontDictionary = Except.ok declared ∧
      selectEncoding env (standardFontOf fontDictionary) declared.encoding =
        Except.ok encoding ∧
      ∀ c, c < 256 →
        (font.m_encoding c = nullCharacter →
          env.getTableForEncoding encoding c = nullCharacter ∧
          ¬ (declared.hasDifferences = true ∧ declared.differences c ≠ nullCharacter) ∧
          ¬ usable (env.getTableForEncoding Encoding.Standard c)) ∧
        ((usable (env.getTableForEncoding encoding c) ∨
            (declared.hasDifferences = true ∧ usable (declared.differences c)) ∨
            usable (env.getTableForEncoding Encoding.Standard c)) →
          font.m_encoding c ≠ nullCharacter) := by
  rw [createFont_simple env fontDictionary hsimple,
    readSimpleFont_not_embedded env _ _ fontDictionary hnot] at hfont
  cases hread : readEncoding env (standardFontOf fontDictionary) fontDictionary with
  | error e =>
    rw [hread] at hfont
    simp at hfont
  | ok declared =>
    rw [hread] at hfont
    simp only [] at hfont
    cases hselect : selectEncoding env (standardFontOf fontDictionary) declared.encoding with
    | error e =>
      rw [hselect] at hfont
      simp at hfont
    | ok encoding =>
      rw [hselect] at hfont
      simp only [Option.some.injEq, Except.ok.injEq, CreatedFont.simple.injEq, true_and] at hfont
      obtain ⟨_, hfontEq⟩ := hfont
      refine ⟨declared, encoding, rfl, hselect, ?_⟩
      intro c hc
      have htable : font.m_encoding c =
          (finishFont env declared
            { encoding := encoding,
              simpleFontEncodingTable := env.getTableForEncoding encoding,
              glyphIndexArray := fun _ => 0 }).simpleFontEncodingTable c := by
        rw [← hfontEq]
        rfl
      have hnull : font.m_encoding c = nullCharacter →
          env.getTableForEncoding encoding c = nullCharacter ∧
          ¬ (declared.hasDifferences = true ∧ declared.differences c ≠ nullCharacter) ∧
          ¬ usable (env.getTableForEncoding Encoding.Standard c) := by
        intro h
        rw [htable] at h
        exact finishFont_null env declared _ c hc h
      refine ⟨hnull, ?_⟩
      intro hoffer hzero
      obtain ⟨hbase, hdiff, hstd⟩ := hnull hzero
      rcases hoffer with h | h | h
      · exact h.1 hbase
      · exact hdiff ⟨h.1, h.2.1⟩
      · exact hstd h

theorem sampleType1Font_created :
    createFont sampleEnvironment (Object.dictionary sampleType1Font) =
      some (Except.ok (CreatedFont.simple (fontTypeOf sampleType1Font) Encoding.Custom
        (standardFontOf sampleType1Font)
        (simpleFontOf sampleType1Font
          (finishFont sampleEnvironment sampleDeclared sampleState)))) := by
  rw [createFont_simple sampleEnvironment sampleType1Font (Or.inl rfl),
    readSimpleFont_not_embedded sampleEnvironment (standardFontOf sampleType1Font)
      (fontDescriptorOf sampleType1Font) sampleType1Font rfl]
  rfl

/-- C23 on the font `sampleType1Font` (Type1, not embedded, Differences `[65 /B]`): the
standard table of the sample environment has the character `B` at code 66, so the final
table is not null there. -/
theorem encoding_resolution_is_complete_witness :
    (fontDescriptorOf sampleType1Font).isEmbedded = false ∧
    (simpleFontOf sampleType1Font
      (finishFont sampleEnvironment sampleDeclared sampleState)).m_encoding 66 ≠
        nullCharacter := by
  obtain ⟨declared, encoding, _, _, h⟩ := encoding_resolution_is_complete sampleEnvironment
    sampleType1Font Encoding.Custom
    (simpleFontOf sampleType1Font (finishFont sampleEnvironment sampleDeclared sampleState))
    (Or.inl rfl) rfl sampleType1Font_created
  exact ⟨rfl, (h 66 (by decide)).2 (Or.inr (Or.inr ⟨by decide, by decide⟩))⟩

/-! ## C22: Differences and an embedded program that cannot be loaded -/

theorem readEmbeddedFont_unreadable (env : FontEnvironment) (declared : DeclaredEncoding)
    (embeddedFontData : List Nat) (state : SimpleFontState)
    (h : env.initFreeType = false ∨ env.newMemoryFace embeddedFontData = none) :
    readEmbeddedFont env declared embeddedFontData state = state := by
  unfold readEmbeddedFont
  rcases h with h | h
  · rw [h]
    rfl
  · rw [h]
    cases env.initFreeType <;> rfl

/-- C22 (the code departs from the claim). The Differences `[65 /B]` of `sampleEmbeddedFont`
assign the name `B`, which resolves to the character 66, to the code 65. The font has an
embedded program that FreeType cannot load; `createFont` returns a font all the same, but
`finishFont` is called only inside the branch of a loaded face: the returned font has the
encoding kind `Standard`, not `Custom`, and the character 65 of the base table at code 65.
This holds for every font whose program cannot be loaded (FreeType not initialised, or no
face): the table and the encoding stay as they were before the embedded branch. The same
font without embedded program (`sampleType1Font`) gets the character 66 at code 65 and the
kind `Custom`. -/
theorem differences_dropped_for_unreadable_program :
    createFont sampleEnvironment (Object.dictionary sampleEmbeddedFont) =
      some (Except.ok (CreatedFont.simple FontType.Type1 Encoding.Standard
        StandardFontType.Invalid (simpleFontOf sampleEmbeddedFont sampleState))) ∧
    readEncoding sampleEnvironment StandardFontType.Invalid sampleEmbeddedFont =
      Except.ok sampleDeclared ∧
    sampleDeclared.hasDifferences = true ∧ sampleDeclared.differences 65 = 66 ∧
    (simpleFontOf sampleEmbeddedFont sampleState).m_encoding 65 = 65 ∧
    (∀ (env : FontEnvironment) (declared : DeclaredEncoding) (data : List Nat)
        (state : SimpleFontState),
      readEmbeddedFont { env with initFreeType := false } declared data state = state ∧
      readEmbeddedFont { env with newMemoryFace := fun _ => none } declared data state =
        state) ∧
    createFont sampleEnvironment (Object.dictionary sampleType1Font) =
      some (Except.ok (CreatedFont.simple FontType.Type1 Encoding.Custom
        StandardFontType.Invalid
        (simpleFontOf sampleType1Font
          (finishFont sampleEnvironment sampleDeclared sampleState)))) ∧
    (simpleFontOf sampleType1Font
      (finishFont sampleEnvironment sampleDeclared sampleState)).m_encoding 65 = 66 := by
  refine ⟨?_, rfl, rfl, ?_, ?_, ?_, sampleType1Font_created, ?_⟩
  · rw [createFont_simple sampleEnvironment sampleEmbeddedFont (Or.inl rfl)]
    rfl
  · show Function.update (fun _ => nullCharacter) 65 66 65 = 66
    rw [Function.update_same]
  · decide
  · intro env declared data state
    exact ⟨readEmbeddedFont_unreadable _ declared data state (Or.inl rfl),
      readEmbeddedFont_unreadable _ declared data state (Or.inr rfl)⟩
  · show (finishFont sampleEnvironment sampleDeclared sampleState).simpleFontEncodingTable 65
      = 66
    rw [finishFont_differences sampleEnvironment sampleDeclared sampleState 65 (by decide) rfl]
    · show Function.update (fun _ => nullCharacter) 65 66 65 = 66
      rw [Function.update_same]
    · have h : sampleDeclared.differences 65 = 66 := by
        show Function.update (fun _ => nullCharacter) 65 66 65 = 66
        rw [Function.update_same]
      unfold usable
      rw [h]
      decide

/-! ## C24, C25: the default encoding -/

theorem selectEncoding_default (env : FontEnvironment) :
    selectEncoding env StandardFontType.Invalid Encoding.Invalid =
      Except.ok Encoding.Standard := rfl

theorem readEncoding_absent (env : FontEnvironment) (standardFont : StandardFontType)
    (fontDictionary : List (String × Object))
    (habsent : PDFDictionary.hasKey fontDictionary "Encoding" = false) :
    readEncoding env standardFont fontDictionary = Except.ok noDeclaredEncoding := by
  unfold readEncoding
  rw [habsent]
  rfl

theorem finishFont_standard (env : FontEnvironment) (c : Nat) (hc : c < 256) :
    (finishFont env noDeclaredEncoding
      { encoding := Encoding.Standard,
        simpleFontEncodingTable := env.getTableForEncoding Encoding.Standard,
        glyphIndexArray := fun _ => 0 }).simpleFontEncodingTable c =
      env.getTableForEncoding Encoding.Standard c := by
  rw [finishFont_table env _ _ c hc]
  have hm : mergedCharacter noDeclaredEncoding (env.getTableForEncoding Encoding.Standard) c =
      env.getTableForEncoding Encoding.Standard c := by
    unfold mergedCharacter
    rw [if_neg (by rintro ⟨h, _⟩; exact absurd h (by decide))]
  show (if (mergedCharacter noDeclaredEncoding (env.getTableForEncoding Encoding.Standard) c =
        nullCharacter ∨
      mergedCharacter noDeclaredEncoding (env.getTableForEncoding Encoding.Standard) c =
        replacementCharacter) ∧ usable (env.getTableForEncoding Encoding.Standard c) then
      env.getTableForEncoding Encoding.Standard c
    else mergedCharacter noDeclaredEncoding (env.getTableForEncoding Encoding.Standard) c) = _
  rw [hm]
  by_cases h : (env.getTableForEncoding Encoding.Standard c = nullCharacter ∨
      env.getTableForEncoding Encoding.Standard c = replacementCharacter) ∧
      usable (env.getTableForEncoding Encoding.Standard c)
  · rw [if_pos h]
  · rw [if_neg h]

/-- C24 (the code departs from the claim). `createFont` never looks at the font type when it
selects the base encoding: without a usable Encoding entry the encoding is the one of
`getEncodingForStandardFont(standardFont)`, for TrueType as for Type1, and for a base font
that is not a standard font this is the standard encoding. The TrueType font
`sampleTrueTypeFont` (no Encoding, base font Arial) is built on the standard table: its kind
is `Standard` and its table has the null character at code 128, where the Windows-ANSI table
has the Euro sign; the Type1 font `samplePlainType1Font` gets the same table. -/
theorem truetype_default_is_standard_encoding :
    (∀ env : FontEnvironment,
      selectEncoding env StandardFontType.Invalid Encoding.Invalid =
        Except.ok Encoding.Standard) ∧
    readEncoding sampleEnvironment (standardFontOf sampleTrueTypeFont) sampleTrueTypeFont =
      Except.ok noDeclaredEncoding ∧
    standardFontOf sampleTrueTypeFont = StandardFontType.Invalid ∧
    createFont sampleEnvironment (Object.dictionary sampleTrueTypeFont) =
      some (Except.ok (CreatedFont.simple FontType.TrueType Encoding.Standard
        StandardFontType.Invalid
        (simpleFontOf sampleTrueTypeFont
          (finishFont sampleEnvironment noDeclaredEncoding sampleState)))) ∧
    (simpleFontOf sampleTrueTypeFont
      (finishFont sampleEnvironment noDeclaredEncoding sampleState)).m_encoding 128 =
        nullCharacter ∧
    sampleEnvironment.getTableForEncoding Encoding.WinAnsi 128 = 8364 ∧
    createFont sampleEnvironment (Object.dictionary samplePlainType1Font) =
      some (Except.ok (CreatedFont.simple FontType.Type1 Encoding.Standard
        StandardFontType.Invalid
        (simpleFontOf samplePlainType1Font
          (finishFont sampleEnvironment noDeclaredEncoding sampleState)))) := by
  refine ⟨fun env => selectEncoding_default env, rfl, rfl, ?_, ?_, by decide, ?_⟩
  · rw [createFont_simple sampleEnvironment sampleTrueTypeFont (Or.inr rfl),
      readSimpleFont_not_embedded sampleEnvironment (standardFontOf sampleTrueTypeFont)
        (fontDescriptorOf sampleTrueTypeFont) sampleTrueTypeFont rfl]
    rfl
  · show (finishFont sampleEnvironment noDeclaredEncoding sampleState).simpleFontEncodingTable
      128 = nullCharacter
    unfold sampleState
    rw [finishFont_standard sampleEnvironment 128 (by decide)]
    decide
  · rw [createFont_simple sampleEnvironment samplePlainType1Font (Or.inl rfl),
      readSimpleFont_not_embedded sampleEnvironment (standardFontOf samplePlainType1Font)
        (fontDescriptorOf samplePlainType1Font) samplePlainType1Font rfl]
    rfl

/-- C25 as stated fails: the Type1 font `samplePlainType1Font` declares no Encoding and its
base font, Arial, is not a standard font, yet `createFont` returns a font, built on the
standard encoding. -/
theorem no_encoding_counterexample :
    PDFDictionary.hasKey samplePlainType1Font "Encoding" = false ∧
    standardFontOf samplePlainType1Font = StandardFontType.Invalid ∧
    createFont sampleEnvironment (Object.dictionary samplePlainType1Font) =
      some (Except.ok (CreatedFont.simple FontType.Type1 Encoding.Standard
        StandardFontType.Invalid
        (simpleFontOf samplePlainType1Font
          (finishFont sampleEnvironment noDeclaredEncoding sampleState)))) := by
  refine ⟨rfl, rfl, ?_⟩
  rw [createFont_simple sampleEnvironment samplePlainType1Font (Or.inl rfl),
    readSimpleFont_not_embedded sampleEnvironment (standardFontOf samplePlainType1Font)
      (fontDescriptorOf samplePlainType1Font) samplePlainType1Font rfl]
  rfl

/-- C25, amended. For a simple font (Type1 or TrueType) whose dictionary declares no Encoding
and whose base font is not a standard font, `createFont` does not fail: it returns a font;
for a Type1 font without embedded program the font is built on the standard encoding, with
the encoding kind `Standard` and the standard table. Nothing is said here about the table of
a TrueType font or of a font with an embedded program. Without an Encoding entry the
exception of the validity test is thrown when `getEncodingForStandardFont` gives the
invalid encoding, which it does not for a font that is no standard font; the
invalid-encoding exception is also thrown for an Encoding entry that is neither a name nor
a dictionary. -/
theorem no_encoding_defaults_to_standard (env : FontEnvironment)
    (fontDictionary : List (String × Object))
    (hsimple : fontTypeOf fontDictionary = FontType.Type1 ∨
      fontTypeOf fontDictionary = FontType.TrueType) :
    (PDFDictionary.hasKey fontDictionary "Encoding" = false →
      standardFontOf fontDictionary = StandardFontType.Invalid →
      ∃ encodingType font,
        createFont env (Object.dictionary fontDictionary) =
          some (Except.ok (CreatedFont.simple (fontTypeOf fontDictionary) encodingType
            StandardFontType.Invalid font)) ∧
        (fontTypeOf fontDictionary = FontType.Type1 →
          (fontDescriptorOf fontDictionary).isEmbedded = false →
          encodingType = Encoding.Standard ∧
          ∀ c, c < 256 → font.m_encoding c = env.getTableForEncoding Encoding.Standard c)) ∧
    (PDFDictionary.hasKey fontDictionary "Encoding" = false →
      getEncodingForStandardFont env (standardFontOf fontDictionary) = Encoding.Invalid →
      createFont env (Object.dictionary fontDictionary) =
        some (Except.error CreateFontError.invalidEncodingEntry)) ∧
    (PDFDictionary.hasKey fontDictionary "Encoding" = true →
      (PDFDictionary.get fontDictionary "Encoding").isName = false →
      (PDFDictionary.get fontDictionary "Encoding").isDictionary = false →
      createFont env (Object.dictionary fontDictionary) =
        some (Except.error CreateFontError.invalidEncodingEntry)) := by
  refine ⟨?_, ?_, ?_⟩
  · intro habsent hstandard
    rw [createFont_simple env fontDictionary hsimple, hstandard]
    by_cases hemb : (fontDescriptorOf fontDictionary).isEmbedded = true
    · obtain ⟨data, hdata, _⟩ := getEmbeddedFontData_of_embedded _ hemb
      unfold readSimpleFont
      rw [readEncoding_absent env _ fontDictionary habsent]
      simp only []
      rw [show noDeclaredEncoding.encoding = Encoding.Invalid from rfl, selectEncoding_default]
      simp only [hemb, if_true, hdata]
      exact ⟨_, _, rfl, fun _ h => absurd h (by simp)⟩
    · have hnot : (fontDescriptorOf fontDictionary).isEmbedded = false := by
        simpa using hemb
      rw [readSimpleFont_not_embedded env _ _ fontDictionary hnot,
        readEncoding_absent env _ fontDictionary habsent]
      simp only []
      rw [show noDeclaredEncoding.encoding = Encoding.Invalid from rfl, selectEncoding_default]
      refine ⟨_, _, rfl, fun _ _ => ⟨?_, ?_⟩⟩
      · rw [finishFont_encoding]
        rfl
      · intro c hc
        exact finishFont_standard env c hc
  · intro habsent hinvalid
    rw [createFont_simple env fontDictionary hsimple]
    have hselect : selectEncoding env (standardFontOf fontDictionary)
        noDeclaredEncoding.encoding =
        Except.error CreateFontError.invalidEncodingEntry := by
      unfold selectEncoding
      simp only [show noDeclaredEncoding.encoding = Encoding.Invalid from rfl, if_true, hinvalid]
      rfl
    unfold readSimpleFont
    rw [readEncoding_absent env _ fontDictionary habsent]
    simp only []
    rw [hselect]
  · intro hkey hname hdict
    rw [createFont_simple env fontDictionary hsimple]
    have hread : readEncoding env (standardFontOf fontDictionary) fontDictionary =
        Except.error CreateFontError.invalidEncodingEntry := by
      unfold readEncoding
      rw [hkey]
      cases hobj : PDFDictionary.get fontDictionary "Encoding" with
      | name data => rw [hobj] at hname; simp [Object.isName] at hname
      | dictionary entries => rw [hobj] at hdict; simp [Object.isDictionary] at hdict
      | _ => rfl
    unfold readSimpleFont
    rw [hread]

/-- C25, amended, on `samplePlainType1Font` (Type1, no Encoding, base font Arial, no embedded
program): a font is returned, with the encoding kind `Standard`. -/
theorem no_encoding_defaults_to_standard_witness :
    fontTypeOf samplePlainType1Font = FontType.Type1 ∧
    PDFDictionary.hasKey samplePlainType1Font "Encoding" = false ∧
    standardFontOf samplePlainType1Font = StandardFontType.Invalid ∧
    (fontDescriptorOf samplePlainType1Font).isEmbedded = false ∧
    ∃ encodingType font,
      createFont sampleEnvironment (Object.dictionary samplePlainType1Font) =
        some (Except.ok (CreatedFont.simple FontType.Type1 encodingType
          StandardFontType.Invalid font)) ∧
      encodingType = Encoding.Standard := by
  obtain ⟨encodingType, font, h, h2⟩ :=
    (no_encoding_defaults_to_standard sampleEnvironment samplePlainType1Font
      (Or.inl rfl)).1 rfl rfl
  exact ⟨rfl, rfl, rfl, rfl, encodingType, font, h, (h2 rfl rfl).1⟩

/-! ## C26: invalid Differences -/

theorem readEncoding_differences (env : FontEnvironment) (standardFont : StandardFontType)
    (fontDictionary encodingDictionary : List (String × Object))
    (hencoding : fontDictionary.lookup "Encoding" =
      some (Object.dictionary encodingDictionary))
    (hdifferences : PDFDictionary.hasKey encodingDictionary "Differences" = true) :
    readEncoding env standardFont fontDictionary =
      match PDFDictionary.get encodingDictionary "Differences" with
      | Object.array items =>
        (readDifferences env.getUnicodeUsingResolvedName items 0 (fun _ => nullCharacter)).map
          (fun differences =>
            { encoding :=
                if PDFDictionary.hasKey encodingDictionary "BaseEncoding" then
                  readEnumByName (PDFDictionary.get encodingDictionary "BaseEncoding")
                    encodings Encoding.Invalid
                else getEncodingForStandardFont env standardFont,
              hasDifferences := true, differences := differences })
      | _ => Except.error CreateFontError.invalidDifferences := by
  have hkey : PDFDictionary.hasKey fontDictionary "Encoding" = true := by
    unfold PDFDictionary.hasKey
    rw [hencoding]
    rfl
  have hget : PDFDictionary.get fontDictionary "Encoding" =
      Object.dictionary encodingDictionary := by
    unfold PDFDictionary.get
    rw [hencoding]
    rfl
  unfold readEncoding
  rw [hkey, hget]
  simp only [if_true, hdifferences]
  cases PDFDictionary.get encodingDictionary "Differences" with
  | array items =>
    simp only []
    cases readDifferences env.getUnicodeUsingResolvedName items 0 (fun _ => nullCharacter) <;>
      rfl
  | _ => rfl

theorem selectEncoding_error (env : FontEnvironment) (standardFont : StandardFontType)
    (encoding : Encoding) (e : CreateFontError)
    (h : selectEncoding env standardFont encoding = Except.error e) :
    e = CreateFontError.invalidEncodingEntry := by
  unfold selectEncoding at h
  simp only [] at h
  split at h
  · split at h
    · simp only [throw, throwThe, MonadExceptOf.throw, Except.error.injEq] at h
      exact h.symm
    · simp [pure, Except.pure] at h
  · simp [pure, Except.pure] at h

theorem readSimpleFont_error (env : FontEnvironment) (standardFont : StandardFontType)
    (fontDescriptor : FontDescriptor) (fontDictionary : List (String × Object)) :
    readSimpleFont env standardFont fontDescriptor fontDictionary =
        some (Except.error CreateFontError.invalidDifferences) ↔
      readEncoding env standardFont fontDictionary =
        Except.error CreateFontError.invalidDifferences := by
  unfold readSimpleFont
  cases hread : readEncoding env standardFont fontDictionary with
  | error e => simp
  | ok declared =>
    simp only []
    cases hselect : selectEncoding env standardFont declared.encoding with
    | error e =>
      have he := selectEncoding_error env standardFont declared.encoding e hselect
      simp [he]
    | ok encoding =>
      simp only []
      split
      · split <;> simp
      · simp

/-- C26. Invalid Differences list is fatal. For a simple font whose Encoding is a dictionary
with a Differences entry, `createFont` fails with the invalid-differences exception if and
only if the Differences object is not an array, or an item of the array is neither an
integer nor a name, or a name item occurs while the current offset (set by the last integer
item, converted to `size_t`, and advanced by each name) is not below 256 - so a name that
follows a negative integer or an integer above 255 makes the array invalid. An array of
integers alone is read without failure, whatever the integers. -/
theorem invalid_differences_iff (env : FontEnvironment)
    (fontDictionary encodingDictionary : List (String × Object))
    (hsimple : fontTypeOf fontDictionary = FontType.Type1 ∨
      fontTypeOf fontDictionary = FontType.TrueType)
    (hencoding : fontDictionary.lookup "Encoding" =
      some (Object.dictionary encodingDictionary))
    (hdifferences : PDFDictionary.hasKey encodingDictionary "Differences" = true) :
    (createFont env (Object.dictionary fontDictionary) =
        some (Except.error CreateFontError.invalidDifferences) ↔
      ((PDFDictionary.get encodingDictionary "Differences").isArray = false ∨
        ∃ items, PDFDictionary.get encodingDictionary "Differences" = Object.array items ∧
          invalidDifferences 256 items)) ∧
    (∀ (n : Int) (data : String) (rest : List Object), n < 0 ∨ 255 < n →
      -9223372036854775808 ≤ n → n < 9223372036854775808 →
      invalidDifferences 256 (Object.integer n :: Object.name data :: rest)) ∧
    (∀ items : List Object, (∀ item ∈ items, item.isInt = true) →
      ¬ invalidDifferences 256 items ∧
      readDifferences env.getUnicodeUsingResolvedName items 0 (fun _ => nullCharacter) =
        Except.ok (fun _ => nullCharacter)) := by
  refine ⟨?_, ?_, ?_⟩
  rotate_left
  · intro n data rest hn hlow hhigh
    refine ⟨[Object.integer n], Object.name data, rest, rfl, Or.inr ⟨rfl, ?_⟩⟩
    show 256 ≤ (n % 18446744073709551616).toNat
    omega
  rotate_left
  · have hcreate : createFont env (Object.dictionary fontDictionary) =
          some (Except.error CreateFontError.invalidDifferences) ↔
        readEncoding env (standardFontOf fontDictionary) fontDictionary =
          Except.error CreateFontError.invalidDifferences := by
      rw [createFont_simple env fontDictionary hsimple, ← readSimpleFont_error env
        (standardFontOf fontDictionary) (fontDescriptorOf fontDictionary) fontDictionary]
      cases readSimpleFont env (standardFontOf fontDictionary)
          (fontDescriptorOf fontDictionary) fontDictionary with
      | none => simp
      | some outcome =>
        cases outcome with
        | error e => simp
        | ok state => simp
    rw [hcreate, readEncoding_differences env _ fontDictionary encodingDictionary hencoding
      hdifferences]
    cases hobj : PDFDictionary.get encodingDictionary "Differences" with
    | array items =>
      simp only [Object.isArray, Bool.true_eq_false, false_or, Object.array.injEq,
        exists_eq_left']
      cases hread : readDifferences env.getUnicodeUsingResolvedName items 0
          (fun _ => nullCharacter) with
      | error e =>
        obtain ⟨he, hfault⟩ := readDifferences_error _ items 0 _ e hread
        rw [he]
        simp only [Except.map, true_iff]
        exact hfault
      | ok table =>
        simp only [Except.map]
        constructor
        · intro h
          simp at h
        intro hfault
        rw [readDifferences_fails _ items 0 _ hfault] at hread
        simp at hread
    | _ => simp [Object.isArray]
  · intro items hitems
    refine ⟨?_, readDifferences_integers _ items hitems 0 _⟩
    intro hfault
    have h := readDifferences_fails env.getUnicodeUsingResolvedName items 0
      (fun _ => nullCharacter) hfault
    rw [readDifferences_integers _ items hitems 0 _] at h
    simp at h

/-- C26 on `sampleBadDifferencesFont`: the Differences `[300 /A]` name a glyph at the offset
300, and `createFont` fails with the invalid-differences exception. -/
theorem invalid_differences_iff_witness :
    invalidDifferences 256 [Object.integer 300, Object.name "A"] ∧
    createFont sampleEnvironment (Object.dictionary sampleBadDifferencesFont) =
      some (Except.error CreateFontError.invalidDifferences) :=
  have hfault : invalidDifferences 256 [Object.integer 300, Object.name "A"] :=
    ⟨[Object.integer 300], Object.name "A", [], rfl, Or.inr ⟨rfl, by decide⟩⟩
  ⟨hfault, (invalid_differences_iff sampleEnvironment sampleBadDifferencesFont
    [("Differences", Object.array [Object.integer 300, Object.name "A"])]
    (Or.inl rfl) rfl rfl).1.mpr (Or.inr ⟨_, rfl, hfault⟩)⟩

/-! ## C27: the descendant font of a composite font -/

theorem createFont_type0 (env : FontEnvironment) (fontDictionary : List (String × Object))
    (htype : fontTypeOf fontDictionary = FontType.Type0) :
    createFont env (Object.dictionary fontDictionary) = createType0Font env fontDictionary := by
  have hl : readEnumByName (PDFDictionary.get fontDictionary "Subtype") fontTypes
      FontType.Invalid = FontType.Type0 := htype
  unfold createFont
  simp only []
  rw [hl]

theorem createType0Font_descendant_fault (env : FontEnvironment)
    (fontDictionary : List (String × Object)) (cmap : PDFFontCMap)
    (hcmap : readCMap env (PDFDictionary.get fontDictionary "Encoding") = Except.ok cmap)
    (hvalid : cmap.isValid = true)
    (hfault : (PDFDictionary.get fontDictionary "DescendantFonts").isArray = false ∨
      (∃ items, PDFDictionary.get fontDictionary "DescendantFonts" = Object.array items ∧
        items.length ≠ 1) ∨
      (∃ item, PDFDictionary.get fontDictionary "DescendantFonts" = Object.array [item] ∧
        item.isDictionary = false)) :
    createType0Font env fontDictionary =
        some (Except.error CreateFontError.invalidDescendantFont) ∨
      ∃ n, n ≠ 1 ∧ createType0Font env fontDictionary =
        some (Except.error (CreateFontError.invalidDescendantFontCount n)) := by
  unfold createType0Font
  rw [hcmap]
  simp only [hvalid, Bool.not_true, Bool.false_eq_true, if_false]
  rcases hfault with h | ⟨items, h, hlen⟩ | ⟨item, h, hitem⟩
  · cases hobj : PDFDictionary.get fontDictionary "DescendantFonts" with
    | array items => rw [hobj] at h; simp [Object.isArray] at h
    | _ => exact Or.inl rfl
  · rw [h]
    simp only []
    match items, hlen with
    | [], _ => exact Or.inr ⟨0, by decide, rfl⟩
    | [x], hlen => simp at hlen
    | x :: y :: rest, _ =>
      refine Or.inr ⟨(x :: y :: rest).length, by simp, ?_⟩
      cases x <;> rfl
  · rw [h]
    simp only []
    cases item with
    | dictionary entries => simp [Object.isDictionary] at hitem
    | _ => exact Or.inl rfl

/-- C27. Composite fonts need exactly one descendant. For a Type0 font dictionary whose
DescendantFonts entry is not an array, or is an array of a length other than 1, or is an
array whose single element is not a dictionary, `createFont` ends in a parser exception
and returns no font; when the code map of the font is valid, the exception is the one for
an invalid descendant font or for an invalid number of descendant fonts. -/
theorem type0_needs_one_descendant (env : FontEnvironment)
    (fontDictionary : List (String × Object))
    (htype : fontTypeOf fontDictionary = FontType.Type0)
    (hfault : (PDFDictionary.get fontDictionary "DescendantFonts").isArray = false ∨
      (∃ items, PDFDictionary.get fontDictionary "DescendantFonts" = Object.array items ∧
        items.length ≠ 1) ∨
      (∃ item, PDFDictionary.get fontDictionary "DescendantFonts" = Object.array [item] ∧
        item.isDictionary = false)) :
    (∃ e, createFont env (Object.dictionary fontDictionary) = some (Except.error e)) ∧
    (∀ cmap, readCMap env (PDFDictionary.get fontDictionary "Encoding") = Except.ok cmap →
      cmap.isValid = true →
      createFont env (Object.dictionary fontDictionary) =
          some (Except.error CreateFontError.invalidDescendantFont) ∨
        ∃ n, n ≠ 1 ∧ createFont env (Object.dictionary fontDictionary) =
          some (Except.error (CreateFontError.invalidDescendantFontCount n))) := by
  rw [createFont_type0 env fontDictionary htype]
  have hvalidCase : ∀ cmap,
      readCMap env (PDFDictionary.get fontDictionary "Encoding") = Except.ok cmap →
      cmap.isValid = true →
      createType0Font env fontDictionary =
          some (Except.error CreateFontError.invalidDescendantFont) ∨
        ∃ n, n ≠ 1 ∧ createType0Font env fontDictionary =
          some (Except.error (CreateFontError.invalidDescendantFontCount n)) :=
    fun cmap hcmap hvalid =>
      createType0Font_descendant_fault env fontDictionary cmap hcmap hvalid hfault
  refine ⟨?_, hvalidCase⟩
  cases hcmap : readCMap env (PDFDictionary.get fontDictionary "Encoding") with
  | error e =>
    refine ⟨CreateFontError.codeMap e, ?_⟩
    unfold createType0Font
    rw [hcmap]
  | ok cmap =>
    cases hvalid : cmap.isValid with
    | false =>
      refine ⟨CreateFontError.invalidCMap, ?_⟩
      unfold createType0Font
      rw [hcmap]
      simp only [hvalid, Bool.not_false, if_true]
    | true =>
      rcases hvalidCase cmap hcmap hvalid with h | ⟨n, _, h⟩
      · exact ⟨_, h⟩
      · exact ⟨_, h⟩

/-- C27 on `sampleTwoDescendantsFont`, a Type0 font with a valid code map and two descendant
fonts: `createFont` fails, with the exception for an invalid number of descendant fonts. -/
theorem type0_needs_one_descendant_witness :
    fontTypeOf sampleTwoDescendantsFont = FontType.Type0 ∧
    (∃ e, createFont sampleCompositeEnvironment (Object.dictionary sampleTwoDescendantsFont) =
      some (Except.error e)) ∧
    createFont sampleCompositeEnvironment (Object.dictionary sampleTwoDescendantsFont) =
      some (Except.error (CreateFontError.invalidDescendantFontCount 2)) :=
  ⟨rfl,
    (type0_needs_one_descendant sampleCompositeEnvironment sampleTwoDescendantsFont rfl
      (Or.inr (Or.inl ⟨[Object.dictionary [], Object.dictionary []], rfl, by decide⟩))).1,
    rfl⟩

/-! ## C28: element accesses in the loop over the W array -/

/-- C28 (the code departs from the claim). The loop over the W array reads the items at `i`,
`i + 1` and, after an integer, `i + 2`, and compares only `i` with the count of the array. A
W array of one item is read at index 1, and one made of a start CID and an end CID at index
2: an element access at an index that is not below the count. With the W array `[5]` in its
descendant font, the call of `createFont` on `sampleShortWFont` has no defined outcome. -/
theorem w_array_read_past_its_end :
    (∀ (start : Object) (i count : Nat) (advances : Nat → Option Rat),
      readAdvances [start] i count advances = AdvancesOutcome.outOfRange (i + 1) count) ∧
    (∀ (start : Object) (value : Int) (i count : Nat) (advances : Nat → Option Rat),
      readAdvances [start, Object.integer value] i count advances =
        AdvancesOutcome.outOfRange (i + 2) count) ∧
    readW [("W", Object.array [Object.integer 5])] = AdvancesOutcome.outOfRange 1 1 ∧
    readW [("W", Object.array [Object.integer 1, Object.integer 2])] =
      AdvancesOutcome.outOfRange 2 2 ∧
    readW [("W", Object.array [Object.integer 1, Object.array [Object.integer 500],
      Object.integer 7])] = AdvancesOutcome.outOfRange 3 3 ∧
    createFont sampleCompositeEnvironment (Object.dictionary sampleShortWFont) = none := by
  refine ⟨?_, ?_, rfl, rfl, rfl, rfl⟩
  · intro start i count advances
    rfl
  · intro start value i count advances
    cases start <;> rfl

/-! ## C29: the required entries of a procedural font -/

theorem numbersOf_spec (items : List Object) :
    ∀ values, numbersOf items = some values →
      values.length = items.length ∧ ∀ item ∈ items, item.isNumber = true := by
  induction items with
  | nil =>
    intro values h
    simp only [numbersOf, Option.some.injEq] at h
    subst h
    exact ⟨rfl, fun item hitem => absurd hitem (List.not_mem_nil _)⟩
  | cons head rest ih =>
    intro values h
    have hstep : ∀ tail : Option (List Rat), ∀ v : Rat,
        tail.map (fun values => v :: values) = some values →
        ∃ vs, tail = some vs ∧ values = v :: vs := by
      intro tail v ht
      cases tail with
      | none => simp at ht
      | some vs =>
        simp only [Option.map_some', Option.some.injEq] at ht
        exact ⟨vs, rfl, ht.symm⟩
    cases head with
    | integer value =>
      rw [numbersOf] at h
      obtain ⟨vs, hvs, hval⟩ := hstep _ _ h
      obtain ⟨hlen, hall⟩ := ih vs hvs
      refine ⟨by rw [hval, List.length_cons, List.length_cons, hlen], ?_⟩
      intro item hitem
      rcases List.mem_cons.mp hitem with h1 | h1
      · rw [h1]; rfl
      · exact hall item h1
    | real value =>
      rw [numbersOf] at h
      obtain ⟨vs, hvs, hval⟩ := hstep _ _ h
      obtain ⟨hlen, hall⟩ := ih vs hvs
      refine ⟨by rw [hval, List.length_cons, List.length_cons, hlen], ?_⟩
      intro item hitem
      rcases List.mem_cons.mp hitem with h1 | h1
      · rw [h1]; rfl
      · exact hall item h1
    | _ => simp [numbersOf] at h

theorem readNumberArray_length (dictionary : List (String × Object)) (key : String)
    (h : (readNumberArrayFromDictionary dictionary key).length ≠ 0) :
    ∃ items, PDFDictionary.get dictionary key = Object.array items ∧
      items.length = (readNumberArrayFromDictionary dictionary key).length ∧
      ∀ item ∈ items, item.isNumber = true := by
  unfold readNumberArrayFromDictionary at h ⊢
  cases hobj : PDFDictionary.get dictionary key with
  | array items =>
    rw [hobj] at h
    simp only [] at h ⊢
    cases hnum : numbersOf items with
    | none => rw [hnum] at h; simp at h
    | some values =>
      obtain ⟨hlen, hall⟩ := numbersOf_spec items values hnum
      exact ⟨items, rfl, by simp [hlen], hall⟩
  | _ => rw [hobj] at h; simp at h

theorem readInteger_nonneg (dictionary : List (String × Object)) (key : String)
    (h : 0 ≤ readIntegerFromDictionary dictionary key (-1)) :
    dictionary.lookup key =
      some (Object.integer (readIntegerFromDictionary dictionary key (-1))) := by
  unfold readIntegerFromDictionary PDFDictionary.hasKey PDFDictionary.get at h ⊢
  cases hlook : dictionary.lookup key with
  | none => rw [hlook] at h; simp at h
  | some object =>
    rw [hlook] at h
    simp only [Option.isSome_some, if_true, Option.getD_some] at h ⊢
    cases object with
    | integer value => rfl
    | _ => simp [readInteger] at h

theorem readType3Differences_other (charProcs : List (String × Object)) (item : Object)
    (rest : List Object) (currentOffset : Nat) (streams : Int → Option (List Nat))
    (hint : item.isInt = false) (hname : item.isName = false) :
    readType3Differences charProcs (item :: rest) currentOffset streams =
      Except.error CreateFontError.invalidType3Differences := by
  cases item with
  | integer value => simp [Object.isInt] at hint
  | name data => simp [Object.isName] at hname
  | _ => rfl

theorem readType3Differences_integer (charProcs : List (String × Object)) (value : Int)
    (rest : List Object) (currentOffset : Nat) (streams : Int → Option (List Nat)) :
    readType3Differences charProcs (Object.integer value :: rest) currentOffset streams =
      readType3Differences charProcs rest (value % 18446744073709551616).toNat streams := by
  rw [readType3Differences]

theorem readType3Differences_name (charProcs : List (String × Object)) (data : String)
    (rest : List Object) (currentOffset : Nat) (streams : Int → Option (List Nat)) :
    readType3Differences charProcs (Object.name data :: rest) currentOffset streams =
      if currentOffset > 255 then Except.error CreateFontError.invalidType3Differences
      else
        readType3Differences charProcs rest (currentOffset + 1)
          (match PDFDictionary.get charProcs data with
           | Object.stream _ contentStream =>
             Function.update streams (currentOffset : Int) (some contentStream)
           | _ => streams) := by
  rw [readType3Differences]
  rfl

theorem readType3Differences_fails (charProcs : List (String × Object))
    (items : List Object) :
    ∀ (currentOffset : Nat) (streams : Int → Option (List Nat)),
      (∃ front item back, items = front ++ item :: back ∧
        ((item.isInt = false ∧ item.isName = false) ∨
          (item.isName = true ∧ 256 ≤ offsetAfter currentOffset front))) →
      readType3Differences charProcs items currentOffset streams =
        Except.error CreateFontError.invalidType3Differences := by
  induction items with
  | nil =>
    intro currentOffset streams h
    obtain ⟨front, item, back, hitems, _⟩ := h
    simp at hitems
  | cons head rest ih =>
    intro currentOffset streams h
    obtain ⟨front, item, back, hitems, hfault⟩ := h
    by_cases hint : head.isInt = true
    · cases head with
      | integer value =>
        rw [readType3Differences_integer]
        apply ih
        cases front with
        | nil =>
          simp only [List.nil_append, List.cons.injEq] at hitems
          rcases hfault with ⟨h1, _⟩ | ⟨h1, _⟩
          · rw [← hitems.1] at h1; simp [Object.isInt] at h1
          · rw [← hitems.1] at h1; simp [Object.isName] at h1
        | cons x front' =>
          simp only [List.cons_append, List.cons.injEq] at hitems
          refine ⟨front', item, back, hitems.2, ?_⟩
          rw [← hitems.1] at hfault
          simpa [offsetAfter] using hfault
      | _ => simp [Object.isInt] at hint
    · by_cases hname : head.isName = true
      · cases head with
        | name data =>
          rw [readType3Differences_name]
          by_cases hoff : currentOffset > 255
          · rw [if_pos hoff]
          · rw [if_neg hoff]
            apply ih
            cases front with
            | nil =>
              simp only [List.nil_append, List.cons.injEq] at hitems
              rcases hfault with ⟨_, h2⟩ | ⟨_, h2⟩
              · rw [← hitems.1] at h2; simp [Object.isName] at h2
              · simp only [offsetAfter] at h2
                omega
            | cons x front' =>
              simp only [List.cons_append, List.cons.injEq] at hitems
              refine ⟨front', item, back, hitems.2, ?_⟩
              rw [← hitems.1] at hfault
              simpa [offsetAfter] using hfault
        | _ => simp [Object.isName] at hname
      · have hint2 : head.isInt = false := by simpa using hint
        have hname2 : head.isName = false := by simpa using hname
        exact readType3Differences_other charProcs head rest _ _ hint2 hname2

theorem createFont_type3 (env : FontEnvironment) (fontDictionary : List (String × Object))
    (htype : fontTypeOf fontDictionary = FontType.Type3) :
    createFont env (Object.dictionary fontDictionary) =
      some (createType3Font fontDictionary) := by
  have hl : readEnumByName (PDFDictionary.get fontDictionary "Subtype") fontTypes
      FontType.Invalid = FontType.Type3 := htype
  unfold createFont
  simp only []
  rw [hl]

/-- C29. Procedural-font required fields. Whenever `createFont` returns a font for a Type3
font dictionary, FontMatrix is an array of exactly 6 numbers, CharProcs is a dictionary,
FirstChar and LastChar are both present as integers with `0 <= FirstChar <= LastChar <=
255`, Encoding is a dictionary and its Differences an array whose items are only integers
and names, every name occurring at an offset `<= 255`; in every other case the call ends in
a parser exception. -/
theorem type3_required_fields (env : FontEnvironment) (fontDictionary : List (String × Object))
    (htype : fontTypeOf fontDictionary = FontType.Type3) :
    (∃ outcome, createFont env (Object.dictionary fontDictionary) = some outcome) ∧
    ((∃ font, createFont env (Object.dictionary fontDictionary) = some (Except.ok font)) →
      (∃ items, PDFDictionary.get fontDictionary "FontMatrix" = Object.array items ∧
        items.length = 6 ∧ ∀ item ∈ items, item.isNumber = true) ∧
      (PDFDictionary.get fontDictionary "CharProcs").isDictionary = true ∧
      (∃ firstChar lastChar : Int,
        fontDictionary.lookup "FirstChar" = some (Object.integer firstChar) ∧
        fontDictionary.lookup "LastChar" = some (Object.integer lastChar) ∧
        0 ≤ firstChar ∧ firstChar ≤ lastChar ∧ lastChar ≤ 255) ∧
      (∃ encodingDictionary items,
        PDFDictionary.get fontDictionary "Encoding" = Object.dictionary encodingDictionary ∧
        PDFDictionary.get encodingDictionary "Differences" = Object.array items ∧
        (∀ item ∈ items, item.isInt = true ∨ item.isName = true) ∧
        (∀ front data back, items = front ++ Object.name data :: back →
          offsetAfter 0 front ≤ 255))) := by
  rw [createFont_type3 env fontDictionary htype]
  refine ⟨⟨_, rfl⟩, ?_⟩
  rintro ⟨font, hfont⟩
  simp only [Option.some.injEq] at hfont
  unfold createType3Font at hfont
  simp only [] at hfont
  by_cases hmatrix : (readNumberArrayFromDictionary fontDictionary "FontMatrix").length ≠ 6
  · rw [if_pos hmatrix] at hfont
    simp [throw, throwThe, MonadExceptOf.throw] at hfont
  rw [if_neg hmatrix] at hfont
  have hmatrix6 : (readNumberArrayFromDictionary fontDictionary "FontMatrix").length = 6 := by
    simpa using hmatrix
  obtain ⟨matrixItems, hmget, hmlen, hmall⟩ :=
    readNumberArray_length fontDictionary "FontMatrix" (by rw [hmatrix6]; decide)
  cases hprocs : PDFDictionary.get fontDictionary "CharProcs" with
  | dictionary charProcs =>
    rw [hprocs] at hfont
    simp only [] at hfont
    by_cases hrange : readIntegerFromDictionary fontDictionary "FirstChar" (-1) < 0 ∨
        readIntegerFromDictionary fontDictionary "LastChar" (-1) > 255 ∨
        readIntegerFromDictionary fontDictionary "FirstChar" (-1) >
          readIntegerFromDictionary fontDictionary "LastChar" (-1)
    · rw [if_pos hrange] at hfont
      simp [throw, throwThe, MonadExceptOf.throw] at hfont
    rw [if_neg hrange] at hfont
    have hfirst : 0 ≤ readIntegerFromDictionary fontDictionary "FirstChar" (-1) := by omega
    have hlast : 0 ≤ readIntegerFromDictionary fontDictionary "LastChar" (-1) := by omega
    cases hencoding : PDFDictionary.get fontDictionary "Encoding" with
    | dictionary encodingDictionary =>
      rw [hencoding] at hfont
      simp only [] at hfont
      cases hdiff : PDFDictionary.get encodingDictionary "Differences" with
      | array items =>
        rw [hdiff] at hfont
        simp only [] at hfont
        have hvalid : ¬ invalidDifferences 256 items := by
          intro hfault
          rw [readType3Differences_fails charProcs items 0 _ hfault] at hfont
          simp [bind, Except.bind] at hfont
        refine ⟨⟨matrixItems, hmget, by rw [hmlen, hmatrix6], hmall⟩, rfl,
          ⟨_, _, readInteger_nonneg fontDictionary "FirstChar" hfirst,
            readInteger_nonneg fontDictionary "LastChar" hlast, hfirst, by omega, by omega⟩,
          encodingDictionary, items, rfl, hdiff, ?_, ?_⟩
        · intro item hitem
          by_contra hneither
          simp only [not_or, Bool.not_eq_true] at hneither
          obtain ⟨front, back, hsplit⟩ := List.append_of_mem hitem
          exact hvalid ⟨front, item, back, hsplit, Or.inl hneither⟩
        · intro front data back hsplit
          by_contra hoff
          exact hvalid ⟨front, Object.name data, back, hsplit, Or.inr ⟨rfl, by omega⟩⟩
      | _ =>
        rw [hdiff] at hfont
        simp [throw, throwThe, MonadExceptOf.throw] at hfont
    | _ =>
      rw [hencoding] at hfont
      simp [throw, throwThe, MonadExceptOf.throw] at hfont
  | _ =>
    rw [hprocs] at hfont
    simp [throw, throwThe, MonadExceptOf.throw] at hfont

/-- C29 on `sampleType3Font`, which has all required entries: a font is returned, and the
entries are as required. -/
theorem type3_required_fields_witness :
    fontTypeOf sampleType3Font = FontType.Type3 ∧
    (∃ font, createFont sampleEnvironment (Object.dictionary sampleType3Font) =
      some (Except.ok font)) ∧
    (PDFDictionary.get sampleType3Font "CharProcs").isDictionary = true :=
  ⟨rfl, ⟨_, rfl⟩,
    ((type3_required_fields sampleEnvironment sampleType3Font rfl).2 ⟨_, rfl⟩).2.1⟩

/-! ## C30: the advance of a code of a simple font -/

/-- C30 as stated fails. With first code -1, last code 255 and the width table `[10, 20]`,
the claim gives the code 0 the advance `W[0 - (-1)] = 20`, the function gives 0 (the first
code is compared as a `size_t`). With first code 0, last code -1 and the width table
`[500]`, no code lies in `[f, l]` and the claim gives every code the advance 0; the function
gives the code 0 the advance 500 (the last code is compared as a `size_t`). -/
theorem getGlyphAdvance_counterexample :
    PDFSimpleFont.getGlyphAdvance
      { m_firstChar := -1, m_lastChar := 255, m_widths := [10, 20], m_encoding := fun c => c,
        m_glyphIndices := fun _ => 0 } 0 = 0 ∧
    advanceAsClaimed (-1) 255 [10, 20] 0 = 20 ∧
    PDFSimpleFont.getGlyphAdvance
      { m_firstChar := 0, m_lastChar := -1, m_widths := [500], m_encoding := fun c => c,
        m_glyphIndices := fun _ => 0 } 0 = 500 ∧
    advanceAsClaimed 0 (-1) [500] 0 = 0 := by
  refine ⟨by decide, by decide, by decide, by decide⟩

/-- C30, amended. For every simple font with first code `f` (a 64-bit integer), last code
`l >= 0` and width table `W`, and every code `c` with `0 <= c < 2^63`,
`PDFSimpleFont::getGlyphAdvance(c)` is `W[c - f]` if `0 <= f <= c <= l` and `c - f < |W|`,
and 0 otherwise: in particular 0 for every code outside `[f, l]`, for a code beyond a width
table shorter than the range, and for every code when `f` is negative. -/
theorem getGlyphAdvance_in_range (font : PDFSimpleFont) (c : Nat)
    (hfirst : -9223372036854775808 ≤ font.m_firstChar ∧ font.m_firstChar < 9223372036854775808)
    (hlast : 0 ≤ font.m_lastChar ∧ font.m_lastChar < 9223372036854775808)
    (hc : c < 9223372036854775808) :
    font.getGlyphAdvance c =
      (if 0 ≤ font.m_firstChar ∧ font.m_firstChar ≤ (c : Int) ∧ (c : Int) ≤ font.m_lastChar ∧
          (c : Int) - font.m_firstChar < (font.m_widths.length : Int) then
        font.m_widths.getD ((c : Int) - font.m_firstChar).toNat 0
      else 0) ∧
    (((c : Int) < font.m_firstChar ∨ font.m_lastChar < (c : Int)) →
      font.getGlyphAdvance c = 0) ∧
    ((font.m_widths.length : Int) ≤ (c : Int) - font.m_firstChar → font.getGlyphAdvance c = 0) ∧
    (font.m_firstChar < 0 → font.getGlyphAdvance c = 0) := by
  have hformula : font.getGlyphAdvance c =
      (if 0 ≤ font.m_firstChar ∧ font.m_firstChar ≤ (c : Int) ∧ (c : Int) ≤ font.m_lastChar ∧
          (c : Int) - font.m_firstChar < (font.m_widths.length : Int) then
        font.m_widths.getD ((c : Int) - font.m_firstChar).toNat 0
      else 0) := by
    unfold PDFSimpleFont.getGlyphAdvance
    simp only []
    by_cases hneg : font.m_firstChar < 0
    · rw [if_neg (by omega), if_neg (by omega)]
    · have hmin : (font.m_firstChar % 18446744073709551616).toNat = font.m_firstChar.toNat := by
        omega
      have hmax : (font.m_lastChar % 18446744073709551616).toNat = font.m_lastChar.toNat := by
        omega
      rw [hmin, hmax]
      by_cases hin : c ≥ font.m_firstChar.toNat ∧ c ≤ font.m_lastChar.toNat
      · rw [if_pos hin]
        by_cases hw : c - font.m_firstChar.toNat < font.m_widths.length
        · rw [if_pos hw, if_pos (by omega)]
          congr 1
          omega
        · rw [if_neg hw, if_neg (by omega)]
      · rw [if_neg hin, if_neg (by omega)]
  refine ⟨hformula, ?_, ?_, ?_⟩
  · intro h
    rw [hformula, if_neg (by omega)]
  · intro h
    rw [hformula, if_neg (by omega)]
  · intro h
    rw [hformula, if_neg (by omega)]

/-- C30, amended, on the font of the spec's scenario (first code 32, last code 63, widths
`[500] * 32`): the code 65 lies outside the range and has the advance 0. -/
theorem getGlyphAdvance_in_range_witness :
    PDFSimpleFont.getGlyphAdvance
      { m_firstChar := 32, m_lastChar := 63, m_widths := List.replicate 32 500,
        m_encoding := fun c => c, m_glyphIndices := fun _ => 0 } 65 = 0 :=
  (getGlyphAdvance_in_range
    { m_firstChar := 32, m_lastChar := 63, m_widths := List.replicate 32 500,
      m_encoding := fun c => c, m_glyphIndices := fun _ => 0 } 65
    ⟨by decide, by decide⟩ ⟨by decide, by decide⟩ (by decide)).2.1 (Or.inr (by decide))

/-! ## Embedded program selection -/

/-- C31. `getEmbeddedFontData` returns a buffer exactly when one of the three program
buffers `FontFile`, `FontFile2`, `FontFile3` is not empty, that is exactly when
`isEmbedded` holds; the buffer returned is the first of the three, in that order, that is
not empty, and it is never empty; so for an embedded font the pointer is not null and the
data are not empty. -/
theorem embedded_program_selection (descriptor : FontDescriptor) :
    ((descriptor.getEmbeddedFontData).isSome = true ↔
      (descriptor.fontFile ≠ [] ∨ descriptor.fontFile2 ≠ [] ∨ descriptor.fontFile3 ≠ [])) ∧
    ((descriptor.getEmbeddedFontData).isSome = true ↔ descriptor.isEmbedded = true) ∧
    (∀ data, descriptor.getEmbeddedFontData = some data →
      data ≠ [] ∧
      ((descriptor.fontFile ≠ [] ∧ data = descriptor.fontFile) ∨
        (descriptor.fontFile = [] ∧ descriptor.fontFile2 ≠ [] ∧ data = descriptor.fontFile2) ∨
        (descriptor.fontFile = [] ∧ descriptor.fontFile2 = [] ∧ descriptor.fontFile3 ≠ [] ∧
          data = descriptor.fontFile3))) ∧
    (descriptor.isEmbedded = true →
      ∃ data, descriptor.getEmbeddedFontData = some data ∧ data ≠ []) ∧
    (∀ env standardFont fontDictionary,
      readSimpleFont env standardFont descriptor fontDictionary ≠ none) := by
  refine ⟨?_, ?_, ?_, ?_, ?_⟩
  rotate_right
  · intro env standardFont fontDictionary
    unfold readSimpleFont
    split
    · simp
    · split
      · simp
      · by_cases hemb : descriptor.isEmbedded = true
        · obtain ⟨data, hdata, _⟩ := getEmbeddedFontData_of_embedded descriptor hemb
          simp [hemb, hdata]
        · simp [hemb]
  all_goals simp only [FontDescriptor.getEmbeddedFontData, FontDescriptor.isEmbedded]
  all_goals
    by_cases h1 : descriptor.fontFile = []
    · by_cases h2 : descriptor.fontFile2 = []
      · by_cases h3 : descriptor.fontFile3 = []
        · simp [h1, h2, h3]
        · simp [h1, h2, h3]
      · simp [h1, h2]
    · simp [h1]

theorem embedded_program_selection_witness :
    (sampleFontFile2Descriptor.isEmbedded = true →
      ∃ data, sampleFontFile2Descriptor.getEmbeddedFontData = some data ∧ data ≠ []) ∧
    sampleFontFile2Descriptor.isEmbedded = true ∧
    sampleFontFile2Descriptor.getEmbeddedFontData = some [7, 8] :=
  ⟨(embedded_program_selection sampleFontFile2Descriptor).2.2.2.1, by decide, by decide⟩

/-! ## The fill from the standard table and failures in the font cache -/

/-- C33. The fill from the standard table in `finishFont` never overwrites: for a code `c`
of the table, if the entry after the base table and the Differences is neither null nor the
replacement character it is left unchanged; if it is null or the replacement character it
becomes the character of the standard table when that one is neither null nor the
replacement character, and is left unchanged otherwise. -/
theorem standard_fill_never_overwrites (env : FontEnvironment) (declared : DeclaredEncoding)
    (state : SimpleFontState) (c : Nat) (hc : c < 256) :
    (usable ((fillDifferences declared state).simpleFontEncodingTable c) →
      (finishFont env declared state).simpleFontEncodingTable c =
        (fillDifferences declared state).simpleFontEncodingTable c) ∧
    (((fillDifferences declared state).simpleFontEncodingTable c = nullCharacter ∨
        (fillDifferences declared state).simpleFontEncodingTable c = replacementCharacter) →
      usable (env.getTableForEncoding Encoding.Standard c) →
      (finishFont env declared state).simpleFontEncodingTable c =
        env.getTableForEncoding Encoding.Standard c) ∧
    (((fillDifferences declared state).simpleFontEncodingTable c = nullCharacter ∨
        (fillDifferences declared state).simpleFontEncodingTable c = replacementCharacter) →
      ¬ usable (env.getTableForEncoding Encoding.Standard c) →
      (finishFont env declared state).simpleFontEncodingTable c =
        (fillDifferences declared state).simpleFontEncodingTable c) := by
  unfold finishFont
  rw [fillStandard_table env _ c hc]
  refine ⟨?_, ?_, ?_⟩
  · intro hu
    rw [if_neg]
    rintro ⟨h | h, _⟩
    · exact hu.1 h
    · exact hu.2 h
  · intro hb hs
    rw [if_pos ⟨hb, hs⟩]
  · intro _ hs
    rw [if_neg]
    exact fun h => hs h.2

theorem standard_fill_never_overwrites_witness :
    (usable ((fillDifferences sampleDeclared sampleState).simpleFontEncodingTable 65) →
      (finishFont sampleEnvironment sampleDeclared sampleState).simpleFontEncodingTable 65 =
        (fillDifferences sampleDeclared sampleState).simpleFontEncodingTable 65) ∧
    (((fillDifferences noDeclaredEncoding
          { sampleState with simpleFontEncodingTable := fun _ => 0 }).simpleFontEncodingTable 66 =
        nullCharacter ∨
      (fillDifferences noDeclaredEncoding
          { sampleState with simpleFontEncodingTable := fun _ => 0 }).simpleFontEncodingTable 66 =
        replacementCharacter) →
      usable (sampleEnvironment.getTableForEncoding Encoding.Standard 66) →
      (finishFont sampleEnvironment noDeclaredEncoding
          { sampleState with simpleFontEncodingTable := fun _ => 0 }).simpleFontEncodingTable 66 =
        sampleEnvironment.getTableForEncoding Encoding.Standard 66) ∧
    ((fillDifferences noDeclaredEncoding
          { sampleState with simpleFontEncodingTable := fun _ => 0 }).simpleFontEncodingTable 66 =
        nullCharacter) ∧
    usable (sampleEnvironment.getTableForEncoding Encoding.Standard 66) :=
  ⟨(standard_fill_never_overwrites sampleEnvironment sampleDeclared sampleState 65
      (by decide)).1,
    (standard_fill_never_overwrites sampleEnvironment noDeclaredEncoding
      { sampleState with simpleFontEncodingTable := fun _ => 0 } 66 (by decide)).2.1,
    rfl, by decide⟩

/-- C37. Cache lookups are atomic on failure: when the construction of the font fails
during a `getFont` miss, the failure is the outcome of the call and both maps are as before
the call, whatever the size of the font map; likewise when the construction of the realized
font fails during a `getRealizedFont` miss. -/
theorem cache_lookup_atomic_on_failure {F R : Type} [DecidableEq F]
    (createFont : PDFObject → Nat → Except FontError F)
    (createRealizedFont : F → Rat → Except FontError R)
    (cache : PDFFontCache F R) :
    (∀ reference e, cache.m_fontCache.lookup reference = none →
      createFont (PDFObject.reference reference) cache.m_document = Except.error e →
      (cache.getFont createFont (PDFObject.reference reference)).1 = Except.error e ∧
      (cache.getFont createFont (PDFObject.reference reference)).2.m_fontCache =
        cache.m_fontCache ∧
      (cache.getFont createFont (PDFObject.reference reference)).2.m_realizedFontCache =
        cache.m_realizedFontCache) ∧
    (∀ font size e, cache.m_realizedFontCache.lookup (font, size) = none →
      createRealizedFont font size = Except.error e →
      (cache.getRealizedFont createRealizedFont font size).1 = Except.error e ∧
      (cache.getRealizedFont createRealizedFont font size).2.m_fontCache =
        cache.m_fontCache ∧
      (cache.getRealizedFont createRealizedFont font size).2.m_realizedFontCache =
        cache.m_realizedFontCache) := by
  constructor
  · intro reference e hmiss hfail
    unfold PDFFontCache.getFont
    simp only [hmiss, hfail, and_self]
  · intro font size e hmiss hfail
    unfold PDFFontCache.getRealizedFont
    simp only [hmiss, hfail, and_self]

theorem cache_lookup_atomic_on_failure_witness :
    sampleFullCache.m_fontCache.length ≥ sampleFullCache.m_fontCacheLimit ∧
    sampleFullCache.m_realizedFontCache.length ≥ sampleFullCache.m_realizedFontCacheLimit ∧
    ((sampleFullCache.getFont (fun _ _ => Except.error ⟨"no font"⟩)
        (PDFObject.reference (2, 0))).1 = Except.error ⟨"no font"⟩ ∧
      (sampleFullCache.getFont (fun _ _ => Except.error ⟨"no font"⟩)
        (PDFObject.reference (2, 0))).2.m_fontCache = sampleFullCache.m_fontCache ∧
      (sampleFullCache.getFont (fun _ _ => Except.error ⟨"no font"⟩)
        (PDFObject.reference (2, 0))).2.m_realizedFontCache =
          sampleFullCache.m_realizedFontCache) ∧
    ((sampleFullCache.getRealizedFont (fun _ _ => Except.error ⟨"no face"⟩) 11 12).1 =
        Except.error ⟨"no face"⟩ ∧
      (sampleFullCache.getRealizedFont (fun _ _ => Except.error ⟨"no face"⟩) 11 12).2.m_fontCache =
        sampleFullCache.m_fontCache ∧
      (sampleFullCache.getRealizedFont (fun _ _ => Except.error ⟨"no face"⟩)
        11 12).2.m_realizedFontCache = sampleFullCache.m_realizedFontCache) :=
  ⟨by decide, by decide,
    (cache_lookup_atomic_on_failure (fun _ _ => Except.error ⟨"no font"⟩)
      (fun _ _ => Except.error ⟨"no face"⟩) sampleFullCache).1 (2, 0) ⟨"no font"⟩ rfl rfl,
    (cache_lookup_atomic_on_failure (fun _ _ => Except.error ⟨"no font"⟩)
      (fun _ _ => Except.error ⟨"no face"⟩) sampleFullCache).2 11 12 ⟨"no face"⟩
      (by decide) rfl⟩

/-! ## The order of the entries through optimize -/

theorem entry_le_total (a b : Entry) : a.le b ∨ b.le a := by
  unfold Entry.le
  omega

theorem entry_le_trans (a b c : Entry) (hab : a.le b) (hbc : b.le c) : a.le c := by
  unfold Entry.le at *
  omega

theorem sortEntries_sorted (entries : List Entry) :
    (sortEntries entries).Pairwise Entry.le := by
  haveI : IsTotal Entry Entry.le := ⟨entry_le_total⟩
  haveI : IsTrans Entry Entry.le := ⟨entry_le_trans⟩
  exact List.sorted_insertionSort Entry.le entries

theorem optimizeLoop_length (cur : Entry) (rest : List Entry) :
    (optimizeLoop cur rest).length ≤ rest.length + 1 := by
  induction rest generalizing cur with
  | nil => simp [optimizeLoop]
  | cons x xs ih =>
    rw [optimizeLoop]
    split
    · have := ih (cur.merge x)
      simp only [List.length_cons]
      omega
    · have := ih x
      simp only [List.length_cons]
      omega

theorem le_merge_of_le (cur a b : Entry) (hca : cur.le a) (ha : a.wellRanged)
    (hb : b.wellRanged) (hm : a.canMerge b = true) : cur.le (a.merge b) := by
  obtain ⟨_, h2, _⟩ := (canMerge_iff a b).mp hm
  obtain ⟨ha1, ha2⟩ := ha
  obtain ⟨hb1, hb2⟩ := hb
  unfold Entry.le at *
  show cur.from_ < a.from_ ∨ (cur.from_ = a.from_ ∧ (cur.to_ < b.to_ ∨
    (cur.to_ = b.to_ ∧ (cur.byteCount < a.byteCount ∨
      (cur.byteCount = a.byteCount ∧ cur.cid ≤ a.cid)))))
  omega

theorem merge_le_of_le (cur x y : Entry) (hc : cur.wellRanged) (hxy : x.le y)
    (hm : cur.canMerge x = true) : (cur.merge x).le y := by
  obtain ⟨_, h2, _⟩ := (canMerge_iff cur x).mp hm
  obtain ⟨hc1, hc2⟩ := hc
  unfold Entry.le at *
  show cur.from_ < y.from_ ∨ (cur.from_ = y.from_ ∧ (x.to_ < y.to_ ∨
    (x.to_ = y.to_ ∧ (cur.byteCount < y.byteCount ∨
      (cur.byteCount = y.byteCount ∧ cur.cid ≤ y.cid)))))
  omega

theorem sorted_optimizeLoop (cur : Entry) (rest : List Entry)
    (hsorted : (cur :: rest).Pairwise Entry.le)
    (hranged : ∀ e ∈ cur :: rest, e.wellRanged) :
    (optimizeLoop cur rest).Pairwise Entry.le := by
  induction rest generalizing cur with
  | nil => simp [optimizeLoop]
  | cons x xs ih =>
    obtain ⟨hcur, hrest⟩ := List.pairwise_cons.mp hsorted
    obtain ⟨hx, hxs⟩ := List.pairwise_cons.mp hrest
    have hcw : cur.wellRanged := hranged cur (by simp)
    have hxw : x.wellRanged := hranged x (by simp)
    have hxsw : ∀ e ∈ xs, e.wellRanged := fun e he => hranged e (by simp [he])
    rw [optimizeLoop]
    split
    · rename_i hm
      apply ih
      · refine List.pairwise_cons.mpr ⟨?_, hxs⟩
        intro y hy
        exact merge_le_of_le cur x y hcw (hx y hy) hm
      · intro e he
        rcases List.mem_cons.mp he with h | h
        · exact h ▸ wellRanged_merge cur x hcw hxw hm
        · exact hxsw e h
    · refine List.pairwise_cons.mpr ⟨?_, ih x hrest (fun e he => hranged e (by simp [he]))⟩
      intro z hz
      exact (optimizeLoop_forall (fun z => cur.le z ∧ z.wellRanged)
        (fun a b ha hb hm =>
          ⟨le_merge_of_le cur a b ha.1 ha.2 hb.2 hm, wellRanged_merge a b ha.2 hb.2 hm⟩)
        x xs ⟨hcur x (by simp), hxw⟩
        (fun e he => ⟨hcur e (by simp [he]), hxsw e he⟩) z hz).1

/-- C36. `optimize` keeps the order: for a list `E` of entries sorted by (from, to,
byteCount, identifier) in which every entry has from <= to and to below the largest
unsigned value, `optimize E` is sorted by the same order, is no longer than `E`, is empty
exactly when `E` is empty, and starts with an entry that has the from, the byteCount and
the identifier of the first entry of `E`. -/
theorem optimize_keeps_order (E : List Entry) (hsorted : E.Pairwise Entry.le)
    (hranged : ∀ e ∈ E, e.wellRanged) :
    (optimize E).Pairwise Entry.le ∧
    (optimize E).length ≤ E.length ∧
    (optimize E = [] ↔ E = []) ∧
    (optimize E).head?.map (fun e => (e.from_, e.byteCount, e.cid)) =
      E.head?.map (fun e => (e.from_, e.byteCount, e.cid)) ∧
    (∀ first rest, E = first :: rest →
      ∃ head tail, optimize E = head :: tail ∧ head.from_ = first.from_ ∧
        head.byteCount = first.byteCount ∧ head.cid = first.cid) := by
  cases E with
  | nil => simp [optimize]
  | cons cur rest =>
    obtain ⟨h, t, e, h1, h2, h3⟩ := optimizeLoop_head cur rest
    refine ⟨sorted_optimizeLoop cur rest hsorted hranged, ?_, ?_, ?_, ?_⟩
    · exact optimizeLoop_length cur rest
    · show optimizeLoop cur rest = [] ↔ _
      rw [e]
      simp
    · show (optimizeLoop cur rest).head?.map _ = _
      rw [e]
      simp [h1, h2, h3]
    · intro first rest2 heq
      obtain ⟨rfl, rfl⟩ := List.cons.inj heq
      exact ⟨h, t, e, h1, h2, h3⟩

theorem optimize_keeps_order_witness :
    ([⟨1, 2, 1, 10⟩, ⟨3, 4, 1, 12⟩, ⟨9, 9, 1, 0⟩] : List Entry).Pairwise Entry.le ∧
    optimize [⟨1, 2, 1, 10⟩, ⟨3, 4, 1, 12⟩, ⟨9, 9, 1, 0⟩] = [⟨1, 4, 1, 10⟩, ⟨9, 9, 1, 0⟩] ∧
    (optimize [⟨1, 2, 1, 10⟩, ⟨3, 4, 1, 12⟩, ⟨9, 9, 1, 0⟩]).Pairwise Entry.le ∧
    (optimize [⟨1, 2, 1, 10⟩, ⟨3, 4, 1, 12⟩, ⟨9, 9, 1, 0⟩]).length ≤ 3 :=
  ⟨by decide, by decide,
    (optimize_keeps_order [⟨1, 2, 1, 10⟩, ⟨3, 4, 1, 12⟩, ⟨9, 9, 1, 0⟩] (by decide)
      (by decide)).1,
    (optimize_keeps_order [⟨1, 2, 1, 10⟩, ⟨3, 4, 1, 12⟩, ⟨9, 9, 1, 0⟩] (by decide)
      (by decide)).2.1⟩

/-! ## Code operands of the cidchar and cidrange blocks -/

theorem bigEndianValue_concat (init : List Nat) (last : Nat) :
    bigEndianValue (init ++ [last]) = bigEndianValue init * 256 + last := by
  simp [bigEndianValue, List.foldl_append]

theorem codeValue_eq_bigEndianValue (bytes : List Nat) (hbytes : ∀ b ∈ bytes, b < 256) :
    codeValue bytes = bigEndianValue bytes % 4294967296 := by
  induction bytes using List.reverseRecOn with
  | nil => rfl
  | append_singleton init last ih =>
    have hlast : last < 256 := hbytes last (by simp)
    have hinit := ih (fun b hb => hbytes b (by simp [hb]))
    rw [codeValue_concat, bigEndianValue_concat, hinit]
    unfold shiftIn
    omega

theorem bigEndianValue_lt (bytes : List Nat) (hbytes : ∀ b ∈ bytes, b < 256) :
    bigEndianValue bytes < 256 ^ bytes.length := by
  induction bytes using List.reverseRecOn with
  | nil => simp [bigEndianValue]
  | append_singleton init last ih =>
    have hlast : last < 256 := hbytes last (by simp)
    have hinit := ih (fun b hb => hbytes b (by simp [hb]))
    rw [bigEndianValue_concat, List.length_append, List.length_singleton, pow_succ]
    omega

theorem bigEndianValue_short (bytes : List Nat) (hbytes : ∀ b ∈ bytes, b < 256)
    (hlen : bytes.length ≤ 4) : bigEndianValue bytes % 4294967296 = bigEndianValue bytes := by
  apply Nat.mod_eq_of_lt
  have h1 := bigEndianValue_lt bytes hbytes
  have h2 : 256 ^ bytes.length ≤ 256 ^ 4 := Nat.pow_le_pow_right (by decide) hlen
  have h3 : (256 : Nat) ^ 4 = 4294967296 := by norm_num
  omega

/-- C35. Code operands of the code map parser: inside a cidchar block the pair
`<b_1 ... b_n> k` appends an entry with from = to = the big-endian value of the bytes modulo
2^32, byteCount = n and identifier k, and inside a cidrange block the triple `<lo> <hi> k`
appends an entry with from and to the big-endian values of `lo` and `hi` modulo 2^32,
byteCount the larger of the two operand lengths and identifier k; the loop of the block then
goes on with the next operands. The bytes are below 256 and k is a 32-bit unsigned
identifier; operands of at most four bytes are not reduced. -/
theorem cid_operands_are_big_endian (cfn : String → Except ParseError PDFFontCMap)
    (st : ParseState) (rest : List Token) (bytes lo hi : List Nat) (k : Nat)
    (hbytes : ∀ b ∈ bytes, b < 256) (hlo : ∀ b ∈ lo, b < 256) (hhi : ∀ b ∈ hi, b < 256)
    (hk : k < 4294967296) :
    parseLoop cfn (some Block.cidchar)
        (Token.string bytes :: Token.integer (k : Int) :: rest) st =
      parseLoop cfn (some Block.cidchar) rest
        { st with entries := st.entries ++
            [{ from_ := bigEndianValue bytes % 4294967296,
               to_ := bigEndianValue bytes % 4294967296,
               byteCount := bytes.length, cid := k }] } ∧
    parseLoop cfn (some Block.cidrange)
        (Token.string lo :: Token.string hi :: Token.integer (k : Int) :: rest) st =
      parseLoop cfn (some Block.cidrange) rest
        { st with entries := st.entries ++
            [{ from_ := bigEndianValue lo % 4294967296,
               to_ := bigEndianValue hi % 4294967296,
               byteCount := max lo.length hi.length, cid := k }] } ∧
    (bytes.length ≤ 4 → bigEndianValue bytes % 4294967296 = bigEndianValue bytes) := by
  have hcid : (((k : Int) % 4294967296).toNat) = k := by omega
  refine ⟨?_, ?_, bigEndianValue_short bytes hbytes⟩
  · rw [parseLoop_cidchar_cons, if_neg (by simp)]
    show (charEntry fetchCID (Token.string bytes) (Token.integer (k : Int)) >>= _) = _
    have hentry : charEntry fetchCID (Token.string bytes) (Token.integer (k : Int)) =
        Except.ok { from_ := bigEndianValue bytes % 4294967296,
                    to_ := bigEndianValue bytes % 4294967296,
                    byteCount := bytes.length, cid := k } := by
      show Except.ok _ = _
      rw [hcid, codeValue_eq_bigEndianValue bytes hbytes]
    rw [hentry]
    rfl
  · rw [parseLoop_cidrange_cons, if_neg (by simp)]
    show (rangeEntry fetchCID (Token.string lo) (Token.string hi) (Token.integer (k : Int))
      >>= _) = _
    have hentry : rangeEntry fetchCID (Token.string lo) (Token.string hi)
        (Token.integer (k : Int)) =
        Except.ok { from_ := bigEndianValue lo % 4294967296,
                    to_ := bigEndianValue hi % 4294967296,
                    byteCount := max lo.length hi.length, cid := k } := by
      show Except.ok _ = _
      rw [hcid, codeValue_eq_bigEndianValue lo hlo, codeValue_eq_bigEndianValue hi hhi]
    rw [hentry]
    rfl

theorem cid_operands_are_big_endian_witness :
    parseLoop noCMaps (some Block.cidchar)
        [Token.string [0x01, 0x02], Token.integer ((7 : Nat) : Int),
         Token.command "endcidchar"] ParseState.initial =
      parseLoop noCMaps (some Block.cidchar) [Token.command "endcidchar"]
        { ParseState.initial with entries := ParseState.initial.entries ++
            [{ from_ := bigEndianValue [0x01, 0x02] % 4294967296,
               to_ := bigEndianValue [0x01, 0x02] % 4294967296,
               byteCount := [0x01, 0x02].length, cid := 7 }] } ∧
    bigEndianValue [0x01, 0x02] % 4294967296 = 258 ∧
    createFromData noCMaps [Token.command "begincidrange", Token.string [0x01, 0x02],
        Token.string [0x03], Token.integer 7, Token.command "endcidrange"] =
      Except.ok (PDFFontCMap.create [⟨258, 3, 2, 7⟩] false) :=
  ⟨(cid_operands_are_big_endian noCMaps ParseState.initial [Token.command "endcidchar"]
      [0x01, 0x02] [] [] 7 (by decide) (by decide) (by decide) (by decide)).1,
    by decide, rfl⟩

/-! ## A bfrange block yields one entry -/

/-- C39. A bfrange block yields one entry: when the parser of `createFromData` reaches, in
the main loop and in the state `st`, a bfrange block with the triple of strings `first`
followed by any number of further triples of strings, it goes on with the tokens after the
block in the state `st` with one entry added, the entry of `first`; the further triples
change nothing (the outcome is that of the block with the first triple alone) and raise no
error, so a stream that ends with the block is read without error. -/
theorem bfrange_block_yields_one_entry (cfn : String → Except ParseError PDFFontCMap)
    (tokens : List Token) (first : List Nat × List Nat × List Nat)
    (others : List (List Nat × List Nat × List Nat)) (rest : List Token) (st : ParseState)
    (hreach : parseLoop cfn none tokens ParseState.initial =
      parseLoop cfn none (bfrangeBlock first others ++ rest) st) :
    parseLoop cfn none tokens ParseState.initial =
      parseLoop cfn none rest
        { st with entries := st.entries ++ [bfrangeEntry first],
                  previousToken := Token.command "endbfrange" } ∧
    parseLoop cfn none (bfrangeBlock first others ++ rest) st =
      parseLoop cfn none (bfrangeBlock first [] ++ rest) st ∧
    (rest = [] →
      parseLoop cfn none tokens ParseState.initial =
        Except.ok { st with entries := st.entries ++ [bfrangeEntry first],
                            previousToken := Token.command "endbfrange" } ∧
      createFromData cfn tokens =
        Except.ok (PDFFontCMap.create
          (appendMappings (optimize (sortEntries (st.entries ++ [bfrangeEntry first])))
            st.additionalMappings) st.vertical)) := by
  refine ⟨?_, ?_, ?_⟩
  · rw [hreach, parseLoop_bfrangeBlock]
  · rw [parseLoop_bfrangeBlock, parseLoop_bfrangeBlock]
  · intro hrest
    subst hrest
    have h : parseLoop cfn none tokens ParseState.initial =
        Except.ok { st with entries := st.entries ++ [bfrangeEntry first],
                            previousToken := Token.command "endbfrange" } := by
      rw [hreach, parseLoop_bfrangeBlock, parseLoop_main_nil]
    refine ⟨h, ?_⟩
    rw [createFromData_eq, h]
    rfl

theorem bfrange_block_yields_one_entry_witness :
    parseLoop noCMaps none
        (bfrangeBlock ([0x00], [0x01], [0x00, 0x41]) [([0x02], [0x03], [0x00, 0x43])] ++
          [Token.command "begincidchar", Token.string [0x05], Token.integer 7,
           Token.command "endcidchar"]) ParseState.initial =
      parseLoop noCMaps none
        [Token.command "begincidchar", Token.string [0x05], Token.integer 7,
         Token.command "endcidchar"]
        { ParseState.initial with
          entries := ParseState.initial.entries ++ [bfrangeEntry ([0x00], [0x01], [0x00, 0x41])],
          previousToken := Token.command "endbfrange" } ∧
    bfrangeEntry ([0x00], [0x01], [0x00, 0x41]) = ⟨0, 1, 1, 0⟩ ∧
    createFromData noCMaps
        (bfrangeBlock ([0x00], [0x01], [0x00, 0x41]) [([0x02], [0x03], [0x00, 0x43])] ++
          [Token.command "begincidchar", Token.string [0x05], Token.integer 7,
           Token.command "endcidchar"]) =
      Except.ok (PDFFontCMap.create [⟨0, 1, 1, 0⟩, ⟨5, 5, 1, 7⟩] false) :=
  ⟨(bfrange_block_yields_one_entry noCMaps _ ([0x00], [0x01], [0x00, 0x41])
      [([0x02], [0x03], [0x00, 0x43])]
      [Token.command "begincidchar", Token.string [0x05], Token.integer 7,
       Token.command "endcidchar"] ParseState.initial rfl).1,
    by decide, rfl⟩

/-! ## The W array and the default advance of a composite font -/

theorem hasKey_of_get_array (dictionary : List (String × Object)) (key : String)
    (items : List Object) (h : PDFDictionary.get dictionary key = Object.array items) :
    PDFDictionary.hasKey dictionary key = true := by
  unfold PDFDictionary.get at h
  unfold PDFDictionary.hasKey
  cases hl : dictionary.lookup key with
  | none => rw [hl] at h; cases h
  | some v => rfl

theorem get_of_not_hasKey (dictionary : List (String × Object)) (key : String)
    (h : PDFDictionary.hasKey dictionary key = false) :
    PDFDictionary.get dictionary key = Object.null := by
  unfold PDFDictionary.hasKey at h
  unfold PDFDictionary.get
  cases hl : dictionary.lookup key with
  | none => rfl
  | some v => rw [hl] at h; cases h

theorem toCID_natCast (n : Nat) (h : n < 4294967296) : toCID (n : Int) = n := by
  unfold toCID
  omega

theorem setAdvanceList_integers (s : Nat) (widths : List Int) :
    ∀ (k : Nat) (advances : Nat → Option Rat), s + k + widths.length ≤ 4294967296 →
    ∀ cid, setAdvanceList s (widths.map Object.integer) k advances cid =
      if s + k ≤ cid ∧ cid < s + k + widths.length then
        some ((widths.getD (cid - (s + k)) 0 : Int) : Rat)
      else advances cid := by
  induction widths with
  | nil =>
    intro k advances _ cid
    rw [if_neg (by simp)]
    rfl
  | cons w ws ih =>
    intro k advances hle cid
    simp only [List.length_cons] at hle
    show setAdvanceList s (ws.map Object.integer) (k + 1)
      (Function.update advances ((s + k % 4294967296) % 4294967296)
        (some (readNumber (Object.integer w) 0))) cid = _
    rw [ih (k + 1) _ (by omega) cid]
    have hidx : (s + k % 4294967296) % 4294967296 = s + k := by omega
    rw [hidx]
    by_cases h1 : cid = s + k
    · subst h1
      rw [if_neg (by omega), Function.update_same, if_pos (by simp)]
      simp [readNumber]
    · rw [Function.update_noteq h1]
      by_cases h2 : s + (k + 1) ≤ cid ∧ cid < s + (k + 1) + ws.length
      · rw [if_pos h2, if_pos (by simp only [List.length_cons]; omega)]
        have hsub : cid - (s + k) = (cid - (s + (k + 1))) + 1 := by omega
        rw [hsub, List.getD_cons_succ]
      · rw [if_neg h2, if_neg (by simp only [List.length_cons]; omega)]

theorem readAdvances_group (g : WGroup) (hg : g.wellFormed) (rest : List Object)
    (i count : Nat) (advances : Nat → Option Rat) :
    ∃ i', readAdvances (g.items ++ rest) i count advances =
      readAdvances rest i' count
        (fun cid => match g.advance cid with
          | some width => some width
          | none => advances cid) := by
  cases g with
  | list c widths =>
    refine ⟨i + 2, ?_⟩
    show readAdvances rest (i + 2) count
      (setAdvanceList (toCID (readInteger (Object.integer c) 0))
        (widths.map Object.integer) 0 advances) = _
    congr 1
    funext cid
    have hg' : c + widths.length ≤ 4294967296 := hg
    cases widths with
    | nil =>
      show advances cid = _
      have hno : ¬ (c ≤ cid ∧ cid < c) := by omega
      simp [WGroup.advance, hno]
    | cons w ws =>
      simp only [List.length_cons] at hg'
      have hc : toCID (readInteger (Object.integer (c : Int)) 0) = c :=
        toCID_natCast c (by omega)
      rw [hc, setAdvanceList_integers c (w :: ws) 0 advances
        (by simp only [List.length_cons]; omega) cid]
      simp only [WGroup.advance, Nat.add_zero]
      split <;> rfl
  | range first last width =>
    obtain ⟨hf, hl⟩ : first < 4294967296 ∧ last < 4294967295 := hg
    refine ⟨i + 3, ?_⟩
    have hlast : toCID (last : Int) = last := toCID_natCast last (by omega)
    have hfirst : toCID (readInteger (Object.integer (first : Int)) 0) = first :=
      toCID_natCast first hf
    show (if toCID (last : Int) = 4294967295 then AdvancesOutcome.endless
      else readAdvances rest (i + 3) count
        (setAdvanceRange advances (toCID (readInteger (Object.integer (first : Int)) 0))
          (toCID (last : Int)) ((readInteger (Object.integer width) 0 : Int) : Rat))) = _
    rw [hlast, hfirst, if_neg (by omega)]
    congr 1
    funext cid
    simp only [setAdvanceRange, WGroup.advance]
    split <;> rfl

theorem readAdvances_groups (groups : List WGroup) (hwf : ∀ g ∈ groups, g.wellFormed) :
    ∀ (i count : Nat) (advances : Nat → Option Rat),
      readAdvances (groups.flatMap WGroup.items) i count advances =
        AdvancesOutcome.table
          (fun cid => match overrideTable groups cid with
            | some width => some width
            | none => advances cid) := by
  induction groups with
  | nil =>
    intro i count advances
    rfl
  | cons g gs ih =>
    intro i count advances
    obtain ⟨i', hstep⟩ := readAdvances_group g (hwf g (by simp)) (gs.flatMap WGroup.items)
      i count advances
    rw [List.flatMap_cons, hstep, ih (fun g' hg' => hwf g' (by simp [hg']))]
    congr 1
    funext cid
    simp only [overrideTable]
    cases overrideTable gs cid <;> rfl

theorem readW_groups (descendant : List (String × Object)) (groups : List WGroup)
    (hW : PDFDictionary.get descendant "W" = Object.array (groups.flatMap WGroup.items))
    (hwf : ∀ g ∈ groups, g.wellFormed) :
    readW descendant = AdvancesOutcome.table (overrideTable groups) := by
  unfold readW
  rw [hasKey_of_get_array descendant "W" _ hW, if_pos rfl, hW]
  show readAdvances _ 0 _ _ = _
  rw [readAdvances_groups groups hwf]
  congr 1
  funext cid
  cases overrideTable groups cid <;> rfl

theorem overrideTable_later_wins (front : List WGroup) (g : WGroup) (back : List WGroup)
    (cid : Nat) (hback : ∀ later ∈ back, later.advance cid = none) :
    overrideTable (front ++ g :: back) cid =
      match g.advance cid with
      | some width => some width
      | none => overrideTable front cid := by
  have hnone : ∀ gs : List WGroup, (∀ later ∈ gs, later.advance cid = none) →
      overrideTable gs cid = none := by
    intro gs
    induction gs with
    | nil => intro _; rfl
    | cons x xs ihx =>
      intro h
      simp only [overrideTable]
      rw [ihx (fun later hl => h later (by simp [hl])), h x (by simp)]
  induction front with
  | nil =>
    simp only [List.nil_append, overrideTable]
    rw [hnone back hback]
    cases g.advance cid <;> rfl
  | cons x xs ih =>
    have e : overrideTable ((x :: xs) ++ g :: back) cid =
        match overrideTable (xs ++ g :: back) cid with
        | some width => some width
        | none => x.advance cid := rfl
    rw [e, ih]
    simp only [overrideTable]
    cases g.advance cid <;> rfl

theorem overrideTable_unmentioned (groups : List WGroup) (cid : Nat)
    (h : ∀ g ∈ groups, g.advance cid = none) : overrideTable groups cid = none := by
  induction groups with
  | nil => rfl
  | cons x xs ih =>
    simp only [overrideTable]
    rw [ih (fun g hg => h g (by simp [hg])), h x (by simp)]

theorem createType0Font_ok (env : FontEnvironment) (fontDictionary : List (String × Object))
    (fontDescriptor : FontDescriptor) (font : PDFType0Font)
    (h : createType0Font env fontDictionary =
      some (Except.ok (CreatedFont.type0 fontDescriptor font))) :
    ∃ descendant,
      PDFDictionary.get fontDictionary "DescendantFonts" =
        Object.array [Object.dictionary descendant] ∧
      readW descendant = AdvancesOutcome.table font.m_advances ∧
      font.m_defaultAdvance =
        (if PDFDictionary.hasKey descendant "DW" then
          readNumberFromDictionary descendant "DW" 1000
        else (readNumberPairFromDictionary descendant "DW2" (0, 0)).2) := by
  unfold createType0Font at h
  split at h
  · simp at h
  · split at h
    · simp at h
    · split at h
      · split at h
        · rename_i descendant hdesc
          simp only [] at h
          split at h
          · rename_i advances hW
            split at h
            · simp at h
            · simp only [Option.some.injEq, Except.ok.injEq, CreatedFont.type0.injEq] at h
              obtain ⟨_, hfont⟩ := h
              subst hfont
              exact ⟨descendant, hdesc, hW, rfl⟩
          · simp at h
        · simp at h
        · simp at h
      · simp at h

theorem createType0Font_defined (env : FontEnvironment)
    (fontDictionary descendant : List (String × Object)) (advances : Nat → Option Rat)
    (hdesc : PDFDictionary.get fontDictionary "DescendantFonts" =
      Object.array [Object.dictionary descendant])
    (hW : readW descendant = AdvancesOutcome.table advances) :
    createType0Font env fontDictionary ≠ none := by
  unfold createType0Font
  split
  · simp
  · split
    · simp
    · rw [hdesc]
      simp only [hW]
      split <;> simp

/-- C34. Advance-table (W) parsing. For a Type0 font dictionary whose descendant font has a
W array made only of well-formed groups with integer widths (the CIDs of the groups are
32-bit CIDs, the last CID of a range below the largest), the loop over the W array ends with
a table, so `createFont` has a defined outcome, and when it returns a font the override
table of the font maps, for each group `c [w_0 ... w_{n-1}]`, the CID `c + j` to `w_j`, and
for each group `c_first c_last w` every CID in `[c_first, c_last]` to `w`, unless a later
group mentions the CID: the later group wins. CIDs mentioned by no group are absent from the
table, so `getGlyphAdvance` returns the default advance for them and the value of the table
for all others. -/
theorem w_array_parsing (env : FontEnvironment)
    (fontDictionary descendant : List (String × Object)) (groups : List WGroup)
    (htype : fontTypeOf fontDictionary = FontType.Type0)
    (hdesc : PDFDictionary.get fontDictionary "DescendantFonts" =
      Object.array [Object.dictionary descendant])
    (hW : PDFDictionary.get descendant "W" = Object.array (groups.flatMap WGroup.items))
    (hwf : ∀ g ∈ groups, g.wellFormed) :
    readW descendant = AdvancesOutcome.table (overrideTable groups) ∧
    createFont env (Object.dictionary fontDictionary) ≠ none ∧
    (∀ fontDescriptor font,
      createFont env (Object.dictionary fontDictionary) =
        some (Except.ok (CreatedFont.type0 fontDescriptor font)) →
      font.m_advances = overrideTable groups ∧
      (∀ front c widths back j, groups = front ++ WGroup.list c widths :: back →
        j < widths.length → (∀ later ∈ back, later.advance (c + j) = none) →
        font.m_advances (c + j) = some ((widths.getD j 0 : Int) : Rat) ∧
        font.getGlyphAdvance (c + j) = ((widths.getD j 0 : Int) : Rat)) ∧
      (∀ front first last width back cid, groups = front ++ WGroup.range first last width :: back →
        first ≤ cid → cid ≤ last → (∀ later ∈ back, later.advance cid = none) →
        font.m_advances cid = some (width : Rat) ∧ font.getGlyphAdvance cid = (width : Rat)) ∧
      (∀ cid, (∀ g ∈ groups, g.advance cid = none) →
        font.m_advances cid = none ∧ font.getGlyphAdvance cid = font.m_defaultAdvance) ∧
      (∀ cid width, font.m_advances cid = some width → font.getGlyphAdvance cid = width)) := by
  have hread := readW_groups descendant groups hW hwf
  refine ⟨hread, ?_, ?_⟩
  · rw [createFont_type0 env fontDictionary htype]
    exact createType0Font_defined env fontDictionary descendant _ hdesc hread
  · intro fontDescriptor font hcreated
    rw [createFont_type0 env fontDictionary htype] at hcreated
    obtain ⟨descendant2, hdesc2, hW2, _⟩ :=
      createType0Font_ok env fontDictionary fontDescriptor font hcreated
    rw [hdesc] at hdesc2
    have hsame : descendant = descendant2 := by
      simpa using hdesc2
    subst hsame
    rw [hread] at hW2
    have htable : font.m_advances = overrideTable groups :=
      (AdvancesOutcome.table.inj hW2).symm
    have hget : ∀ cid width, font.m_advances cid = some width →
        font.getGlyphAdvance cid = width := by
      intro cid width h
      unfold PDFType0Font.getGlyphAdvance
      rw [h]
    refine ⟨htable, ?_, ?_, ?_, hget⟩
    · intro front c widths back j hgroups hj hback
      have hentry : font.m_advances (c + j) = some ((widths.getD j 0 : Int) : Rat) := by
        rw [htable, hgroups, overrideTable_later_wins front _ back (c + j) hback]
        have hadv : (WGroup.list c widths).advance (c + j) =
            some ((widths.getD j 0 : Int) : Rat) := by
          simp only [WGroup.advance]
          rw [if_pos (by omega), Nat.add_sub_cancel_left]
        rw [hadv]
      exact ⟨hentry, hget _ _ hentry⟩
    · intro front first last width back cid hgroups h1 h2 hback
      have hentry : font.m_advances cid = some (width : Rat) := by
        rw [htable, hgroups, overrideTable_later_wins front _ back cid hback]
        have hadv : (WGroup.range first last width).advance cid = some (width : Rat) := by
          simp only [WGroup.advance]
          rw [if_pos ⟨h1, h2⟩]
        rw [hadv]
      exact ⟨hentry, hget _ _ hentry⟩
    · intro cid hnone
      have hentry : font.m_advances cid = none := by
        rw [htable]
        exact overrideTable_unmentioned groups cid hnone
      refine ⟨hentry, ?_⟩
      unfold PDFType0Font.getGlyphAdvance
      rw [hentry]


theorem hasKey_of_get (dictionary : List (String × Object)) (key : String)
    (h : PDFDictionary.get dictionary key ≠ Object.null) :
    PDFDictionary.hasKey dictionary key = true := by
  unfold PDFDictionary.get at h
  unfold PDFDictionary.hasKey
  cases hl : dictionary.lookup key with
  | none => rw [hl] at h; exact absurd rfl h
  | some v => rfl

/-- C38. Default advance of a composite font: `createFont` sets the default advance to the
DW value when the descendant font dictionary has a DW key (a number; 1000 for a DW that is
not a number), and otherwise to the second element of DW2, which is 0 when DW2 is absent;
so for a descendant font with neither DW nor DW2 the default advance is 0, and
`getGlyphAdvance` returns 0, not 1000, for every CID without an entry in the W table. -/
theorem composite_default_advance (env : FontEnvironment)
    (fontDictionary descendant : List (String × Object)) (fontDescriptor : FontDescriptor)
    (font : PDFType0Font)
    (htype : fontTypeOf fontDictionary = FontType.Type0)
    (hdesc : PDFDictionary.get fontDictionary "DescendantFonts" =
      Object.array [Object.dictionary descendant])
    (hcreated : createFont env (Object.dictionary fontDictionary) =
      some (Except.ok (CreatedFont.type0 fontDescriptor font))) :
    (PDFDictionary.hasKey descendant "DW" = true →
      font.m_defaultAdvance = readNumber (PDFDictionary.get descendant "DW") 1000) ∧
    (∀ value : Int, PDFDictionary.get descendant "DW" = Object.integer value →
      font.m_defaultAdvance = (value : Rat)) ∧
    (∀ value : Rat, PDFDictionary.get descendant "DW" = Object.real value →
      font.m_defaultAdvance = value) ∧
    (PDFDictionary.hasKey descendant "DW" = false →
      ∀ first second, PDFDictionary.get descendant "DW2" = Object.array [first, second] →
        font.m_defaultAdvance = readNumber second 0) ∧
    (PDFDictionary.hasKey descendant "DW" = false →
      PDFDictionary.hasKey descendant "DW2" = false →
      font.m_defaultAdvance = 0 ∧ font.m_defaultAdvance ≠ 1000 ∧
      ∀ cid, font.m_advances cid = none → font.getGlyphAdvance cid = 0) := by
  rw [createFont_type0 env fontDictionary htype] at hcreated
  obtain ⟨descendant2, hdesc2, _, hdefault⟩ :=
    createType0Font_ok env fontDictionary fontDescriptor font hcreated
  rw [hdesc] at hdesc2
  have hsame : descendant = descendant2 := by
    simpa using hdesc2
  subst hsame
  have hpresent : PDFDictionary.hasKey descendant "DW" = true →
      font.m_defaultAdvance = readNumber (PDFDictionary.get descendant "DW") 1000 := by
    intro hkey
    rw [hdefault, if_pos hkey]
    unfold readNumberFromDictionary
    rw [if_pos hkey]
  refine ⟨hpresent, ?_, ?_, ?_, ?_⟩
  · intro value hvalue
    rw [hpresent (hasKey_of_get descendant "DW" (by rw [hvalue]; simp)), hvalue]
    rfl
  · intro value hvalue
    rw [hpresent (hasKey_of_get descendant "DW" (by rw [hvalue]; simp)), hvalue]
    rfl
  · intro hkey first second hdw2
    rw [hdefault, if_neg (by simp [hkey])]
    unfold readNumberPairFromDictionary
    rw [hdw2]
  · intro hkey hkey2
    have hzero : font.m_defaultAdvance = 0 := by
      rw [hdefault, if_neg (by simp [hkey])]
      unfold readNumberPairFromDictionary
      rw [get_of_not_hasKey descendant "DW2" hkey2]
    refine ⟨hzero, ?_, ?_⟩
    · rw [hzero]
      norm_num
    · intro cid hcid
      unfold PDFType0Font.getGlyphAdvance
      rw [hcid]
      exact hzero

theorem composite_default_advance_witness :
    ∃ fontDescriptor font,
      createFont sampleCompositeEnvironment (Object.dictionary sampleWFont) =
        some (Except.ok (CreatedFont.type0 fontDescriptor font)) ∧
      (PDFDictionary.hasKey sampleWDescendant "DW" = false →
        PDFDictionary.hasKey sampleWDescendant "DW2" = false →
        font.m_defaultAdvance = 0 ∧ font.m_defaultAdvance ≠ 1000 ∧
        ∀ cid, font.m_advances cid = none → font.getGlyphAdvance cid = 0) ∧
      PDFDictionary.hasKey sampleWDescendant "DW" = false ∧
      PDFDictionary.hasKey sampleWDescendant "DW2" = false ∧
      ∃ fontDescriptor2 font2,
        createFont sampleCompositeEnvironment (Object.dictionary sampleDW2Font) =
          some (Except.ok (CreatedFont.type0 fontDescriptor2 font2)) ∧
        font2.m_defaultAdvance = -1000 :=
  ⟨_, _, rfl,
    (composite_default_advance sampleCompositeEnvironment sampleWFont sampleWDescendant _ _
      rfl rfl rfl).2.2.2.2, rfl, rfl, _, _, rfl, by decide⟩

/-- C34 on `sampleWFont`, whose W array `[1 [500 600] 2 3 700]` has the groups
`sampleWGroups`: the loop ends with the table, which has 500 for the CID 1, 700 for the CIDs
2 and 3 (the range comes after the list, which has 600 for the CID 2) and nothing for the
CIDs 0 and 4. -/
theorem w_array_parsing_witness :
    (∀ g ∈ sampleWGroups, g.wellFormed) ∧
    readW sampleWDescendant = AdvancesOutcome.table (overrideTable sampleWGroups) ∧
    createFont sampleCompositeEnvironment (Object.dictionary sampleWFont) ≠ none ∧
    overrideTable sampleWGroups 0 = none ∧
    overrideTable sampleWGroups 1 = some 500 ∧
    overrideTable sampleWGroups 2 = some 700 ∧
    overrideTable sampleWGroups 3 = some 700 ∧
    overrideTable sampleWGroups 4 = none :=
  ⟨by decide,
    (w_array_parsing sampleCompositeEnvironment sampleWFont sampleWDescendant sampleWGroups
      rfl rfl rfl (by decide)).1,
    (w_array_parsing sampleCompositeEnvironment sampleWFont sampleWDescendant sampleWGroups
      rfl rfl rfl (by decide)).2.1,
    by decide, by decide, by decide, by decide, by decide⟩

/-! ## The glyph indices of an embedded simple font -/

theorem foldl_range_glyphs (body : Nat → SimpleFontState → SimpleFontState)
    (g : (Nat → Nat) → Nat → Nat → Nat)
    (hbody : ∀ i s, body i s =
      { s with
        glyphIndexArray :=
          Function.update s.glyphIndexArray i
            (g s.simpleFontEncodingTable i (s.glyphIndexArray i)) })
    (n : Nat) (state : SimpleFontState) :
    ((List.range n).foldl (fun s i => body i s) state).encoding = state.encoding ∧
    ((List.range n).foldl (fun s i => body i s) state).simpleFontEncodingTable =
      state.simpleFontEncodingTable ∧
    ∀ c, ((List.range n).foldl (fun s i => body i s) state).glyphIndexArray c =
      if c < n then g state.simpleFontEncodingTable c (state.glyphIndexArray c)
      else state.glyphIndexArray c := by
  induction n with
  | zero => simp
  | succ n ih =>
    obtain ⟨h1, h2, h3⟩ := ih
    rw [List.range_succ, List.foldl_append, List.foldl_cons, List.foldl_nil, hbody]
    refine ⟨h1, h2, ?_⟩
    intro c
    show Function.update _ n _ c = _
    by_cases hc : c = n
    · subst hc
      rw [Function.update_same, h2, h3, if_neg (by omega), if_pos (by omega)]
    · rw [Function.update_noteq hc, h3]
      by_cases hlt : c < n
      · rw [if_pos hlt, if_pos (by omega)]
      · rw [if_neg hlt, if_neg (by omega)]

theorem forEachCode_glyphs (body : Nat → SimpleFontState → SimpleFontState)
    (g : (Nat → Nat) → Nat → Nat → Nat)
    (hbody : ∀ i s, body i s =
      { s with
        glyphIndexArray :=
          Function.update s.glyphIndexArray i
            (g s.simpleFontEncodingTable i (s.glyphIndexArray i)) })
    (state : SimpleFontState) :
    (forEachCode body state).encoding = state.encoding ∧
    (forEachCode body state).simpleFontEncodingTable = state.simpleFontEncodingTable ∧
    ∀ c, (forEachCode body state).glyphIndexArray c =
      if c < 256 then g state.simpleFontEncodingTable c (state.glyphIndexArray c)
      else state.glyphIndexArray c := by
  unfold forEachCode
  exact foldl_range_glyphs body g hbody 256 state

theorem update_glyph_self (s : SimpleFontState) (i : Nat) :
    { s with glyphIndexArray := Function.update s.glyphIndexArray i (s.glyphIndexArray i) } =
      s := by
  rw [Function.update_eq_self]

theorem fillFromUnicode_glyphs (face : FT_Face) (charIndex : Nat → Nat)
    (state : SimpleFontState) (hunicode : face.selectUnicode = some charIndex) :
    (fillFromUnicode face state).encoding = state.encoding ∧
    (fillFromUnicode face state).simpleFontEncodingTable = state.simpleFontEncodingTable ∧
    ∀ c, c < 256 → (fillFromUnicode face state).glyphIndexArray c =
      if usable (state.simpleFontEncodingTable c) ∧
          charIndex (state.simpleFontEncodingTable c) > 0 then
        charIndex (state.simpleFontEncodingTable c)
      else state.glyphIndexArray c := by
  unfold fillFromUnicode
  rw [hunicode]
  simp only []
  obtain ⟨h1, h2, h3⟩ := forEachCode_glyphs
    (fun i s =>
      let character := s.simpleFontEncodingTable i
      if character ≠ nullCharacter ∧ character ≠ replacementCharacter then
        if charIndex character > 0 then
          { s with glyphIndexArray := Function.update s.glyphIndexArray i (charIndex character) }
        else s
      else s)
    (fun table i old =>
      if usable (table i) ∧ charIndex (table i) > 0 then charIndex (table i) else old)
    (by
      intro i s
      simp only []
      by_cases hu : s.simpleFontEncodingTable i ≠ nullCharacter ∧
          s.simpleFontEncodingTable i ≠ replacementCharacter
      · by_cases hp : charIndex (s.simpleFontEncodingTable i) > 0
        · rw [if_pos hu, if_pos hp, if_pos ⟨hu, hp⟩]
        · rw [if_pos hu, if_neg hp, if_neg (fun h => hp h.2), update_glyph_self]
      · rw [if_neg hu, if_neg (fun h => hu h.1), update_glyph_self])
    state
  refine ⟨h1, h2, ?_⟩
  intro c hc
  rw [h3 c, if_pos hc]

theorem readNativeCharmaps_appleRoman (env : FontEnvironment) (face : FT_Face)
    (charIndex : Nat → Nat) (state : SimpleFontState) (hps : face.hasPSGlyphNames = false)
    (hroman : face.selectAppleRoman = some charIndex) :
    (readNativeCharmaps env face state).encoding = Encoding.Custom ∧
    (readNativeCharmaps env face state).simpleFontEncodingTable =
      env.getTableForEncoding Encoding.MacOsRoman ∧
    ∀ c, c < 256 → (readNativeCharmaps env face state).glyphIndexArray c =
      if charIndex c > 0 then charIndex c else state.glyphIndexArray c := by
  unfold readNativeCharmaps
  rw [hps, hroman]
  simp only [Bool.false_eq_true, if_false]
  obtain ⟨h1, h2, h3⟩ := forEachCode_glyphs
    (fun i s =>
      if charIndex i > 0 then
        { s with glyphIndexArray := Function.update s.glyphIndexArray i (charIndex i) }
      else s)
    (fun _ i old => if charIndex i > 0 then charIndex i else old)
    (by
      intro i s
      simp only []
      by_cases hp : charIndex i > 0
      · rw [if_pos hp, if_pos hp]
      · rw [if_neg hp, if_neg hp, update_glyph_self])
    { state with
      simpleFontEncodingTable := env.getTableForEncoding Encoding.MacOsRoman,
      encoding := Encoding.Custom }
  refine ⟨h1, h2, ?_⟩
  intro c hc
  rw [h3 c, if_pos hc]

theorem readEmbeddedFont_loaded (env : FontEnvironment) (declared : DeclaredEncoding)
    (data : List Nat) (state : SimpleFontState) (face : FT_Face)
    (hinit : env.initFreeType = true) (hface : env.newMemoryFace data = some face) :
    readEmbeddedFont env declared data state =
      fillFromUnicode face (finishFont env declared (readNativeCharmaps env face state)) := by
  unfold readEmbeddedFont
  rw [hinit, hface]
  rfl

theorem readEmbeddedFont_glyphs (env : FontEnvironment) (declared : DeclaredEncoding)
    (data : List Nat) (state : SimpleFontState) (face : FT_Face) (charIndex : Nat → Nat)
    (c : Nat) (hinit : env.initFreeType = true) (hface : env.newMemoryFace data = some face)
    (hunicode : face.selectUnicode = some charIndex) (hc : c < 256) :
    (readEmbeddedFont env declared data state).simpleFontEncodingTable c =
      (finishFont env declared (readNativeCharmaps env face state)).simpleFontEncodingTable c ∧
    (readEmbeddedFont env declared data state).glyphIndexArray c =
      if usable ((readEmbeddedFont env declared data state).simpleFontEncodingTable c) ∧
          charIndex ((readEmbeddedFont env declared data state).simpleFontEncodingTable c) > 0
      then charIndex ((readEmbeddedFont env declared data state).simpleFontEncodingTable c)
      else (readNativeCharmaps env face state).glyphIndexArray c := by
  rw [readEmbeddedFont_loaded env declared data state face hinit hface]
  obtain ⟨_, h2, h3⟩ := fillFromUnicode_glyphs face charIndex
    (finishFont env declared (readNativeCharmaps env face state)) hunicode
  rw [h2, h3 c hc, finishFont_glyphIndexArray]
  exact ⟨rfl, rfl⟩

/-- C32 (counterexample). The font `sampleEmbeddedTrueTypeFont` has the Differences
`[65 /B]` and an embedded program whose face has an Apple Roman charmap and a Unicode
charmap, both with the glyph 5 for `A` and the glyph 7 for `B`. After the native-charmap
step the glyph index of the code 65 is 5, not zero; the resolved character of the code 65
is `B`, and the font that `createFont` returns has the glyph index 7 at the code 65: the
Unicode fill has overwritten an index that was not missing. -/
theorem unicode_fill_counterexample :
    (readNativeCharmaps sampleFaceEnvironment sampleFace sampleState).glyphIndexArray 65 = 5 ∧
    createFont sampleFaceEnvironment (Object.dictionary sampleEmbeddedTrueTypeFont) =
      some (Except.ok (CreatedFont.simple FontType.TrueType
        (readEmbeddedFont sampleFaceEnvironment sampleDeclared [1, 2, 3] sampleState).encoding
        StandardFontType.Invalid
        (simpleFontOf sampleEmbeddedTrueTypeFont
          (readEmbeddedFont sampleFaceEnvironment sampleDeclared [1, 2, 3] sampleState)))) ∧
    (simpleFontOf sampleEmbeddedTrueTypeFont
      (readEmbeddedFont sampleFaceEnvironment sampleDeclared [1, 2, 3]
        sampleState)).m_encoding 65 = 66 ∧
    (simpleFontOf sampleEmbeddedTrueTypeFont
      (readEmbeddedFont sampleFaceEnvironment sampleDeclared [1, 2, 3]
        sampleState)).m_glyphIndices 65 = 7 := by
  have hnative := readNativeCharmaps_appleRoman sampleFaceEnvironment sampleFace
    (fun i => if i = 65 then 5 else if i = 66 then 7 else 0) sampleState rfl rfl
  have hglyphs := readEmbeddedFont_glyphs sampleFaceEnvironment sampleDeclared [1, 2, 3]
    sampleState sampleFace (fun character =>
      if character = 65 then 5 else if character = 66 then 7 else 0) 65 rfl rfl rfl
    (by decide)
  have hdiff : sampleDeclared.differences 65 = 66 := by
    show Function.update (fun _ => nullCharacter) 65 66 65 = 66
    rw [Function.update_same]
  have htable : (readEmbeddedFont sampleFaceEnvironment sampleDeclared [1, 2, 3]
      sampleState).simpleFontEncodingTable 65 = 66 := by
    rw [hglyphs.1, finishFont_table sampleFaceEnvironment sampleDeclared _ 65 (by decide)]
    have hm : mergedCharacter sampleDeclared
        (readNativeCharmaps sampleFaceEnvironment sampleFace sampleState).simpleFontEncodingTable
        65 = 66 := by
      unfold mergedCharacter
      rw [if_pos ⟨rfl, by rw [hdiff]; decide⟩, hdiff]
    rw [hm, if_neg (by decide)]
  refine ⟨?_, ?_, htable, ?_⟩
  · rw [hnative.2.2 65 (by decide)]
    decide
  · rw [createFont_simple sampleFaceEnvironment sampleEmbeddedTrueTypeFont (Or.inr rfl)]
    rfl
  · show (readEmbeddedFont sampleFaceEnvironment sampleDeclared [1, 2, 3]
      sampleState).glyphIndexArray 65 = 7
    rw [hglyphs.2, htable]
    decide

/-- C32 (amended). In `createFont` for an embedded simple font whose program FreeType loads
and whose face has a Unicode charmap, for every code `c` the final code-to-glyph-index table
holds the Unicode-charmap glyph index of the resolved character of `c` when that character
is neither null nor the replacement character and the index is non-zero, and otherwise the
index left by the native-charmap step. So a code whose index was already non-zero keeps it
when the Unicode lookup of its resolved character finds no glyph, and a code whose index
was 0 can receive an index only from the Unicode lookup of its resolved character. -/
theorem unicode_fill_overrides_native_index (env : FontEnvironment)
    (declared : DeclaredEncoding) (data : List Nat) (state : SimpleFontState) (face : FT_Face)
    (charIndex : Nat → Nat) (c : Nat) (hinit : env.initFreeType = true)
    (hface : env.newMemoryFace data = some face)
    (hunicode : face.selectUnicode = some charIndex) (hc : c < 256) :
    (readEmbeddedFont env declared data state).glyphIndexArray c =
      (if usable ((readEmbeddedFont env declared data state).simpleFontEncodingTable c) ∧
          charIndex ((readEmbeddedFont env declared data state).simpleFontEncodingTable c) > 0
      then charIndex ((readEmbeddedFont env declared data state).simpleFontEncodingTable c)
      else (readNativeCharmaps env face state).glyphIndexArray c) ∧
    ((¬ usable ((readEmbeddedFont env declared data state).simpleFontEncodingTable c) ∨
        charIndex ((readEmbeddedFont env declared data state).simpleFontEncodingTable c) = 0) →
      (readEmbeddedFont env declared data state).glyphIndexArray c =
        (readNativeCharmaps env face state).glyphIndexArray c) ∧
    ((readNativeCharmaps env face state).glyphIndexArray c = 0 →
      (readEmbeddedFont env declared data state).glyphIndexArray c ≠ 0 →
      usable ((readEmbeddedFont env declared data state).simpleFontEncodingTable c) ∧
      (readEmbeddedFont env declared data state).glyphIndexArray c =
        charIndex ((readEmbeddedFont env declared data state).simpleFontEncodingTable c)) := by
  have h := (readEmbeddedFont_glyphs env declared data state face charIndex c hinit hface
    hunicode hc).2
  refine ⟨h, ?_, ?_⟩
  · intro hno
    rw [h, if_neg]
    rintro ⟨hu, hp⟩
    rcases hno with hno | hno
    · exact hno hu
    · omega
  · intro hzero hfinal
    by_cases hcond :
        usable ((readEmbeddedFont env declared data state).simpleFontEncodingTable c) ∧
          charIndex ((readEmbeddedFont env declared data state).simpleFontEncodingTable c) > 0
    · refine ⟨hcond.1, ?_⟩
      rw [h, if_pos hcond]
    · rw [h, if_neg hcond] at hfinal
      exact absurd hzero hfinal

theorem unicode_fill_overrides_native_index_witness :
    (readEmbeddedFont sampleFaceEnvironment sampleDeclared [1, 2, 3]
        sampleState).glyphIndexArray 65 =
      (if usable ((readEmbeddedFont sampleFaceEnvironment sampleDeclared [1, 2, 3]
            sampleState).simpleFontEncodingTable 65) ∧
          (fun character => if character = 65 then 5 else if character = 66 then 7 else 0)
            ((readEmbeddedFont sampleFaceEnvironment sampleDeclared [1, 2, 3]
              sampleState).simpleFontEncodingTable 65) > 0
      then (fun character => if character = 65 then 5 else if character = 66 then 7 else 0)
        ((readEmbeddedFont sampleFaceEnvironment sampleDeclared [1, 2, 3]
          sampleState).simpleFontEncodingTable 65)
      else (readNativeCharmaps sampleFaceEnvironment sampleFace sampleState).glyphIndexArray
        65) :=
  (unicode_fill_overrides_native_index sampleFaceEnvironment sampleDeclared [1, 2, 3]
    sampleState sampleFace
    (fun character => if character = 65 then 5 else if character = 66 then 7 else 0) 65
    rfl rfl rfl (by decide)).1

end PDF4QT
